import Mathlib

/-!
Shallow embedding of the `account_payment_return` module
(`src/account_payment_return/models/payment_return.py`).

The module is business logic over an ORM: payment returns and their lines
query and mutate a database of journal entries (`account.move`), journal
items (`account.move.line`), partial reconciliations
(`account.partial.reconcile`), journals, accounts and partners.  We embed
that database as an explicit `State` record holding one list per table,
and each method of `PaymentReturn` / `PaymentReturnLine` as a function on
`State`.  A raised `UserError` / `ValidationError` is an `Except.error`
(the surrounding transaction rolls back, so an error leaves the database
unchanged).  Monetary amounts are embedded as integers `ℤ` counted in
the currency's smallest representable unit, and a currency rounding is a
whole (positive) number of such units; sums, comparisons and the
`float_compare`/`float_round` helpers keep their exact source semantics
under this scaling.  Record ids are `Nat`; newly created records take
ids from `State.nextId`.
-/

namespace PaymentReturnModel

/-- Errors raised by the module: `UserError` / `ValidationError` with the
message they carry.  `validationDuplicate` carries the ids of the payment
return lines listed by `append_error` in `_check_duplicate_move_line`. -/
inductive UErr where
  /-- "You can not remove a payment return if state is 'Done'" -/
  | removeDone : UErr
  /-- "You must input all moves references in the payment return." -/
  | incompleteLines : UErr
  /-- "All payments must be owned by the same partner" -/
  | samePartner : UErr
  /-- "Payment reference must be unique\n..." with one entry per offending
  payment return line, in the order `append_error` was called. -/
  | validationDuplicate : List Nat → UErr
  /-- A record lookup failed (`ensure_one` on an empty recordset, a broken
  foreign key): not reachable on a well-formed database. -/
  | recordMissing : UErr
deriving Repr, DecidableEq

/-- `res.partner`. -/
structure Partner where
  id : Nat
  name : String
deriving Repr, DecidableEq

/-- `account.account`: only the fields the module reads.  `internalType` is
`account_id.internal_type` (equally `user_type_id.type`); `reconcile`
whether move lines on this account can be reconciled. -/
structure Account where
  id : Nat
  internalType : String
  reconcile : Bool
deriving Repr, DecidableEq

/-- `account.journal`: only the fields the module reads. -/
structure Journal where
  id : Nat
  returnAutoReconcile : Bool
  paymentCreditAccountId : Nat
  defaultAccountId : Nat
  defaultExpenseAccountId : Option Nat
  defaultExpensePartnerId : Option Nat
deriving Repr, DecidableEq

/-- `account.move` (journal entry).  `state` is "draft" or "posted";
`returnedPayment` is the `returned_payment` flag this module writes on
invoices. -/
structure Move where
  id : Nat
  name : String
  ref : String
  journalId : Nat
  moveType : String
  state : String
  partnerId : Option Nat
  returnedPayment : Bool
  date : Nat
  companyId : Nat
deriving Repr, DecidableEq

/-- `account.move.line` (journal item).  `accountId` points into
`State.accounts`; `moveId` into `State.moves`. -/
structure MoveLine where
  id : Nat
  name : String
  moveId : Nat
  debit : ℤ
  credit : ℤ
  accountId : Nat
  partnerId : Option Nat
  journalId : Nat
deriving Repr, DecidableEq

/-- `account.partial.reconcile`: a partial reconciliation of amount
`amount` between the debit move line `debitMoveId` and the credit move
line `creditMoveId`.  `originReturnedMoveIds` is the
`origin_returned_move_ids` many2many this module writes. -/
structure PartialReconcile where
  id : Nat
  debitMoveId : Nat
  creditMoveId : Nat
  amount : ℤ
  originReturnedMoveIds : List Nat
deriving Repr, DecidableEq

/-- The `state` selection field of `payment.return`. -/
inductive RState where
  | draft : RState
  | imported : RState
  | done : RState
  | cancelled : RState
deriving Repr, DecidableEq

/-- `payment.return.line`.  Char fields that may be unset are `Option`
(`none` is a falsy/unset value). -/
structure ReturnLine where
  id : Nat
  returnId : Nat
  concept : Option String
  reference : Option String
  moveLineIds : List Nat
  partnerName : Option String
  partnerId : Option Nat
  amount : ℤ
  expenseAccountId : Option Nat
  expenseAmount : ℤ
  expensePartnerId : Option Nat
deriving Repr, DecidableEq

/-- `payment.return`. -/
structure PaymentReturn where
  id : Nat
  companyId : Nat
  date : Nat
  name : String
  journalId : Nat
  moveId : Option Nat
  state : RState
deriving Repr, DecidableEq

/-- The database.  One list per table (list order is the table's record
order); `nextId` is the next free id for every table;
`userCompanyRounding` is `self.env.user.company_id.currency_id.rounding`
read by `_auto_reconcile`. -/
structure State where
  partners : List Partner
  accounts : List Account
  journals : List Journal
  moves : List Move
  moveLines : List MoveLine
  partials : List PartialReconcile
  returnLines : List ReturnLine
  returns : List PaymentReturn
  nextId : Nat
  userCompanyRounding : ℤ
deriving Repr, DecidableEq

namespace State

def getPartner (s : State) (i : Nat) : Option Partner :=
  s.partners.find? (fun p => p.id == i)

def getAccount (s : State) (i : Nat) : Option Account :=
  s.accounts.find? (fun a => a.id == i)

def getJournal (s : State) (i : Nat) : Option Journal :=
  s.journals.find? (fun j => j.id == i)

def getMove (s : State) (i : Nat) : Option Move :=
  s.moves.find? (fun m => m.id == i)

def getMoveLine (s : State) (i : Nat) : Option MoveLine :=
  s.moveLines.find? (fun l => l.id == i)

def getReturn (s : State) (i : Nat) : Option PaymentReturn :=
  s.returns.find? (fun r => r.id == i)

def getReturnLine (s : State) (i : Nat) : Option ReturnLine :=
  s.returnLines.find? (fun l => l.id == i)

/-- Browse a list of move line ids into records, in the order of the ids
(missing ids are dropped; a well-formed database has none missing). -/
def linesOf (s : State) (ids : List Nat) : List MoveLine :=
  ids.filterMap s.getMoveLine

/-- `move.line_ids`: the move lines of journal entry `mid`, in table
order. -/
def moveLinesOf (s : State) (mid : Nat) : List MoveLine :=
  s.moveLines.filter (fun l => l.moveId == mid)

/-- `line.account_id.internal_type` (`""` when the account is missing). -/
def accountInternalType (s : State) (l : MoveLine) : String :=
  ((s.getAccount l.accountId).map (fun a => a.internalType)).getD ""

end State

/-- Append an id to a recordset unless already present. -/
def rsInsert (a : List Nat) (i : Nat) : List Nat :=
  if a.contains i then a else a ++ [i]

/-- Recordset union `a |= b` on ids: append the ids of `b` not already
present, keeping first-occurrence order. -/
def rsUnion (a b : List Nat) : List Nat :=
  b.foldl rsInsert a

/-- Deduplicate a list of ids / values keeping first occurrences, as
`recordset.mapped(field)` does. -/
def rsDedup (b : List Nat) : List Nat :=
  rsUnion [] b

/-- Write fields on the return line with id `i`: map the update over the
table. -/
def updLine (i : Nat) (f : ReturnLine → ReturnLine) (st : State) : State :=
  { st with
    returnLines := st.returnLines.map
      (fun l2 => if l2.id == i then f l2 else l2) }

/-- `odoo.tools.float_round(value, precision_rounding=r)`: round to the
nearest multiple of `r`, ties away from zero (HALF-UP);
`⌊x/r + 1/2⌋ = ⌊(2x + r) / (2r)⌋` is computed with floor division. -/
def float_round (value rounding : ℤ) : ℤ :=
  if rounding ≤ 0 then value
  else if 0 ≤ value then
    rounding * ((2 * value + rounding).ediv (2 * rounding))
  else -(rounding * ((2 * (-value) + rounding).ediv (2 * rounding)))

/-- `odoo.tools.float_is_zero(value, precision_rounding=r)`: the value
rounds to less than one rounding step. -/
def float_is_zero (value rounding : ℤ) : Bool :=
  (float_round value rounding).natAbs < rounding.natAbs

/-- `odoo.tools.float_compare(v1, v2, precision_rounding=r)`: `0` when the
difference rounds to zero, else the sign of `v1 - v2`. -/
def float_compare (v1 v2 rounding : ℤ) : Int :=
  if float_is_zero (v1 - v2) rounding then 0
  else if v1 < v2 then -1 else 1

namespace State

/-- `line.amount_residual` of a move line: its balance (debit − credit)
net of the partial reconciliations it takes part in.  A partial on the
debit side consumes positive balance, one on the credit side consumes
negative balance. -/
def residual (s : State) (l : MoveLine) : ℤ :=
  (l.debit - l.credit)
    - ((s.partials.filter (fun p => p.debitMoveId == l.id)).map
        (fun p => p.amount)).sum
    + ((s.partials.filter (fun p => p.creditMoveId == l.id)).map
        (fun p => p.amount)).sum

/-- `line.reconciled`: a move line on a reconcilable account whose
residual is zero (framework computed field; spec glossary:
"Linking debit and credit move lines that net to zero, marking them
settled"). -/
def reconciledML (s : State) (l : MoveLine) : Bool :=
  (((s.getAccount l.accountId).map (fun a => a.reconcile)).getD false)
    && (s.residual l == 0)

/-- `line.remove_move_reconcile()`: delete every partial reconciliation
the move line takes part in (framework). -/
def removeMoveReconcile (s : State) (lid : Nat) : State :=
  { s with
    partials := s.partials.filter
      (fun p => !(p.debitMoveId == lid) && !(p.creditMoveId == lid)) }

end State

/-- The partials `lines.reconcile()` creates (framework; spec glossary:
"Linking debit and credit move lines that net to zero, marking them
settled"): walk the debit lines (id, positive residual) and credit lines
(id, minus their negative residual) in order, matching
`min` of the two residuals each step. -/
def mkRecParts (nid : Nat) :
    List (Nat × ℤ) → List (Nat × ℤ) → List PartialReconcile
  | [], _ => []
  | _ :: _, [] => []
  | d :: ds, c :: cs =>
    let a := min d.2 c.2
    let p : PartialReconcile :=
      { id := nid, debitMoveId := d.1, creditMoveId := c.1, amount := a
        originReturnedMoveIds := [] }
    if d.2 ≤ c.2 then
      if d.2 == c.2 then p :: mkRecParts (nid + 1) ds cs
      else p :: mkRecParts (nid + 1) ds ((c.1, c.2 - a) :: cs)
    else p :: mkRecParts (nid + 1) ((d.1, d.2 - a) :: ds) cs
termination_by d c => d.length + c.length

namespace State

/-- `lines.reconcile()` on the move lines `ids` (framework): create
partial reconciliations pairing the lines with positive residual against
the lines with negative residual, greedily in recordset order. -/
def reconcileLines (s : State) (ids : List Nat) : State :=
  let lines := s.linesOf ids
  let debits := (lines.filter (fun l => decide (0 < s.residual l))).map
    (fun l => (l.id, s.residual l))
  let credits := (lines.filter (fun l => decide (s.residual l < 0))).map
    (fun l => (l.id, -(s.residual l)))
  let newPs := mkRecParts s.nextId debits credits
  { s with partials := s.partials ++ newPs, nextId := s.nextId + newPs.length }

end State

namespace PaymentReturnLine

/-- `line.move_line_ids.mapped("partner_id")`: the distinct non-null
partner ids of the line's move lines, first-occurrence order. -/
def mappedPartners (s : State) (l : ReturnLine) : List Nat :=
  rsDedup ((s.linesOf l.moveLineIds).filterMap (fun ml => ml.partnerId))

/-- `PaymentReturnLine._compute_amount` for one line:
`sum(line.move_line_ids.mapped("credit"))`. -/
def computedAmount (s : State) (l : ReturnLine) : ℤ :=
  ((s.linesOf l.moveLineIds).map (fun ml => ml.credit)).sum

/-- The write `_get_partner_from_move` performs on a partner-less line:
`line.partner_id = partners[:1].id; line.partner_name = partners[:1].name`
(`False`, i.e. `none`, when `partners` is empty). -/
def gpfmUpd (s : State) (l : ReturnLine) : ReturnLine → ReturnLine :=
  fun l2 =>
    { l2 with
      partnerId := (mappedPartners s l).head?,
      partnerName := ((mappedPartners s l).head?.bind s.getPartner).map
        (fun p => p.name) }

/-- The loop of `_get_partner_from_move` over the partner-less lines:
raise when a line's move lines span more than one partner, else write the
unique partner onto the line. -/
def gpfmRun (s : State) : State → List ReturnLine → Except UErr State
  | st, [] => Except.ok st
  | st, l :: t =>
    if 1 < (mappedPartners s l).length then Except.error UErr.samePartner
    else gpfmRun s (updLine l.id (gpfmUpd s l) st) t

/-- `PaymentReturnLine._get_partner_from_move` on the recordset of line
ids `ids`: iterate `self.filtered(lambda x: not x.partner_id)`. -/
def _get_partner_from_move (s : State) (ids : List Nat) : Except UErr State :=
  gpfmRun s s
    ((ids.filterMap s.getReturnLine).filter (fun l => !l.partnerId.isSome))

/-- `PaymentReturnLine._prepare_return_move_line_vals(move)` for the
line `rl`, creating the move line with id `lineId` on entry `mvId`:
name "Return <return name>", debit the move amount
(`PaymentReturn._get_move_amount`, i.e. `rl.amount`), credit `0`, the
account of the line's first matched move line, the line's partner and
the return's journal. -/
def _prepare_return_move_line_vals (s : State) (pr : PaymentReturn)
    (rl : ReturnLine) (mvId lineId : Nat) : MoveLine :=
  { id := lineId, name := "Return " ++ pr.name, moveId := mvId,
    debit := rl.amount, credit := 0,
    accountId := ((rl.moveLineIds.head?.bind s.getMoveLine).map
      (fun ml => ml.accountId)).getD 0,
    partnerId := rl.partnerId, journalId := pr.journalId }

/-- `PaymentReturnLine._prepare_expense_lines_vals(move)` for the line
`rl`: a credit of `expense_amount` on the journal's default account and
a matching debit on the line's charges account (ids `base`, `base+1`;
no `journal_id` in the vals, so the entry's journal applies). -/
def _prepare_expense_lines_vals (s : State) (pr : PaymentReturn)
    (rl : ReturnLine) (mv : Move) (base : Nat) : List MoveLine :=
  [{ id := base, name := mv.ref, moveId := mv.id, debit := 0,
     credit := rl.expenseAmount,
     accountId := ((s.getJournal pr.journalId).map
       (fun j => j.defaultAccountId)).getD 0,
     partnerId := rl.expensePartnerId, journalId := mv.journalId },
   { id := base + 1, name := mv.ref, moveId := mv.id,
     debit := rl.expenseAmount, credit := 0,
     accountId := rl.expenseAccountId.getD 0,
     partnerId := rl.expensePartnerId, journalId := mv.journalId }]

end PaymentReturnLine

namespace PaymentReturn

/-- `self.mapped("line_ids")` for the checked returns `rids`: the lines of
each checked return, in order. -/
def checkedLines (s : State) (rids : List Nat) : List ReturnLine :=
  ((rids.filterMap s.getReturn).map
    (fun r => s.returnLines.filter (fun l => l.returnId == r.id))).flatten

/-- The inner loop of `_check_duplicate_move_line` over one line's
`move_line_ids`: `if move_line in all_move_lines: append_error(line)`
(recorded as the line id `lid`), then `all_move_lines |= move_line`. -/
def dupScanLine (lid : Nat) : List Nat → List Nat → List Nat →
    List Nat × List Nat
  | [], all, errs => (all, errs)
  | m :: ms, all, errs =>
    if all.contains m then dupScanLine lid ms (rsInsert all m) (errs ++ [lid])
    else dupScanLine lid ms (rsInsert all m) errs

/-- The first loop of `_check_duplicate_move_line`: scan the checked
lines' move lines in order, accumulating `all_move_lines` and recording
an error entry whenever a move line was already seen. -/
def dupScan : List ReturnLine → List Nat → List Nat → List Nat × List Nat
  | [], all, errs => (all, errs)
  | l :: t, all, errs =>
    dupScan t (dupScanLine l.id l.moveLineIds all errs).1
      (dupScanLine l.id l.moveLineIds all errs).2

/-- The `search` of `_check_duplicate_move_line`: every
`payment.return.line` holding one of the move lines `all` whose return
is in state "done". -/
def dupSearchDone (s : State) (all : List Nat) : List ReturnLine :=
  s.returnLines.filter (fun l =>
    (l.moveLineIds.any (fun i => all.contains i))
      && (((s.getReturn l.returnId).map
            (fun r => r.state == RState.done)).getD false))

/-- The full error list `_check_duplicate_move_line` builds: the entries
of the duplicate scan, then — only when that scan found nothing and some
move line was seen — one entry per line found by the "done" search. -/
def dupErrs (s : State) (rids : List Nat) : List Nat :=
  (dupScan (checkedLines s rids) [] []).2
    ++ (if (dupScan (checkedLines s rids) [] []).2.isEmpty
          && !(dupScan (checkedLines s rids) [] []).1.isEmpty then
        (dupSearchDone s (dupScan (checkedLines s rids) [] []).1).map
          (fun l => l.id)
      else [])

/-- `PaymentReturn._check_duplicate_move_line` on the returns `rids`:
raise `ValidationError` with the recorded entries when there are any. -/
def _check_duplicate_move_line (s : State) (rids : List Nat) :
    Except UErr Unit :=
  if (dupErrs s rids).isEmpty then Except.ok ()
  else Except.error (UErr.validationDuplicate (dupErrs s rids))

/-- `PaymentReturn._compute_total_amount` for the return `rid`:
`read_group` sums `amount` over the return's lines grouped by
`return_id`; a return absent from the grouping result gets `0.0`. -/
def _compute_total_amount (s : State) (rid : Nat) : ℤ :=
  let groups : List (Nat × ℤ) :=
    [rid].filterMap (fun i =>
      let ls := s.returnLines.filter (fun l => l.returnId == i)
      if ls.isEmpty then none else some (i, (ls.map (fun l => l.amount)).sum))
  match groups.lookup rid with
  | some t => t
  | none => 0

/-- The counterpart accumulation loop of `_auto_reconcile`: for each of
the given move lines, its journal entry must have exactly two lines
(otherwise the method returns early, `none` here); the entry's other
line joins the counterpart recordset. -/
def counterpartsOf (s : State) (mlIds : List Nat) : Option (List Nat) :=
  (s.linesOf mlIds).foldl
    (fun acc ml =>
      match acc with
      | none => none
      | some cps =>
        let mvLines := s.moveLinesOf ml.moveId
        if mvLines.length ≠ 2 then none
        else some (rsUnion cps
          ((mvLines.filter (fun l => !(l.id == ml.id))).map (fun l => l.id))))
    (some [])

/-- `self.journal_id.return_auto_reconcile` for the return `rid`. -/
def autoRecEnabled (s : State) (rid : Nat) : Bool :=
  (((s.getReturn rid).bind (fun pr => s.getJournal pr.journalId)).map
    (fun j => j.returnAutoReconcile)).getD false

/-- `PaymentReturn._auto_reconcile(credit_move_line, all_move_lines,
total_amount)` for the return `rid`: nothing unless the journal option
`return_auto_reconcile` is set; nothing if some matched line's entry
does not have exactly two lines; reconcile the credit move line with the
counterpart lines when the counterpart set is non-empty, the total
amount equals the counterparts' debit sum under the user company's
currency rounding, no counterpart is reconciled, and all the lines to
reconcile share a single account. -/
def _auto_reconcile (s : State) (rid creditMoveLineId : Nat)
    (allMoveLines : List Nat) (totalAmount : ℤ) : State :=
  if !autoRecEnabled s rid then s
  else
    match counterpartsOf s allMoveLines with
    | none => s
    | some cpIds =>
      if ¬cpIds.isEmpty
          ∧ float_compare totalAmount
              (((s.linesOf cpIds).map (fun l => l.debit)).sum)
              s.userCompanyRounding = 0
          ∧ ¬((s.linesOf cpIds).any (fun l => s.reconciledML l)) then
        if (rsDedup ((s.linesOf (rsUnion [creditMoveLineId] cpIds)).map
            (fun l => l.accountId))).length ≠ 1 then s
        else s.reconcileLines (rsUnion [creditMoveLineId] cpIds)
      else s

/-- `PaymentReturn._prepare_return_move_vals`: the journal entry created
from the return (name "/", ref "Return <name>", the return's journal,
date and company; an `account.move` defaults to type "entry" and state
"draft"). -/
def _prepare_return_move_vals (pr : PaymentReturn) (mvId : Nat) : Move :=
  { id := mvId, name := "/", ref := "Return " ++ pr.name,
    journalId := pr.journalId, moveType := "entry", state := "draft",
    partnerId := none, returnedPayment := false, date := pr.date,
    companyId := pr.companyId }

/-- `PaymentReturn._prepare_move_line(move, total_amount)`: the single
credit line on the journal's `payment_credit_account_id`. -/
def _prepare_move_line (s : State) (pr : PaymentReturn) (mv : Move)
    (total : ℤ) (lineId : Nat) : MoveLine :=
  { id := lineId, name := mv.ref, moveId := mv.id, debit := 0,
    credit := total,
    accountId := ((s.getJournal pr.journalId).map
      (fun j => j.paymentCreditAccountId)).getD 0,
    partnerId := none, journalId := mv.journalId }

/-- The first loop of `action_confirm`: one debit move line per return
line, with ids `base`, `base + 1`, ... in line order. -/
def confirmDebitLines (s : State) (pr : PaymentReturn) :
    List ReturnLine → Nat → Nat → List MoveLine
  | [], _, _ => []
  | rl :: rest, mvId, base =>
    PaymentReturnLine._prepare_return_move_line_vals s pr rl mvId base
      :: confirmDebitLines s pr rest mvId (base + 1)

/-- The return lines paired with the ids of their created debit move
lines (`return_line_map`). -/
def confirmPairs : List ReturnLine → Nat → List (ReturnLine × Nat)
  | [], _ => []
  | rl :: rest, base => (rl, base) :: confirmPairs rest (base + 1)

/-- One iteration of the inner loop of `action_confirm` over a matched
move line `mlId` of the return line `rl` (`ml2Id` is the id of the
line's freshly created debit move line).  The accumulator is the state,
the collected invoice move ids, and `all_move_lines`.  In source order:
read the returned (invoice) debit lines from the matched-debit partials,
extend `all_move_lines` and `invoices`, drop every reconciliation of the
matched line, reconcile it with the new debit line, then write
`origin_returned_move_ids` on the matched-debit partials of all the
return line's move lines. -/
def confirmProcessMl (rl : ReturnLine) (ml2Id : Nat)
    (acc : State × List Nat × List Nat) (mlId : Nat) :
    State × List Nat × List Nat :=
  let st := acc.1
  let returnedMoveIds := rsDedup
    ((st.partials.filter (fun p => p.creditMoveId == mlId)).map
      (fun p => p.debitMoveId))
  let invoices2 := rsUnion acc.2.1
    (rsDedup ((st.linesOf returnedMoveIds).map (fun l => l.moveId)))
  let allMls2 := rsUnion acc.2.2 [mlId]
  let st1 := st.removeMoveReconcile mlId
  let st2 := st1.reconcileLines [mlId, ml2Id]
  let st3 := { st2 with
    partials := st2.partials.map (fun p =>
      if rl.moveLineIds.contains p.creditMoveId then
        { p with originReturnedMoveIds := returnedMoveIds }
      else p) }
  (st3, invoices2, allMls2)

/-- One iteration of the second loop of `action_confirm` over a return
line and its new debit line: process each matched move line, then create
the expense lines when `expense_amount` is set (the base implementation
of `_prepare_extra_move_lines` returns no extra lines). -/
def confirmProcessLine (pr : PaymentReturn) (mv : Move)
    (acc : State × List Nat × List Nat) (rlp : ReturnLine × Nat) :
    State × List Nat × List Nat :=
  let acc1 := rlp.1.moveLineIds.foldl (confirmProcessMl rlp.1 rlp.2) acc
  if rlp.1.expenseAmount ≠ 0 then
    ({ acc1.1 with
       moveLines := acc1.1.moveLines
         ++ PaymentReturnLine._prepare_expense_lines_vals acc1.1 pr rlp.1
              mv acc1.1.nextId,
       nextId := acc1.1.nextId + 2 }, acc1.2.1, acc1.2.2)
  else acc1

/-- The return's lines `self.line_ids` read by `action_confirm`. -/
def confirmLines (s : State) (rid : Nat) : List ReturnLine :=
  s.returnLines.filter (fun l => l.returnId == rid)

/-- The `total_amount` computed by the first loop of `action_confirm`:
the sum of the created debit lines' debits. -/
def confirmTotal (s : State) (rid : Nat) (pr : PaymentReturn) : ℤ :=
  ((confirmDebitLines s pr (confirmLines s rid) s.nextId
    (s.nextId + 1)).map (fun l => l.debit)).sum

/-- The `credit_move_line` created by `action_confirm` (id right after
the per-line debit lines). -/
def confirmCml (s : State) (rid : Nat) (pr : PaymentReturn) : MoveLine :=
  _prepare_move_line s pr (_prepare_return_move_vals pr s.nextId)
    (confirmTotal s rid pr) (s.nextId + 1 + (confirmLines s rid).length)

/-- The state after `action_confirm` created the journal entry (id
`s.nextId`), the per-line debit lines, the credit line, and posted the
entry (`move._post()`). -/
def confirmPosted (s : State) (rid : Nat) (pr : PaymentReturn) : State :=
  { s with
    moves := (s.moves ++ [_prepare_return_move_vals pr s.nextId]).map
      (fun m => if m.id == s.nextId then { m with state := "posted" }
        else m),
    moveLines := s.moveLines
      ++ confirmDebitLines s pr (confirmLines s rid) s.nextId (s.nextId + 1)
      ++ [confirmCml s rid pr],
    nextId := s.nextId + 1 + (confirmLines s rid).length + 1 }

/-- The second loop of `action_confirm`: fold `confirmProcessLine` over
the return lines paired with their debit line ids, starting from the
posted state with empty `invoices` / `all_move_lines`. -/
def confirmAcc (s : State) (rid : Nat) (pr : PaymentReturn) :
    State × List Nat × List Nat :=
  (confirmPairs (confirmLines s rid) (s.nextId + 1)).foldl
    (confirmProcessLine pr (_prepare_return_move_vals pr s.nextId))
    (confirmPosted s rid pr, [], [])

/-- The final state `action_confirm` commits: auto-reconcile (if the
journal option is set), flag the returned invoices, and move the return
to "done" pointing at the created entry. -/
def confirmBody (s : State) (rid : Nat) (pr : PaymentReturn) : State :=
  let acc := confirmAcc s rid pr
  let s5 := _auto_reconcile acc.1 rid (confirmCml s rid pr).id acc.2.2
    (confirmTotal s rid pr)
  let s6 : State :=
    { s5 with moves := s5.moves.map (fun m =>
        if acc.2.1.contains m.id then { m with returnedPayment := true }
        else m) }
  { s6 with returns := s6.returns.map (fun r =>
      if r.id == rid then
        { r with state := RState.done, moveId := some s.nextId }
      else r) }

/-- `PaymentReturn.action_confirm` on the single return `rid`: check
that every line has matched move lines, create the journal entry and its
per-line debit lines and single credit line, post the entry, run the
reconciliation loop, auto-reconcile when the journal option is set, flag
the returned invoices, and move the return to state "done". -/
def action_confirm (s : State) (rid : Nat) : Except UErr State :=
  match s.getReturn rid with
  | none => Except.error UErr.recordMissing
  | some pr =>
    if (s.returnLines.filter (fun l => l.returnId == rid)).any
        (fun l => l.moveLineIds.isEmpty) then
      Except.error UErr.incompleteLines
    else Except.ok (confirmBody s rid pr)

/-- `PaymentReturn.unlink` on the recordset of return ids `rids`: raise
when one of them is in state "done", else delete them (and, by the
`ondelete="cascade"` on `payment.return.line.return_id`, their lines). -/
def unlink (s : State) (rids : List Nat) : Except UErr State :=
  if (s.returns.filter (fun r => rids.contains r.id)).any
      (fun r => r.state == RState.done) then
    Except.error UErr.removeDone
  else
    Except.ok
      { s with
        returns := s.returns.filter (fun r => !rids.contains r.id),
        returnLines := s.returnLines.filter (fun l => !rids.contains l.returnId) }

end PaymentReturn

/-- Two database states agreeing on every table (they may differ in
`partials`, `nextId` and `userCompanyRounding`). -/
def sameTables (a b : State) : Prop :=
  a.partners = b.partners ∧ a.accounts = b.accounts
    ∧ a.journals = b.journals ∧ a.moves = b.moves
    ∧ a.moveLines = b.moveLines ∧ a.returnLines = b.returnLines
    ∧ a.returns = b.returns

/-- Two database states agreeing on every table except `moveLines` (and
`partials` / `nextId`). -/
def sameTablesNoML (a b : State) : Prop :=
  a.partners = b.partners ∧ a.accounts = b.accounts
    ∧ a.journals = b.journals ∧ a.moves = b.moves
    ∧ a.returnLines = b.returnLines ∧ a.returns = b.returns

/-- The shape of the extra move lines the second loop of
`action_confirm` appends: for each return line in order, its two expense
lines (at some fresh base id) when `expense_amount` is set, nothing
otherwise. -/
inductive ExpPairs (s : State) (pr : PaymentReturn) (mv : Move) :
    List ReturnLine → List MoveLine → Prop where
  | nil : ExpPairs s pr mv [] []
  | skip (rl : ReturnLine) (rest : List ReturnLine) (E : List MoveLine) :
      rl.expenseAmount = 0 → ExpPairs s pr mv rest E →
      ExpPairs s pr mv (rl :: rest) E
  | pair (rl : ReturnLine) (rest : List ReturnLine) (E : List MoveLine)
      (b : Nat) :
      rl.expenseAmount ≠ 0 → ExpPairs s pr mv rest E →
      ExpPairs s pr mv (rl :: rest)
        (PaymentReturnLine._prepare_expense_lines_vals s pr rl mv b ++ E)

namespace PaymentReturn

/-- One iteration of the inner loop of `action_cancel` over a partial
reconciliation `p` of a receivable line of the return's entry
(`partial_line` in the source, with `p.debitMoveId` the receivable
line): collect the invoices of `origin_returned_move_ids`, drop every
reconciliation of the credit move line, then reconcile the origin lines
together with it (`lines2reconcile.reconcile()`).  The accumulator is
the state and the collected invoice move ids. -/
def cancelProcessOne (acc : State × List Nat) (p : PartialReconcile) :
    State × List Nat :=
  let st := acc.1
  let invs2 := rsUnion acc.2
    (rsDedup ((st.linesOf p.originReturnedMoveIds).map
      (fun l => l.moveId)))
  let st1 := st.removeMoveReconcile p.creditMoveId
  let st2 := st1.reconcileLines
    (rsUnion p.originReturnedMoveIds [p.creditMoveId])
  (st2, invs2)

/-- One iteration of the outer loop of `action_cancel` over a receivable
move line of the return's entry: walk the snapshot of its
`matched_credit_ids` (the partials whose debit side is the line). -/
def cancelProcessLine (acc : State × List Nat) (rmlId : Nat) :
    State × List Nat :=
  (acc.1.partials.filter (fun p => p.debitMoveId == rmlId)).foldl
    cancelProcessOne acc

/-- `account.move.check_payment_return` is not part of this repository's
sources.  Modelled from the spec ("tracking which invoices were
affected"): recompute `returned_payment` on each of the given moves -
a move is a returned payment exactly when some partial reconciliation
still records one of the move's lines among its
`origin_returned_move_ids`. -/
def check_payment_return (s : State) (mvIds : List Nat) : State :=
  { s with moves := s.moves.map (fun mm =>
      if mvIds.contains mm.id then
        { mm with returnedPayment :=
            s.partials.any (fun p =>
              (s.linesOf p.originReturnedMoveIds).any
                (fun l => l.moveId == mm.id)) }
      else mm) }

/-- `PaymentReturn.action_cancel` on the return `rid`: for every
receivable line of the return's journal entry, for each of its
matched-credit partials, un-reconcile the credit move line and reconcile
it with the originally returned move lines; then delete the return's
entry (with its move lines and, by cascade, the partials touching them;
the `button_draft` call only flips the entry to "draft" right before the
deletion, so it leaves no trace in the final state), move the return to
state "cancelled" with `move_id` cleared, and recompute
`returned_payment` on the collected invoices.  Browsing a missing id
gives an empty recordset, on which every step is a no-op. -/
def action_cancel (s : State) (rid : Nat) : State :=
  match s.getReturn rid with
  | none => s
  | some pr =>
    let rmls : List Nat := match pr.moveId with
      | none => []
      | some m => ((s.moveLinesOf m).filter
          (fun l => s.accountInternalType l == "receivable")).map
          (fun l => l.id)
    let acc := rmls.foldl cancelProcessLine (s, [])
    let s3 : State := match pr.moveId with
      | none => acc.1
      | some m =>
        let deadLines := (acc.1.moveLines.filter
          (fun l => l.moveId == m)).map (fun l => l.id)
        { acc.1 with
          moves := acc.1.moves.filter (fun mm => !(mm.id == m)),
          moveLines := acc.1.moveLines.filter (fun l => !(l.moveId == m)),
          partials := acc.1.partials.filter (fun p =>
            !(deadLines.contains p.debitMoveId)
            && !(deadLines.contains p.creditMoveId)) }
    let s4 := { s3 with returns := s3.returns.map (fun r =>
        if r.id == rid then
          { r with state := RState.cancelled, moveId := none }
        else r) }
    check_payment_return s4 acc.2

end PaymentReturn

namespace PaymentReturnLine

/-- `PaymentReturnLine.match_invoice` for one line: search the posted
customer invoices by the line's reference (and partner when set); when
some match, collect the payment move lines reconciled against the
invoices' receivable/payable lines and write the first one onto the
line (`payment_lines[0].ids`), filling `concept` when unset. -/
def matchInvoiceLine (s : State) (l : ReturnLine) : ReturnLine :=
  let moves := s.moves.filter (fun mv =>
    (match l.partnerId with
     | some pid => mv.partnerId == some pid
     | none => true)
    && (some mv.name == l.reference)
    && (mv.moveType == "out_invoice"))
  if moves.isEmpty then l
  else
    let invLines := (moves.flatMap (fun mv => s.moveLinesOf mv.id)).filter
      (fun ml => s.accountInternalType ml == "receivable"
        || s.accountInternalType ml == "payable")
    let paymentLines := rsUnion
      (rsDedup (invLines.flatMap (fun ml =>
        (s.partials.filter (fun p => p.creditMoveId == ml.id)).map
          (fun p => p.debitMoveId))))
      (rsDedup (invLines.flatMap (fun ml =>
        (s.partials.filter (fun p => p.debitMoveId == ml.id)).map
          (fun p => p.creditMoveId))))
    if paymentLines.isEmpty then l
    else
      { l with
        moveLineIds := [(paymentLines.head?.getD 0)],
        concept := if l.concept.isSome then l.concept
          else some ("Invoice: "
            ++ ((moves.head?.map (fun mv => mv.name)).getD "")) }

/-- `PaymentReturnLine.match_move_lines` for one line: search the
reconciled receivable move lines of the return's journal (entry moves)
whose name or entry reference equals the line's reference (and partner
when set); when some match, write them all onto the line. -/
def matchMoveLinesOne (s : State) (l : ReturnLine) : ReturnLine :=
  let mls := s.moveLines.filter (fun ml =>
    (match l.partnerId with
     | some pid => ml.partnerId == some pid
     | none => true)
    && (match s.getReturn l.returnId with
        | some pr => (ml.journalId == pr.journalId)
            && (((s.getMove ml.moveId).map
                (fun mv => mv.moveType)).getD "" == "entry")
        | none => true)
    && (s.accountInternalType ml == "receivable")
    && s.reconciledML ml
    && ((some ml.name == l.reference)
        || (match s.getMove ml.moveId with
            | some mv => some mv.ref == l.reference
            | none => false)))
  if mls.isEmpty then l
  else
    { l with
      moveLineIds := mls.map (fun ml => ml.id),
      concept := if l.concept.isSome then l.concept
        else some ("Move lines: "
          ++ String.intercalate ", " (mls.map (fun ml => ml.name))) }

/-- `PaymentReturnLine.match_move` for one line: search the entry moves
named by the line's reference (and partner when set); when some match,
write their reconciled receivable lines onto the line. -/
def matchMoveOne (s : State) (l : ReturnLine) : ReturnLine :=
  let moves := s.moves.filter (fun mv =>
    (match l.partnerId with
     | some pid => mv.partnerId == some pid
     | none => true)
    && (some mv.name == l.reference)
    && (mv.moveType == "entry"))
  if moves.isEmpty then l
  else
    { l with
      moveLineIds := ((moves.flatMap
        (fun mv => s.moveLinesOf mv.id)).filter
        (fun ml => s.accountInternalType ml == "receivable"
          && s.reconciledML ml)).map (fun ml => ml.id),
      concept := if l.concept.isSome then l.concept
        else some ("Move: "
          ++ ((moves.head?.map (fun mv => mv.ref)).getD "")) }

/-- `match_invoice` over the recordset `ids` (write each transformed
line back). -/
def match_invoice (s : State) (ids : List Nat) : State :=
  ids.foldl (fun st i => updLine i (matchInvoiceLine st) st) s

/-- `match_move_lines` over the recordset `ids`. -/
def match_move_lines (s : State) (ids : List Nat) : State :=
  ids.foldl (fun st i => updLine i (matchMoveLinesOne st) st) s

/-- `match_move` over the recordset `ids`. -/
def match_move (s : State) (ids : List Nat) : State :=
  ids.foldl (fun st i => updLine i (matchMoveOne st) st) s

/-- `self.filtered(lambda x: ((not x.move_line_ids) and x.reference))`:
the ids of the still unmatched lines carrying a reference. -/
def findMatchFilter (s : State) (ids : List Nat) : List Nat :=
  ((ids.filterMap s.getReturnLine).filter (fun l =>
    l.moveLineIds.isEmpty && l.reference.isSome)).map (fun l => l.id)

/-- `self.filtered(lambda x: not x.amount)._compute_amount()`: write the
sum of the matched lines' credits onto every line of `ids` whose amount
is unset. -/
def computeAmountUnset (s : State) (ids : List Nat) : State :=
  ids.foldl (fun st i =>
    updLine i (fun l => if l.amount == 0
      then { l with amount := computedAmount st l }
      else l) st) s

/-- `PaymentReturnLine._find_match`: filter the unmatched referenced
lines and run `match_invoice`, re-filter and run `match_move_lines`,
re-filter and run `match_move`; then fill the partners from the matched
move lines (which may raise) and recompute the unset amounts. -/
def _find_match (s : State) (ids : List Nat) : Except UErr State :=
  let l1 := findMatchFilter s ids
  let s1 := match_invoice s l1
  let l2 := findMatchFilter s1 l1
  let s2 := match_move_lines s1 l2
  let l3 := findMatchFilter s2 l2
  let s3 := match_move s2 l3
  match _get_partner_from_move s3 ids with
  | Except.error e => Except.error e
  | Except.ok s4 => Except.ok (computeAmountUnset s4 ids)

/-- The per-line cascade `_find_match` realises on one return line: a
line that is unmatched and carries a reference goes through
`match_invoice`, then - while still unmatched - `match_move_lines`,
then `match_move`; any other line is left alone. -/
def cascadeLine (s : State) (l : ReturnLine) : ReturnLine :=
  if l.moveLineIds.isEmpty && l.reference.isSome then
    let l1 := matchInvoiceLine s l
    if l1.moveLineIds.isEmpty then
      let l2 := matchMoveLinesOne s l1
      if l2.moveLineIds.isEmpty then matchMoveOne s l2 else l2
    else l1
  else l

/-- The per-line effect of the `_get_partner_from_move` step of
`_find_match`: a line that already has a partner is untouched; on a
partner-less line the partner (and its name) is filled from the matched
move lines. -/
def gpfmLine (s : State) (l : ReturnLine) : ReturnLine :=
  if l.partnerId.isSome then l else gpfmUpd s l l

/-- The per-line effect of the final
`self.filtered(lambda x: not x.amount)._compute_amount()` step of
`_find_match`: a line with an unset amount receives the sum of its
matched move lines' credits. -/
def amountLine (s : State) (l : ReturnLine) : ReturnLine :=
  if l.amount == 0 then { l with amount := computedAmount s l } else l

end PaymentReturnLine

/-- Two database states agreeing on everything except the
`payment.return.line` table (the only table the matching methods
write). -/
def eqExceptRL (a b : State) : Prop :=
  a.partners = b.partners ∧ a.accounts = b.accounts
    ∧ a.journals = b.journals ∧ a.moves = b.moves
    ∧ a.moveLines = b.moveLines ∧ a.partials = b.partials
    ∧ a.returns = b.returns ∧ a.nextId = b.nextId
    ∧ a.userCompanyRounding = b.userCompanyRounding

/-! ## Concrete databases for witnesses and counterexamples -/

/-- A payment return line with every optional field unset (helper for
building concrete databases). -/
def blankLine (i rid : Nat) : ReturnLine :=
  { id := i, returnId := rid, concept := none, reference := none,
    moveLineIds := [], partnerName := none, partnerId := none,
    amount := 0, expenseAccountId := none, expenseAmount := 0,
    expensePartnerId := none }

/-- An empty database. -/
def emptyState : State :=
  { partners := [], accounts := [], journals := [], moves := [],
    moveLines := [], partials := [], returnLines := [], returns := [],
    nextId := 200, userCompanyRounding := 1 }

/-- Database for the C10 witness: line 10 has no partner and one move
line owned by partner 7; line 11 already has partner 5. -/
def wit10 : State :=
  { emptyState with
    partners := [{ id := 7, name := "Ann" }]
    moveLines := [{ id := 100, name := "P1", moveId := 1, debit := 0,
                    credit := 50, accountId := 1, partnerId := some 7,
                    journalId := 1 }]
    returnLines := [{ blankLine 10 1 with moveLineIds := [100] },
                    { blankLine 11 1 with partnerId := some 5 }] }

/-- Database for the C4 counterexample: a single payment return (id 1)
in state "done" whose only line (id 10) holds move line 100; no other
return exists. -/
def cex4 : State :=
  { emptyState with
    returns := [{ id := 1, companyId := 1, date := 0, name := "R1",
                  journalId := 1, moveId := none, state := RState.done }],
    returnLines := [{ blankLine 10 1 with moveLineIds := [100] }] }

/-- Database for the C4 witness: return 1 (draft) with lines 10 and 11
both holding move line 100 (an in-batch duplicate). -/
def wit4 : State :=
  { emptyState with
    returns := [{ id := 1, companyId := 1, date := 0, name := "R1",
                  journalId := 1, moveId := none, state := RState.draft }],
    returnLines := [{ blankLine 10 1 with moveLineIds := [100] },
                    { blankLine 11 1 with moveLineIds := [100] }] }

/-- Database for the C1 counterexample: journal 1 has
`return_auto_reconcile` set; the matched payment line 100 sits on a
two-line journal entry 50 whose other (counterpart) line 101 carries a
debit of 50 on account 2, while the return's credit move line 200 (total
50) sits on account 1.  Amounts match and nothing is reconciled, but the
accounts differ. -/
def cex1 : State :=
  { emptyState with
    accounts := [{ id := 1, internalType := "other", reconcile := true },
                 { id := 2, internalType := "receivable",
                   reconcile := true }],
    journals := [{ id := 1, returnAutoReconcile := true,
                   paymentCreditAccountId := 1, defaultAccountId := 3,
                   defaultExpenseAccountId := none,
                   defaultExpensePartnerId := none }],
    returns := [{ id := 1, companyId := 1, date := 0, name := "R1",
                  journalId := 1, moveId := some 60,
                  state := RState.done }],
    moveLines := [{ id := 100, name := "P", moveId := 50, debit := 0,
                    credit := 50, accountId := 2, partnerId := none,
                    journalId := 1 },
                  { id := 101, name := "P", moveId := 50, debit := 50,
                    credit := 0, accountId := 2, partnerId := none,
                    journalId := 1 },
                  { id := 200, name := "Return R1", moveId := 60,
                    debit := 0, credit := 50, accountId := 1,
                    partnerId := none, journalId := 1 }] }

/-- Database for the C1 witness: as `cex1` but the counterpart line 101
shares account 1 with the credit move line 200, so the auto
reconciliation fires. -/
def wit1 : State :=
  { cex1 with
    moveLines := [{ id := 100, name := "P", moveId := 50, debit := 0,
                    credit := 50, accountId := 2, partnerId := none,
                    journalId := 1 },
                  { id := 101, name := "P", moveId := 50, debit := 50,
                    credit := 0, accountId := 1, partnerId := none,
                    journalId := 1 },
                  { id := 200, name := "Return R1", moveId := 60,
                    debit := 0, credit := 50, accountId := 1,
                    partnerId := none, journalId := 1 }] }

/-- Database for the `action_confirm` witnesses (C2, C3, C9): one return
(id 1) with one line (id 10) matching the payment credit line 400, which
is reconciled (partial 90) against the invoice debit line 300 of invoice
move 30; the line carries a 10-unit expense. -/
def wit2 : State :=
  { partners := [{ id := 7, name := "Ann" }],
    accounts := [{ id := 1, internalType := "receivable",
                   reconcile := true },
                 { id := 2, internalType := "other", reconcile := true },
                 { id := 3, internalType := "other", reconcile := false },
                 { id := 4, internalType := "other", reconcile := false }],
    journals := [{ id := 1, returnAutoReconcile := false,
                   paymentCreditAccountId := 2, defaultAccountId := 3,
                   defaultExpenseAccountId := some 4,
                   defaultExpensePartnerId := some 7 }],
    moves := [{ id := 30, name := "INV/1", ref := "INV/1",
                journalId := 2, moveType := "out_invoice",
                state := "posted", partnerId := some 7,
                returnedPayment := false, date := 5, companyId := 1 },
              { id := 40, name := "PAY/1", ref := "PAY/1", journalId := 1,
                moveType := "entry", state := "posted",
                partnerId := some 7, returnedPayment := false, date := 6,
                companyId := 1 }],
    moveLines := [{ id := 300, name := "INV/1", moveId := 30,
                    debit := 100, credit := 0, accountId := 1,
                    partnerId := some 7, journalId := 2 },
                  { id := 400, name := "PAY/1", moveId := 40, debit := 0,
                    credit := 100, accountId := 1, partnerId := some 7,
                    journalId := 1 },
                  { id := 401, name := "PAY/1", moveId := 40,
                    debit := 100, credit := 0, accountId := 2,
                    partnerId := some 7, journalId := 1 }],
    partials := [{ id := 90, debitMoveId := 300, creditMoveId := 400,
                   amount := 100, originReturnedMoveIds := [] }],
    returnLines := [{ id := 10, returnId := 1, concept := none,
                      reference := some "PAY/1", moveLineIds := [400],
                      partnerName := some "Ann", partnerId := some 7,
                      amount := 100, expenseAccountId := some 4,
                      expenseAmount := 10, expensePartnerId := some 7 }],
    returns := [{ id := 1, companyId := 1, date := 7, name := "R1",
                  journalId := 1, moveId := none,
                  state := RState.imported }],
    nextId := 500,
    userCompanyRounding := 1 }

/-- The payment return record of `wit2`. -/
def wit2ret : PaymentReturn :=
  { id := 1, companyId := 1, date := 7, name := "R1", journalId := 1,
    moveId := none, state := RState.imported }

/-- Database for the C9 witness: `wit2` with an extra return line 11
that has no matched move lines. -/
def wit9 : State :=
  { wit2 with
    returnLines := wit2.returnLines ++ [blankLine 11 1] }

/-- Database for the C6 witness: return 1 is done, pointing at journal
entry 50 whose receivable debit line 100 is reconciled (partial 5)
against the payment credit line 400, with the invoice debit line 300 of
move 60 recorded as the originally returned line. -/
def wit6 : State :=
  { partners := [],
    accounts := [{ id := 10, internalType := "receivable",
                   reconcile := true },
                 { id := 11, internalType := "other", reconcile := true }],
    journals := [],
    moves := [{ id := 50, name := "RETM/1", ref := "Return R6",
                journalId := 1, moveType := "entry", state := "posted",
                partnerId := none, returnedPayment := false, date := 9,
                companyId := 1 },
              { id := 60, name := "INV/6", ref := "INV/6", journalId := 2,
                moveType := "out_invoice", state := "posted",
                partnerId := none, returnedPayment := true, date := 5,
                companyId := 1 },
              { id := 70, name := "PAY/6", ref := "PAY/6", journalId := 1,
                moveType := "entry", state := "posted", partnerId := none,
                returnedPayment := false, date := 6, companyId := 1 }],
    moveLines := [{ id := 100, name := "RETM/1", moveId := 50,
                    debit := 100, credit := 0, accountId := 10,
                    partnerId := none, journalId := 1 },
                  { id := 101, name := "RETM/1", moveId := 50, debit := 0,
                    credit := 100, accountId := 11, partnerId := none,
                    journalId := 1 },
                  { id := 300, name := "INV/6", moveId := 60,
                    debit := 100, credit := 0, accountId := 10,
                    partnerId := none, journalId := 2 },
                  { id := 400, name := "PAY/6", moveId := 70, debit := 0,
                    credit := 100, accountId := 10, partnerId := none,
                    journalId := 1 }],
    partials := [{ id := 5, debitMoveId := 100, creditMoveId := 400,
                   amount := 100, originReturnedMoveIds := [300] }],
    returnLines := [],
    returns := [{ id := 1, companyId := 1, date := 7, name := "R6",
                  journalId := 1, moveId := some 50,
                  state := RState.done }],
    nextId := 1000,
    userCompanyRounding := 1 }

/-- The payment return record of `wit6`. -/
def wit6ret : PaymentReturn :=
  { id := 1, companyId := 1, date := 7, name := "R6", journalId := 1,
    moveId := some 50, state := RState.done }

/-- Database for the C7 witness: return line 10 is unmatched, carries
reference "PAY/7" and neither partner nor amount; the reconciled
receivable payment line 400 (journal 1, entry move 40) matches the
reference, so `_find_match` matches it via `match_move_lines` and then
fills the partner and the amount. -/
def wit7 : State :=
  { partners := [{ id := 7, name := "Ann" }],
    accounts := [{ id := 1, internalType := "receivable",
                   reconcile := true }],
    journals := [],
    moves := [{ id := 30, name := "INV/7", ref := "INV/7", journalId := 2,
                moveType := "out_invoice", state := "posted",
                partnerId := some 7, returnedPayment := false, date := 5,
                companyId := 1 },
              { id := 40, name := "PAY/7", ref := "PAY/7", journalId := 1,
                moveType := "entry", state := "posted",
                partnerId := some 7, returnedPayment := false, date := 6,
                companyId := 1 }],
    moveLines := [{ id := 300, name := "INV/7", moveId := 30,
                    debit := 100, credit := 0, accountId := 1,
                    partnerId := some 7, journalId := 2 },
                  { id := 400, name := "PAY/7", moveId := 40, debit := 0,
                    credit := 100, accountId := 1, partnerId := some 7,
                    journalId := 1 }],
    partials := [{ id := 90, debitMoveId := 300, creditMoveId := 400,
                   amount := 100, originReturnedMoveIds := [] }],
    returnLines := [{ blankLine 10 1 with reference := some "PAY/7" }],
    returns := [{ id := 1, companyId := 1, date := 7, name := "R7",
                  journalId := 1, moveId := none,
                  state := RState.imported }],
    nextId := 500,
    userCompanyRounding := 1 }

/-- The state `_find_match` produces on `wit7` (it succeeds there). -/
def wit7res : State :=
  (PaymentReturnLine._find_match wit7 [10]).toOption.getD emptyState

/-! ## Theorems -/

/-- C5: for every payment return, the computed field `total_amount` equals
the grouping sum of `amount` over the return's lines, and equals `0.0`
for a return with no lines. -/
theorem C5_total_amount_is_group_sum (s : State) (rid : Nat) :
    PaymentReturn._compute_total_amount s rid
      = ((s.returnLines.filter (fun l => l.returnId == rid)).map
          (fun l => l.amount)).sum
    ∧ (s.returnLines.filter (fun l => l.returnId == rid) = [] →
        PaymentReturn._compute_total_amount s rid = 0) := by
  have h :
      PaymentReturn._compute_total_amount s rid
        = ((s.returnLines.filter (fun l => l.returnId == rid)).map
            (fun l => l.amount)).sum := by
    unfold PaymentReturn._compute_total_amount
    simp only [List.filterMap_cons, List.filterMap_nil]
    by_cases h0 : s.returnLines.filter (fun l => l.returnId == rid) = []
    · rw [h0]
      simp
    · rw [if_neg (by simpa [List.isEmpty_iff] using h0)]
      simp [List.lookup]
  refine ⟨h, fun h0 => ?_⟩
  rw [h, h0]
  simp

/-- C8: `unlink` raises a `UserError` exactly when one of the returns is
in state "done"; that is the only error it raises, and on success it
deletes exactly the returns of the recordset, so an error deletes
nothing (the transaction aborts with the database unchanged). -/
theorem C8_unlink_done_all_or_nothing (s : State) (rids : List Nat) :
    (PaymentReturn.unlink s rids = Except.error UErr.removeDone
        ↔ ∃ r ∈ s.returns, r.id ∈ rids ∧ r.state = RState.done)
    ∧ (∀ e, PaymentReturn.unlink s rids = Except.error e →
        e = UErr.removeDone)
    ∧ (∀ s', PaymentReturn.unlink s rids = Except.ok s' →
        s'.returns = s.returns.filter (fun r => !rids.contains r.id)) := by
  unfold PaymentReturn.unlink
  by_cases h : (s.returns.filter (fun r => rids.contains r.id)).any
      (fun r => r.state == RState.done)
  · simp only [h, if_pos]
    refine ⟨?_, fun e he => by injection he with h'; exact h'.symm,
      fun s' hs' => by cases hs'⟩
    simp only [true_iff]
    rcases List.any_eq_true.mp h with ⟨r, hr, hst⟩
    rcases List.mem_filter.mp hr with ⟨hmem, hin⟩
    exact ⟨r, hmem, List.elem_iff.mp hin, by simpa using hst⟩
  · simp only [h, if_neg, Bool.false_eq_true, not_false_iff]
    refine ⟨?_, fun e he => by injection he, fun s' hs' => ?_⟩
    · simp only [false_iff, reduceCtorEq]
      rintro ⟨r, hmem, hin, hst⟩
      exact h (List.any_eq_true.mpr
        ⟨r, List.mem_filter.mpr ⟨hmem, List.elem_iff.mpr hin⟩, by
          simp [hst]⟩)
    · injection hs' with h'
      rw [← h']

theorem getReturnLine_updLine (st : State) (i j : Nat)
    (f : ReturnLine → ReturnLine) (hf : ∀ l, (f l).id = l.id) :
    (updLine i f st).getReturnLine j
      = if j = i then (st.getReturnLine j).map f else st.getReturnLine j := by
  show (st.returnLines.map (fun l2 => if l2.id == i then f l2 else l2)).find?
        (fun l => l.id == j)
      = if j = i then (st.returnLines.find? (fun l => l.id == j)).map f
        else st.returnLines.find? (fun l => l.id == j)
  induction st.returnLines with
  | nil => simp
  | cons a t ih =>
    have hga : (if a.id == i then f a else a).id = a.id := by
      by_cases h : a.id == i
      · simp [h, hf]
      · simp [h]
    rw [List.map_cons, List.find?_cons, List.find?_cons, hga]
    cases haj : (a.id == j) with
    | true =>
      have ha : a.id = j := by simpa using haj
      by_cases hji : j = i
      · have hc : (a.id == i) = true := by simp [ha, hji]
        simp [hc, hji]
      · have hc : (a.id == i) = false := by simp [ha, hji]
        simp [hc, hji]
    | false =>
      exact ih

theorem updLine_fields (st : State) (i : Nat) (f : ReturnLine → ReturnLine) :
    (updLine i f st).partners = st.partners
    ∧ (updLine i f st).moveLines = st.moveLines
    ∧ (updLine i f st).partials = st.partials
    ∧ (updLine i f st).moves = st.moves
    ∧ (updLine i f st).returns = st.returns := by
  constructor <;> [rfl; constructor] <;> [rfl; constructor]
    <;> [rfl; constructor] <;> [rfl; rfl]

theorem gpfmUpd_id (s : State) (l l2 : ReturnLine) :
    (PaymentReturnLine.gpfmUpd s l l2).id = l2.id := rfl

theorem gpfmRun_error_iff (s st : State) (L : List ReturnLine) :
    PaymentReturnLine.gpfmRun s st L = Except.error UErr.samePartner
      ↔ ∃ l ∈ L, 1 < (PaymentReturnLine.mappedPartners s l).length := by
  induction L generalizing st with
  | nil => simp [PaymentReturnLine.gpfmRun]
  | cons l t ih =>
    unfold PaymentReturnLine.gpfmRun
    by_cases h : 1 < (PaymentReturnLine.mappedPartners s l).length
    · simp only [h, if_pos, true_iff]
      exact ⟨l, List.mem_cons_self l t, h⟩
    · simp only [h, if_neg, not_false_iff, ih]
      constructor
      · rintro ⟨l', hl', hgt⟩
        exact ⟨l', List.mem_cons_of_mem l hl', hgt⟩
      · rintro ⟨l', hl', hgt⟩
        rcases List.mem_cons.mp hl' with rfl | hl't
        · exact absurd hgt h
        · exact ⟨l', hl't, hgt⟩

theorem gpfmRun_ok_frame (s : State) (L : List ReturnLine) (st st' : State)
    (h : PaymentReturnLine.gpfmRun s st L = Except.ok st') (j : Nat)
    (hj : ∀ l ∈ L, l.id ≠ j) :
    st'.getReturnLine j = st.getReturnLine j := by
  induction L generalizing st with
  | nil =>
    simp only [PaymentReturnLine.gpfmRun] at h
    injection h with h
    rw [h]
  | cons l t ih =>
    unfold PaymentReturnLine.gpfmRun at h
    by_cases hc : 1 < (PaymentReturnLine.mappedPartners s l).length
    · simp [hc] at h
    · rw [if_neg hc] at h
      have := ih _ h (fun l' hl' => hj l' (List.mem_cons_of_mem l hl'))
      rw [this, getReturnLine_updLine st l.id j _ (gpfmUpd_id s l),
        if_neg (fun hji => hj l (List.mem_cons_self l t) hji.symm)]

theorem gpfmRun_ok_mem (s : State) (L : List ReturnLine) (st st' : State)
    (hnd : (L.map (fun l => l.id)).Nodup)
    (h : PaymentReturnLine.gpfmRun s st L = Except.ok st') :
    ∀ l ∈ L, st'.getReturnLine l.id
      = (st.getReturnLine l.id).map (PaymentReturnLine.gpfmUpd s l) := by
  induction L generalizing st with
  | nil => intro l hl; cases hl
  | cons a t ih =>
    unfold PaymentReturnLine.gpfmRun at h
    by_cases hc : 1 < (PaymentReturnLine.mappedPartners s a).length
    · simp [hc] at h
    · rw [if_neg hc] at h
      rw [List.map_cons, List.nodup_cons] at hnd
      intro l hl
      rcases List.mem_cons.mp hl with rfl | hlt
      · have hfr : st'.getReturnLine l.id
            = (updLine l.id (PaymentReturnLine.gpfmUpd s l) st).getReturnLine
                l.id := by
          refine gpfmRun_ok_frame s t _ st' h l.id (fun l' hl' hid => ?_)
          exact hnd.1 (hid ▸ List.mem_map_of_mem (fun x => x.id) hl')
        rw [hfr, getReturnLine_updLine st l.id l.id _ (gpfmUpd_id s l),
          if_pos rfl]
      · have := ih _ hnd.2 h l hlt
        rw [this, getReturnLine_updLine st a.id l.id _ (gpfmUpd_id s a),
          if_neg (fun hji => hnd.1 (by
            rw [← hji]
            exact List.mem_map_of_mem (fun x => x.id) hlt))]

theorem getReturnLine_of_mem_filterMap (s : State) (ids : List Nat)
    (l : ReturnLine) (h : l ∈ ids.filterMap s.getReturnLine) :
    s.getReturnLine l.id = some l := by
  rcases List.mem_filterMap.mp h with ⟨x, _, hx⟩
  have hx' : s.returnLines.find? (fun l2 => l2.id == x) = some l := hx
  have hid : l.id = x := by simpa using List.find?_some hx'
  rw [hid]
  exact hx

/-- C10: `_get_partner_from_move` only considers lines without a partner
(never overwriting an existing partner), raises a `UserError` exactly
when such a line's move lines belong to more than one (distinct,
non-null) partner, and otherwise writes each partner-less line's
`partner_id` and `partner_name` from the unique partner of its move
lines — both left empty when the line has no move lines. -/
theorem C10_get_partner_from_move (s : State) (ids : List Nat)
    (hnd : (((ids.filterMap s.getReturnLine).filter
      (fun l => !l.partnerId.isSome)).map (fun l => l.id)).Nodup) :
    (PaymentReturnLine._get_partner_from_move s ids
        = Except.error UErr.samePartner
      ↔ ∃ l ∈ ids.filterMap s.getReturnLine, l.partnerId = none
          ∧ 1 < (PaymentReturnLine.mappedPartners s l).length)
    ∧ (∀ s', PaymentReturnLine._get_partner_from_move s ids = Except.ok s' →
        ∀ l ∈ ids.filterMap s.getReturnLine,
          (l.partnerId.isSome → s'.getReturnLine l.id = some l)
          ∧ (l.partnerId = none →
              s'.getReturnLine l.id = some
                { l with
                  partnerId := (PaymentReturnLine.mappedPartners s l).head?,
                  partnerName :=
                    ((PaymentReturnLine.mappedPartners s l).head?.bind
                      s.getPartner).map (fun p => p.name) }
              ∧ (l.moveLineIds = [] →
                  (PaymentReturnLine.mappedPartners s l).head? = none))) := by
  constructor
  · rw [PaymentReturnLine._get_partner_from_move, gpfmRun_error_iff]
    constructor
    · rintro ⟨l, hl, hgt⟩
      rcases List.mem_filter.mp hl with ⟨hmem, hps⟩
      exact ⟨l, hmem, by simpa using hps, hgt⟩
    · rintro ⟨l, hl, hnone, hgt⟩
      exact ⟨l, List.mem_filter.mpr ⟨hl, by simp [hnone]⟩, hgt⟩
  · intro s' hok l hl
    have hself : s.getReturnLine l.id = some l :=
      getReturnLine_of_mem_filterMap s ids l hl
    rw [PaymentReturnLine._get_partner_from_move] at hok
    constructor
    · intro hsome
      have hne : ∀ l' ∈ (ids.filterMap s.getReturnLine).filter
          (fun l2 => !l2.partnerId.isSome), l'.id ≠ l.id := by
        intro l' hl' hid
        rcases List.mem_filter.mp hl' with ⟨hmem', hps'⟩
        have h1 : s.getReturnLine l'.id = some l' :=
          getReturnLine_of_mem_filterMap s ids l' hmem'
        rw [hid, hself] at h1
        injection h1 with h1
        rw [← h1] at hps'
        simp [hsome] at hps'
      rw [gpfmRun_ok_frame s _ s s' hok l.id hne]
      exact hself
    · intro hnone
      refine ⟨?_, fun hmls => by
        simp [PaymentReturnLine.mappedPartners, State.linesOf, hmls, rsDedup,
          rsUnion]⟩
      have hmemf : l ∈ (ids.filterMap s.getReturnLine).filter
          (fun l2 => !l2.partnerId.isSome) :=
        List.mem_filter.mpr ⟨hl, by simp [hnone]⟩
      have := gpfmRun_ok_mem s _ s s' hnd hok l hmemf
      rw [this, hself]
      rfl

/-- Witness for C10: the theorem applied to the concrete database
`wit10` and the recordset `[10, 11]`. -/
theorem C10_get_partner_from_move_witness :
    (((([10, 11].filterMap wit10.getReturnLine).filter
      (fun l => !l.partnerId.isSome)).map (fun l => l.id)).Nodup)
    ∧ ((PaymentReturnLine._get_partner_from_move wit10 [10, 11]
          = Except.error UErr.samePartner
        ↔ ∃ l ∈ [10, 11].filterMap wit10.getReturnLine, l.partnerId = none
            ∧ 1 < (PaymentReturnLine.mappedPartners wit10 l).length)
      ∧ (∀ s', PaymentReturnLine._get_partner_from_move wit10 [10, 11]
            = Except.ok s' →
          ∀ l ∈ [10, 11].filterMap wit10.getReturnLine,
            (l.partnerId.isSome → s'.getReturnLine l.id = some l)
            ∧ (l.partnerId = none →
                s'.getReturnLine l.id = some
                  { l with
                    partnerId :=
                      (PaymentReturnLine.mappedPartners wit10 l).head?,
                    partnerName :=
                      ((PaymentReturnLine.mappedPartners wit10 l).head?.bind
                        wit10.getPartner).map (fun p => p.name) }
                ∧ (l.moveLineIds = [] →
                    (PaymentReturnLine.mappedPartners wit10 l).head?
                      = none)))) :=
  ⟨by decide, C10_get_partner_from_move wit10 [10, 11] (by decide)⟩

theorem mem_rsInsert (a : List Nat) (i j : Nat) :
    j ∈ rsInsert a i ↔ j ∈ a ∨ j = i := by
  unfold rsInsert
  by_cases h : a.contains i
  · rw [if_pos h]
    constructor
    · exact Or.inl
    · rintro (hj | rfl)
      · exact hj
      · exact List.elem_iff.mp h
  · rw [if_neg h]
    simp

theorem rsInsert_nodup (a : List Nat) (i : Nat) (h : a.Nodup) :
    (rsInsert a i).Nodup := by
  unfold rsInsert
  by_cases hc : a.contains i
  · rw [if_pos hc]
    exact h
  · rw [if_neg hc]
    refine List.Nodup.append h (List.nodup_singleton i) ?_
    intro x hx hxi
    rw [List.mem_singleton.mp hxi] at hx
    exact hc (List.elem_iff.mpr hx)

theorem mem_rsUnion (b : List Nat) :
    ∀ a j, (j ∈ rsUnion a b ↔ j ∈ a ∨ j ∈ b) := by
  induction b with
  | nil => intro a j; simp [rsUnion]
  | cons m t ih =>
    intro a j
    have h1 : rsUnion a (m :: t) = rsUnion (rsInsert a m) t := rfl
    rw [h1, ih, mem_rsInsert]
    constructor
    · rintro ((hj | rfl) | hj)
      · exact Or.inl hj
      · exact Or.inr (List.mem_cons_self _ _)
      · exact Or.inr (List.mem_cons_of_mem _ hj)
    · rintro (hj | hj)
      · exact Or.inl (Or.inl hj)
      · rcases List.mem_cons.mp hj with rfl | hj
        · exact Or.inl (Or.inr rfl)
        · exact Or.inr hj

theorem rsUnion_eq_append (ms : List Nat) :
    ∀ all, (all ++ ms).Nodup → rsUnion all ms = all ++ ms := by
  induction ms with
  | nil => intro all _; simp [rsUnion]
  | cons m t ih =>
    intro all h
    have hm : ¬ all.contains m := by
      intro hc
      rcases List.nodup_append.mp h with ⟨_, _, hdisj⟩
      exact hdisj (List.elem_iff.mp hc) (List.mem_cons_self _ _)
    have h1 : rsUnion all (m :: t) = rsUnion (rsInsert all m) t := rfl
    rw [h1, rsInsert, if_neg hm, ih (all ++ [m]) (by simpa using h)]
    simp

namespace PaymentReturn

theorem dupScanLine_acc (lid : Nat) (ms : List Nat) :
    ∀ all errs, dupScanLine lid ms all errs
      = ((dupScanLine lid ms all []).1,
         errs ++ (dupScanLine lid ms all []).2) := by
  induction ms with
  | nil => intro all errs; simp [dupScanLine]
  | cons m t ih =>
    intro all errs
    unfold dupScanLine
    by_cases h : all.contains m
    · rw [if_pos h, if_pos h, ih _ (errs ++ [lid]), ih _ ([] ++ [lid])]
      simp
    · rw [if_neg h, if_neg h, ih _ errs]

theorem dupScanLine_fst (lid : Nat) (ms : List Nat) :
    ∀ all errs, (dupScanLine lid ms all errs).1 = rsUnion all ms := by
  induction ms with
  | nil => intro all errs; rfl
  | cons m t ih =>
    intro all errs
    have h1 : rsUnion all (m :: t) = rsUnion (rsInsert all m) t := rfl
    rw [h1]
    unfold dupScanLine
    by_cases h : all.contains m
    · rw [if_pos h]
      exact ih _ _
    · rw [if_neg h]
      exact ih _ _

theorem dupScanLine_err_nil (lid : Nat) (ms : List Nat) :
    ∀ all, all.Nodup →
      ((dupScanLine lid ms all []).2 = [] ↔ (all ++ ms).Nodup) := by
  induction ms with
  | nil =>
    intro all h
    simp [dupScanLine, h]
  | cons m t ih =>
    intro all hall
    unfold dupScanLine
    by_cases h : all.contains m
    · rw [if_pos h, dupScanLine_acc]
      constructor
      · intro hx
        exact absurd hx (by simp)
      · intro hx
        exfalso
        rcases List.nodup_append.mp hx with ⟨_, _, hdisj⟩
        exact hdisj (List.elem_iff.mp h) (List.mem_cons_self _ _)
    · rw [if_neg h, ih _ (rsInsert_nodup all m hall), rsInsert, if_neg h]
      simp

theorem dupScan_acc (ls : List ReturnLine) :
    ∀ all errs, dupScan ls all errs
      = ((dupScan ls all []).1, errs ++ (dupScan ls all []).2) := by
  induction ls with
  | nil => intro all errs; simp [dupScan]
  | cons l t ih =>
    intro all errs
    show dupScan t _ _ = _
    rw [dupScanLine_acc]
    rw [show ((dupScanLine l.id l.moveLineIds all []).1,
        errs ++ (dupScanLine l.id l.moveLineIds all []).2).1
      = (dupScanLine l.id l.moveLineIds all []).1 from rfl]
    rw [show ((dupScanLine l.id l.moveLineIds all []).1,
        errs ++ (dupScanLine l.id l.moveLineIds all []).2).2
      = errs ++ (dupScanLine l.id l.moveLineIds all []).2 from rfl]
    rw [ih _ (errs ++ (dupScanLine l.id l.moveLineIds all []).2)]
    have hrhs : dupScan (l :: t) all []
        = dupScan t (dupScanLine l.id l.moveLineIds all []).1
            (dupScanLine l.id l.moveLineIds all []).2 := rfl
    rw [hrhs, ih _ (dupScanLine l.id l.moveLineIds all []).2]
    simp

theorem dupScan_fst (ls : List ReturnLine) :
    ∀ all errs, (dupScan ls all errs).1
      = rsUnion all (ls.flatMap (fun l => l.moveLineIds)) := by
  induction ls with
  | nil => intro all errs; simp [dupScan, rsUnion]
  | cons l t ih =>
    intro all errs
    show (dupScan t _ _).1 = _
    rw [ih, dupScanLine_fst]
    rw [List.flatMap_cons]
    show _ = rsUnion all (l.moveLineIds ++ t.flatMap (fun l => l.moveLineIds))
    unfold rsUnion
    rw [List.foldl_append]

theorem dupScanLine_count (lid : Nat) (ms : List Nat) :
    ∀ all, (dupScanLine lid ms all []).2.length
        + ((dupScanLine lid ms all []).1).length
      = all.length + ms.length := by
  induction ms with
  | nil =>
    intro all
    simp [dupScanLine]
  | cons m t ih =>
    intro all
    unfold dupScanLine
    by_cases h : all.contains m
    · rw [if_pos h, dupScanLine_acc]
      have hrs : rsInsert all m = all := by rw [rsInsert, if_pos h]
      rw [hrs]
      have h2 := ih all
      simp only [List.length_append, List.length_cons,
        List.length_nil] at h2 ⊢
      omega
    · rw [if_neg h]
      have hrs : rsInsert all m = all ++ [m] := by
        rw [rsInsert, if_neg h]
      rw [hrs]
      have h2 := ih (all ++ [m])
      simp only [List.length_append, List.length_cons,
        List.length_nil] at h2 ⊢
      omega

theorem dupScan_count (ls : List ReturnLine) :
    ∀ all, (dupScan ls all []).2.length + ((dupScan ls all []).1).length
      = all.length + (ls.flatMap (fun l => l.moveLineIds)).length := by
  induction ls with
  | nil =>
    intro all
    simp [dupScan]
  | cons l t ih =>
    intro all
    have hstep : dupScan (l :: t) all []
        = dupScan t (dupScanLine l.id l.moveLineIds all []).1
            (dupScanLine l.id l.moveLineIds all []).2 := rfl
    rw [hstep,
      dupScan_acc t (dupScanLine l.id l.moveLineIds all []).1
        (dupScanLine l.id l.moveLineIds all []).2]
    rw [show ((dupScan t (dupScanLine l.id l.moveLineIds all []).1 []).1,
        (dupScanLine l.id l.moveLineIds all []).2
          ++ (dupScan t (dupScanLine l.id l.moveLineIds
            all []).1 []).2).2
      = (dupScanLine l.id l.moveLineIds all []).2
          ++ (dupScan t (dupScanLine l.id l.moveLineIds all []).1 []).2
      from rfl]
    rw [show ((dupScan t (dupScanLine l.id l.moveLineIds all []).1 []).1,
        (dupScanLine l.id l.moveLineIds all []).2
          ++ (dupScan t (dupScanLine l.id l.moveLineIds
            all []).1 []).2).1
      = (dupScan t (dupScanLine l.id l.moveLineIds all []).1 []).1
      from rfl]
    have h1 := ih (dupScanLine l.id l.moveLineIds all []).1
    have h2 := dupScanLine_count l.id l.moveLineIds all
    rw [List.flatMap_cons]
    simp only [List.length_append] at h1 h2 ⊢
    omega

theorem dupScan_err_nil (ls : List ReturnLine) :
    ∀ all, all.Nodup →
      ((dupScan ls all []).2 = []
        ↔ (all ++ ls.flatMap (fun l => l.moveLineIds)).Nodup) := by
  induction ls with
  | nil =>
    intro all h
    simp [dupScan, h]
  | cons l t ih =>
    intro all hall
    have hstep : dupScan (l :: t) all []
        = dupScan t (dupScanLine l.id l.moveLineIds all []).1
            (dupScanLine l.id l.moveLineIds all []).2 := rfl
    rw [hstep, List.flatMap_cons]
    by_cases h2 : (dupScanLine l.id l.moveLineIds all []).2 = []
    · have hnd : (all ++ l.moveLineIds).Nodup :=
        (dupScanLine_err_nil l.id l.moveLineIds all hall).mp h2
      rw [h2, dupScanLine_fst, rsUnion_eq_append _ _ hnd,
        ih (all ++ l.moveLineIds) hnd]
      rw [List.append_assoc]
    · rw [dupScan_acc]
      constructor
      · intro hx
        exfalso
        apply h2
        have := List.append_eq_nil.mp hx
        exact this.1
      · intro hx
        exfalso
        apply h2
        rw [dupScanLine_err_nil l.id l.moveLineIds all hall]
        refine List.Nodup.sublist ?_ hx
        rw [← List.append_assoc]
        exact (List.prefix_append _ _).sublist

end PaymentReturn

/-- C4 counterexample: on `cex4` with checked returns `[1]`, no move
line appears in more than one checked payment return line, and no line
of another payment return (a return outside the checked set) in state
"done" shares a move line with the checked lines — yet
`_check_duplicate_move_line` raises, because the search for "done"
returns also finds the checked return's own line (return 1 is itself in
state "done"). -/
theorem C4_counterexample :
    (¬ ∃ l1 ∈ PaymentReturn.checkedLines cex4 [1],
        ∃ l2 ∈ PaymentReturn.checkedLines cex4 [1],
          l1.id ≠ l2.id ∧ ∃ i ∈ l1.moveLineIds, i ∈ l2.moveLineIds)
    ∧ (¬ ∃ l ∈ cex4.returnLines, l.returnId ∉ ([1] : List Nat)
          ∧ (cex4.getReturn l.returnId).map (fun r => r.state)
              = some RState.done
          ∧ ∃ i ∈ l.moveLineIds,
              ∃ l' ∈ PaymentReturn.checkedLines cex4 [1],
                i ∈ l'.moveLineIds)
    ∧ PaymentReturn._check_duplicate_move_line cex4 [1]
        = Except.error (UErr.validationDuplicate [10]) :=
  ⟨by decide, by decide, rfl⟩

/-- C4 (amended): `_check_duplicate_move_line` raises a
`ValidationError` exactly when some move line appears in two different
checked payment return lines, or when some payment-return line of a
return in state "done" — possibly one of the checked lines itself —
shares a move line with the checked lines; the error lists one entry per
offending occurrence found: when the duplicate scan found something, its
entries, one per duplicated occurrence (their number is the number of
move-line occurrences beyond the first of each move line), else one
entry per matching "done"-state line, each naming a line of a "done"
return that shares a move line with the checked lines. -/
theorem C4_check_duplicate_amended (s : State) (rids : List Nat)
    (hln : ∀ l ∈ PaymentReturn.checkedLines s rids, l.moveLineIds.Nodup)
    (hlid : ((PaymentReturn.checkedLines s rids).map
      (fun l => l.id)).Nodup) :
    ((∃ e, PaymentReturn._check_duplicate_move_line s rids
        = Except.error e)
      ↔ ((∃ l1 ∈ PaymentReturn.checkedLines s rids,
            ∃ l2 ∈ PaymentReturn.checkedLines s rids,
              l1.id ≠ l2.id ∧ ∃ i ∈ l1.moveLineIds, i ∈ l2.moveLineIds)
        ∨ (∃ l ∈ s.returnLines,
            (∃ r, s.getReturn l.returnId = some r
              ∧ r.state = RState.done)
            ∧ ∃ i ∈ l.moveLineIds,
                ∃ l' ∈ PaymentReturn.checkedLines s rids,
                  i ∈ l'.moveLineIds)))
    ∧ (∀ e, PaymentReturn._check_duplicate_move_line s rids
        = Except.error e →
        ∃ errs, e = UErr.validationDuplicate errs
          ∧ ((errs = (PaymentReturn.dupScan
                (PaymentReturn.checkedLines s rids) [] []).2
              ∧ errs ≠ []
              ∧ errs.length
                  + (rsDedup ((PaymentReturn.checkedLines s rids).flatMap
                      (fun l => l.moveLineIds))).length
                = ((PaymentReturn.checkedLines s rids).flatMap
                    (fun l => l.moveLineIds)).length)
            ∨ (((PaymentReturn.checkedLines s rids).flatMap
                  (fun l => l.moveLineIds)).Nodup
              ∧ errs = (PaymentReturn.dupSearchDone s
                  (rsDedup ((PaymentReturn.checkedLines s rids).flatMap
                    (fun l => l.moveLineIds)))).map (fun l => l.id)
              ∧ ∀ lid ∈ errs, ∃ l ∈ s.returnLines, l.id = lid
                  ∧ (∃ r, s.getReturn l.returnId = some r
                      ∧ r.state = RState.done)
                  ∧ ∃ i ∈ l.moveLineIds,
                      ∃ l2 ∈ PaymentReturn.checkedLines s rids,
                        i ∈ l2.moveLineIds))) := by
  classical
  have herr : (∃ e, PaymentReturn._check_duplicate_move_line s rids
        = Except.error e) ↔ PaymentReturn.dupErrs s rids ≠ [] := by
    unfold PaymentReturn._check_duplicate_move_line
    by_cases h : PaymentReturn.dupErrs s rids = []
    · simp [h]
    · have hbe : (PaymentReturn.dupErrs s rids).isEmpty = false := by
        rw [Bool.eq_false_iff]
        intro hx
        exact h (List.isEmpty_iff.mp hx)
      simp [hbe, h]
  rw [herr]
  unfold PaymentReturn.dupErrs
  set C := PaymentReturn.checkedLines s rids with hC
  set F := C.flatMap (fun l => l.moveLineIds) with hF
  set S := PaymentReturn.dupScan C [] [] with hS
  have hs2 : S.2 = [] ↔ F.Nodup := by
    rw [hS, hF]
    simpa using PaymentReturn.dupScan_err_nil C [] List.nodup_nil
  have hs1 : ∀ i, (i ∈ S.1 ↔ i ∈ F) := by
    intro i
    rw [hS, PaymentReturn.dupScan_fst, mem_rsUnion, hF]
    simp
  have hdup :
      (∃ l1 ∈ C, ∃ l2 ∈ C,
          l1.id ≠ l2.id ∧ ∃ i ∈ l1.moveLineIds, i ∈ l2.moveLineIds)
        ↔ ¬ F.Nodup := by
    rw [hF, List.nodup_flatMap]
    constructor
    · rintro ⟨l1, h1, l2, h2, hne, i, hi1, hi2⟩ ⟨_, hpw⟩
      have hne' : l1 ≠ l2 := fun he => hne (by rw [he])
      have hsym : Symmetric (List.Disjoint on fun l : ReturnLine =>
          l.moveLineIds) := by
        intro a b hab x hx1 hx2
        exact hab hx2 hx1
      exact hpw.forall hsym h1 h2 hne' hi1 hi2
    · intro hnp
      by_contra hnd
      apply hnp
      refine ⟨hln, ?_⟩
      refine (hlid.of_map (fun l => l.id)).pairwise_of_forall_ne ?_
      intro a ha b hb hab
      intro x hx1 hx2
      apply hnd
      refine ⟨a, ha, b, hb, ?_, x, hx1, hx2⟩
      intro hid
      exact hab (List.inj_on_of_nodup_map hlid ha hb hid)
  have hsearch : ∀ l : ReturnLine,
      ((l.moveLineIds.any (fun i => S.1.contains i))
        && (((s.getReturn l.returnId).map
              (fun r => r.state == RState.done)).getD false)) = true
      ↔ ((∃ r, s.getReturn l.returnId = some r ∧ r.state = RState.done)
          ∧ ∃ i ∈ l.moveLineIds, ∃ l' ∈ C, i ∈ l'.moveLineIds) := by
    intro l
    rw [Bool.and_eq_true, List.any_eq_true]
    constructor
    · rintro ⟨⟨i, hi, hic⟩, hdone⟩
      refine ⟨?_, i, hi, ?_⟩
      · cases hr : s.getReturn l.returnId with
        | none => rw [hr] at hdone; cases hdone
        | some r =>
          rw [hr] at hdone
          refine ⟨r, rfl, ?_⟩
          simpa using hdone
      · have : i ∈ S.1 := List.elem_iff.mp hic
        rw [hs1 i, hF, List.mem_flatMap] at this
        exact this
    · rintro ⟨⟨r, hr, hrdone⟩, i, hi, l', hl', hil'⟩
      refine ⟨⟨i, hi, List.elem_iff.mpr ?_⟩, ?_⟩
      · rw [hs1 i, hF, List.mem_flatMap]
        exact ⟨l', hl', hil'⟩
      · rw [hr]
        simp [hrdone]
  have hS1d : S.1 = rsDedup F := by
    rw [hS, PaymentReturn.dupScan_fst]
    rfl
  have hpart2 : ∀ e, PaymentReturn._check_duplicate_move_line s rids
      = Except.error e →
      ∃ errs, e = UErr.validationDuplicate errs
        ∧ ((errs = S.2 ∧ errs ≠ []
            ∧ errs.length + (rsDedup F).length = F.length)
          ∨ (F.Nodup
            ∧ errs = (PaymentReturn.dupSearchDone s (rsDedup F)).map
                (fun l => l.id)
            ∧ ∀ lid ∈ errs, ∃ l ∈ s.returnLines, l.id = lid
                ∧ (∃ r, s.getReturn l.returnId = some r
                    ∧ r.state = RState.done)
                ∧ ∃ i ∈ l.moveLineIds, ∃ l2 ∈ C,
                    i ∈ l2.moveLineIds)) := by
    intro e he
    have hed : PaymentReturn.dupErrs s rids ≠ []
        ∧ e = UErr.validationDuplicate (PaymentReturn.dupErrs s rids) := by
      unfold PaymentReturn._check_duplicate_move_line at he
      by_cases h : (PaymentReturn.dupErrs s rids).isEmpty
      · rw [if_pos h] at he
        cases he
      · rw [if_neg h] at he
        injection he with he2
        refine ⟨fun hx => h ?_, he2.symm⟩
        rw [hx]
        rfl
    obtain ⟨hne0, heq⟩ := hed
    refine ⟨PaymentReturn.dupErrs s rids, heq, ?_⟩
    have hderr : PaymentReturn.dupErrs s rids
        = S.2 ++ (if S.2.isEmpty && !S.1.isEmpty then
            (PaymentReturn.dupSearchDone s S.1).map (fun l => l.id)
          else []) := rfl
    by_cases hA : S.2 = []
    · by_cases hB : S.1.isEmpty
      · exfalso
        apply hne0
        rw [hderr, hA, hB]
        rfl
      · right
        have hbe1 : S.1.isEmpty = false := by
          rw [Bool.eq_false_iff]
          exact hB
        have hnd : F.Nodup := hs2.mp hA
        have herrs2 : PaymentReturn.dupErrs s rids
            = (PaymentReturn.dupSearchDone s S.1).map
                (fun l => l.id) := by
          rw [hderr, hA, hbe1]
          rfl
        refine ⟨hnd, ?_, ?_⟩
        · rw [herrs2, hS1d]
        · intro lid hlid
          rw [herrs2] at hlid
          obtain ⟨l, hl, hlid2⟩ := List.mem_map.mp hlid
          obtain ⟨hlmem, hlp⟩ := List.mem_filter.mp hl
          exact ⟨l, hlmem, hlid2, (hsearch l).mp hlp⟩
    · left
      have hbe2 : S.2.isEmpty = false := by
        rw [Bool.eq_false_iff]
        intro hx
        exact hA (List.isEmpty_iff.mp hx)
      have herrs2 : PaymentReturn.dupErrs s rids = S.2 := by
        rw [hderr, hbe2]
        simp
      refine ⟨herrs2, ?_, ?_⟩
      · rw [herrs2]
        exact hA
      · rw [herrs2]
        have hcount := PaymentReturn.dupScan_count C []
        rw [← hS] at hcount
        rw [← hF] at hcount
        rw [hS1d] at hcount
        simp only [List.length_nil, Nat.zero_add] at hcount
        exact hcount
  refine ⟨?_, hpart2⟩
  by_cases hA : S.2 = []
  · have hnd : F.Nodup := hs2.mp hA
    have hdupfalse :
        ¬ (∃ l1 ∈ C, ∃ l2 ∈ C,
            l1.id ≠ l2.id ∧ ∃ i ∈ l1.moveLineIds, i ∈ l2.moveLineIds) :=
      fun hd => (hdup.mp hd) hnd
    by_cases hB : F = []
    · have h1nil : S.1 = [] := by
        rw [hS, PaymentReturn.dupScan_fst, ← hF, hB]
        rfl
      have hcond : (S.2.isEmpty && !S.1.isEmpty) = false := by
        rw [hA, h1nil]
        rfl
      have hval : (S.2 ++ (if S.2.isEmpty && !S.1.isEmpty then
            (PaymentReturn.dupSearchDone s S.1).map (fun l => l.id)
          else [])) = [] := by
        rw [hcond, hA]
        simp
      rw [hval]
      constructor
      · intro h
        exact absurd rfl h
      · rintro (hd | ⟨l, _, _, i, _, l', hl', hil'⟩)
        · exact absurd hd hdupfalse
        · exfalso
          have : i ∈ F := by
            rw [hF, List.mem_flatMap]
            exact ⟨l', hl', hil'⟩
          rw [hB] at this
          cases this
    · have h1ne : S.1 ≠ [] := by
        intro h1
        rcases List.exists_mem_of_ne_nil F hB with ⟨i, hi⟩
        have := (hs1 i).mpr hi
        rw [h1] at this
        cases this
      have hbe1 : S.1.isEmpty = false := by
        rw [Bool.eq_false_iff]
        intro hx
        exact h1ne (List.isEmpty_iff.mp hx)
      have hcond : (S.2.isEmpty && !S.1.isEmpty) = true := by
        rw [hA, hbe1]
        rfl
      have hval : (S.2 ++ (if S.2.isEmpty && !S.1.isEmpty then
            (PaymentReturn.dupSearchDone s S.1).map (fun l => l.id)
          else []))
          = (PaymentReturn.dupSearchDone s S.1).map (fun l => l.id) := by
        rw [hcond, hA]
        simp
      rw [hval]
      constructor
      · intro h
        have : PaymentReturn.dupSearchDone s S.1 ≠ [] := by
          intro hx
          apply h
          rw [hx]
          rfl
        rcases List.exists_mem_of_ne_nil _ this with ⟨l, hl⟩
        rcases List.mem_filter.mp hl with ⟨hlmem, hlp⟩
        exact Or.inr ⟨l, hlmem, (hsearch l).mp hlp⟩
      · rintro (hd | ⟨l, hlmem, hcond⟩)
        · exact absurd hd hdupfalse
        · intro hx
          rw [List.map_eq_nil_iff] at hx
          rw [PaymentReturn.dupSearchDone, List.filter_eq_nil_iff] at hx
          exact hx l hlmem ((hsearch l).mpr hcond)
  · have hbe2 : S.2.isEmpty = false := by
      rw [Bool.eq_false_iff]
      intro hx
      exact hA (List.isEmpty_iff.mp hx)
    have hcond : (S.2.isEmpty && !S.1.isEmpty) = false := by
      rw [hbe2]
      rfl
    have hval : (S.2 ++ (if S.2.isEmpty && !S.1.isEmpty then
          (PaymentReturn.dupSearchDone s S.1).map (fun l => l.id)
        else [])) = S.2 := by
      rw [hcond]
      simp
    rw [hval]
    constructor
    · intro _
      exact Or.inl (hdup.mpr (fun hnd => hA (hs2.mpr hnd)))
    · intro _
      exact hA

/-- Witness for the amended C4: the theorem applied to the concrete
database `wit4` (two checked lines sharing move line 100). -/
theorem C4_check_duplicate_amended_witness :
    (∀ l ∈ PaymentReturn.checkedLines wit4 [1], l.moveLineIds.Nodup)
    ∧ (((PaymentReturn.checkedLines wit4 [1]).map (fun l => l.id)).Nodup)
    ∧ ((∃ e, PaymentReturn._check_duplicate_move_line wit4 [1]
          = Except.error e)
        ↔ ((∃ l1 ∈ PaymentReturn.checkedLines wit4 [1],
              ∃ l2 ∈ PaymentReturn.checkedLines wit4 [1],
                l1.id ≠ l2.id ∧ ∃ i ∈ l1.moveLineIds, i ∈ l2.moveLineIds)
          ∨ (∃ l ∈ wit4.returnLines,
              (∃ r, wit4.getReturn l.returnId = some r
                ∧ r.state = RState.done)
              ∧ ∃ i ∈ l.moveLineIds,
                  ∃ l' ∈ PaymentReturn.checkedLines wit4 [1],
                    i ∈ l'.moveLineIds))) :=
  ⟨by decide, by decide,
    (C4_check_duplicate_amended wit4 [1] (by decide) (by decide)).1⟩

theorem mkRecParts_ne_nil (n : Nat) (ds cs : List (Nat × ℤ))
    (hd : ds ≠ []) (hc : cs ≠ []) : mkRecParts n ds cs ≠ [] := by
  cases ds with
  | nil => exact absurd rfl hd
  | cons d ds' =>
    cases cs with
    | nil => exact absurd rfl hc
    | cons c cs' =>
      unfold mkRecParts
      split_ifs <;> simp

theorem append_ne_left (l t : List PartialReconcile) (ht : t ≠ []) :
    l ++ t ≠ l := by
  intro h
  have hlen := congrArg List.length h
  rw [List.length_append] at hlen
  have h0 : t.length = 0 := by omega
  exact ht (List.length_eq_zero.mp h0)

theorem reconcileLines_partials (s : State) (ids : List Nat) :
    (s.reconcileLines ids).partials
      = s.partials ++ mkRecParts s.nextId
          (((s.linesOf ids).filter (fun l => decide (0 < s.residual l))).map
            (fun l => (l.id, s.residual l)))
          (((s.linesOf ids).filter (fun l => decide (s.residual l < 0))).map
            (fun l => (l.id, -(s.residual l)))) := rfl

theorem getMoveLine_of_mem_singleton (s : State) (i : Nat) (l : MoveLine)
    (h : l ∈ s.linesOf [i]) : s.getMoveLine i = some l := by
  rcases List.mem_filterMap.mp h with ⟨a, ha, hax⟩
  rw [← List.mem_singleton.mp ha]
  exact hax

/-- C1 counterexample: on `cex1` the journal option
`return_auto_reconcile` is enabled, every matched entry is two-line so
the counterpart is line 101, the total amount `50` equals the
counterparts' debit sum exactly, and no counterpart line is reconciled —
the claim then demands a reconciliation — yet `_auto_reconcile` performs
none (the state, hence the set of partial reconciliations, is
unchanged), because the credit move line and the counterpart sit on two
different accounts. -/
theorem C1_counterexample :
    PaymentReturn.autoRecEnabled cex1 1 = true
    ∧ PaymentReturn.counterpartsOf cex1 [100] = some [101]
    ∧ float_compare 50 (((cex1.linesOf [101]).map (fun l => l.debit)).sum)
        cex1.userCompanyRounding = 0
    ∧ ¬((cex1.linesOf [101]).any (fun l => cex1.reconciledML l))
    ∧ PaymentReturn._auto_reconcile cex1 1 200 [100] 50 = cex1 :=
  ⟨by decide, by decide, by decide, by decide, rfl⟩

/-- C1 (amended): for a payment return whose journal has
`return_auto_reconcile` enabled, `_auto_reconcile` reconciles the
return's credit move line against the counterpart move lines exactly
when every matched line's journal entry has exactly two lines, the
counterpart set is non-empty, the total returned amount equals the sum
of the counterparts' debits under the company currency rounding, no
counterpart line is already reconciled, and all the lines to reconcile
share a single account; otherwise (in particular when amounts differ or
a prior reconciliation exists) no reconciliation is performed.  The
hypotheses only say that the return's credit move line has outstanding
credit and that each counterpart line is not over-reconciled and sits on
a reconcilable account — a counterpart with residual `0`, i.e. one
already reconciled, is allowed, and on such a state the right-hand side
is false and no reconciliation happens. -/
theorem C1_auto_reconcile_amended (s : State) (rid cml : Nat)
    (allMls : List Nat) (total : ℤ)
    (hcml : ∃ c ∈ s.linesOf [cml], s.residual c < 0)
    (hcp : ∀ i ∈ (PaymentReturn.counterpartsOf s allMls).getD [],
      ∃ l ∈ s.linesOf [i], 0 ≤ s.residual l
        ∧ (((s.getAccount l.accountId).map
            (fun a => a.reconcile)).getD false) = true) :
    (PaymentReturn._auto_reconcile s rid cml allMls total).partials
        ≠ s.partials
      ↔ (PaymentReturn.autoRecEnabled s rid = true
        ∧ ∃ cpIds, PaymentReturn.counterpartsOf s allMls = some cpIds
          ∧ cpIds ≠ []
          ∧ float_compare total
              (((s.linesOf cpIds).map (fun l => l.debit)).sum)
              s.userCompanyRounding = 0
          ∧ ¬((s.linesOf cpIds).any (fun l => s.reconciledML l))
          ∧ (rsDedup ((s.linesOf (rsUnion [cml] cpIds)).map
              (fun l => l.accountId))).length = 1) := by
  unfold PaymentReturn._auto_reconcile
  cases hen : PaymentReturn.autoRecEnabled s rid with
  | false => simp [hen]
  | true =>
    simp only [hen, Bool.not_true, Bool.false_eq_true, if_false, true_and]
    cases hcpo : PaymentReturn.counterpartsOf s allMls with
    | none => simp
    | some cpIds =>
      simp only []
      rw [hcpo] at hcp
      simp only [Option.getD_some] at hcp
      by_cases hcond : ¬cpIds.isEmpty
          ∧ float_compare total
              (((s.linesOf cpIds).map (fun l => l.debit)).sum)
              s.userCompanyRounding = 0
          ∧ ¬((s.linesOf cpIds).any (fun l => s.reconciledML l))
      · rw [if_pos hcond]
        by_cases hacc : (rsDedup ((s.linesOf
            (rsUnion [cml] cpIds)).map
              (fun l => l.accountId))).length ≠ 1
        · rw [if_pos hacc]
          constructor
          · intro h
            exact absurd rfl h
          · rintro ⟨cpIds', hsome, _, _, _, hone⟩
            injection hsome with he
            subst he
            exact absurd hone hacc
        · rw [if_neg hacc]
          have hone : (rsDedup ((s.linesOf (rsUnion [cml] cpIds)).map
              (fun l => l.accountId))).length = 1 := not_not.mp hacc
          have hne : cpIds ≠ [] :=
            fun h => hcond.1 (by rw [h]; rfl)
          constructor
          · intro _
            exact ⟨cpIds, rfl, hne, hcond.2.1, hcond.2.2, hone⟩
          · intro _
            rw [reconcileLines_partials]
            apply append_ne_left
            apply mkRecParts_ne_nil
            · rcases List.exists_mem_of_ne_nil cpIds hne with ⟨i0, hi0⟩
              rcases hcp i0 hi0 with ⟨l0, hl0mem, hl0nonneg, hl0flag⟩
              have hlook : s.getMoveLine i0 = some l0 :=
                getMoveLine_of_mem_singleton s i0 l0 hl0mem
              have hl0cp : l0 ∈ s.linesOf cpIds :=
                List.mem_filterMap.mpr ⟨i0, hi0, hlook⟩
              have hnotrec : ¬ (s.reconciledML l0 = true) := fun hr =>
                hcond.2.2 (List.any_eq_true.mpr ⟨l0, hl0cp, hr⟩)
              have hres0 : s.residual l0 ≠ 0 := by
                intro h0
                apply hnotrec
                unfold State.reconciledML
                rw [hl0flag, h0]
                rfl
              have hl0res : 0 < s.residual l0 :=
                lt_of_le_of_ne hl0nonneg (fun he => hres0 he.symm)
              have hl0in : l0 ∈ s.linesOf (rsUnion [cml] cpIds) :=
                List.mem_filterMap.mpr
                  ⟨i0, (mem_rsUnion cpIds [cml] i0).mpr (Or.inr hi0), hlook⟩
              exact List.ne_nil_of_mem (List.mem_map_of_mem _
                (List.mem_filter.mpr ⟨hl0in, by simpa using hl0res⟩))
            · rcases hcml with ⟨c, hcmem, hcres⟩
              have hlook : s.getMoveLine cml = some c :=
                getMoveLine_of_mem_singleton s cml c hcmem
              have hcin : c ∈ s.linesOf (rsUnion [cml] cpIds) :=
                List.mem_filterMap.mpr
                  ⟨cml, (mem_rsUnion cpIds [cml] cml).mpr
                    (Or.inl (List.mem_singleton_self cml)), hlook⟩
              exact List.ne_nil_of_mem (List.mem_map_of_mem _
                (List.mem_filter.mpr ⟨hcin, by simpa using hcres⟩))
      · rw [if_neg hcond]
        constructor
        · intro h
          exact absurd rfl h
        · rintro ⟨cpIds', hsome, hne, hfc, hnr, _⟩
          injection hsome with he
          subst he
          exact absurd
            ⟨fun hie => hne (List.isEmpty_iff.mp hie), hfc, hnr⟩ hcond

/-- Witness for the amended C1: the theorem applied to the concrete
database `wit1`, where the auto reconciliation does fire. -/
theorem C1_auto_reconcile_amended_witness :
    (∃ c ∈ wit1.linesOf [200], wit1.residual c < 0)
    ∧ (∀ i ∈ (PaymentReturn.counterpartsOf wit1 [100]).getD [],
        ∃ l ∈ wit1.linesOf [i], 0 ≤ wit1.residual l
          ∧ (((wit1.getAccount l.accountId).map
              (fun a => a.reconcile)).getD false) = true)
    ∧ ((PaymentReturn._auto_reconcile wit1 1 200 [100] 50).partials
          ≠ wit1.partials
        ↔ (PaymentReturn.autoRecEnabled wit1 1 = true
          ∧ ∃ cpIds, PaymentReturn.counterpartsOf wit1 [100] = some cpIds
            ∧ cpIds ≠ []
            ∧ float_compare 50
                (((wit1.linesOf cpIds).map (fun l => l.debit)).sum)
                wit1.userCompanyRounding = 0
            ∧ ¬((wit1.linesOf cpIds).any (fun l => wit1.reconciledML l))
            ∧ (rsDedup ((wit1.linesOf (rsUnion [200] cpIds)).map
                (fun l => l.accountId))).length = 1)) :=
  ⟨by decide, by decide,
    C1_auto_reconcile_amended wit1 1 200 [100] 50 (by decide) (by decide)⟩

/-- C9: on a payment return that exists, `action_confirm` raises a
`UserError` exactly when some of the return's lines has no matched move
lines, and that is the only error it can raise.  The check is the first
statement of the method — before the journal entry or any move line is
created — so the raise (modelled as `Except.error`, the transaction
rolling back) leaves the return's state and the bookkeeping state
unchanged. -/
theorem C9_confirm_incomplete (s : State) (rid : Nat)
    (pr : PaymentReturn) (hpr : s.getReturn rid = some pr) :
    (PaymentReturn.action_confirm s rid
        = Except.error UErr.incompleteLines
      ↔ ∃ l ∈ s.returnLines, l.returnId = rid ∧ l.moveLineIds = [])
    ∧ (∀ e, PaymentReturn.action_confirm s rid = Except.error e →
        e = UErr.incompleteLines) := by
  have hcond : (((s.returnLines.filter (fun l => l.returnId == rid)).any
      (fun l => l.moveLineIds.isEmpty)) = true)
      ↔ ∃ l ∈ s.returnLines, l.returnId = rid ∧ l.moveLineIds = [] := by
    rw [List.any_eq_true]
    constructor
    · rintro ⟨l, hl, he⟩
      rcases List.mem_filter.mp hl with ⟨hmem, hrid⟩
      exact ⟨l, hmem, by simpa using hrid, List.isEmpty_iff.mp he⟩
    · rintro ⟨l, hl, hrid, hmls⟩
      exact ⟨l, List.mem_filter.mpr ⟨hl, by simp [hrid]⟩, by simp [hmls]⟩
  unfold PaymentReturn.action_confirm
  simp only [hpr]
  by_cases hany : ((s.returnLines.filter (fun l => l.returnId == rid)).any
      (fun l => l.moveLineIds.isEmpty)) = true
  · rw [if_pos hany]
    exact ⟨by simp [hcond.mp hany],
      fun e he => by injection he with h; exact h.symm⟩
  · rw [if_neg hany]
    constructor
    · simp only [reduceCtorEq, false_iff]
      intro hx
      exact hany (hcond.mpr hx)
    · intro e he
      cases he

/-- Witness for C9 at `wit9`, where line 11 has no matched move lines,
so the error fires. -/
theorem C9_confirm_incomplete_witness :
    wit9.getReturn 1 = some wit2ret
    ∧ ((PaymentReturn.action_confirm wit9 1
          = Except.error UErr.incompleteLines
        ↔ ∃ l ∈ wit9.returnLines, l.returnId = 1 ∧ l.moveLineIds = [])
      ∧ (∀ e, PaymentReturn.action_confirm wit9 1 = Except.error e →
          e = UErr.incompleteLines)) :=
  ⟨by decide, C9_confirm_incomplete wit9 1 wit2ret (by decide)⟩

theorem sameTables_trans {a b c : State} (h1 : sameTables a b)
    (h2 : sameTables b c) : sameTables a c :=
  ⟨h1.1.trans h2.1, h1.2.1.trans h2.2.1, h1.2.2.1.trans h2.2.2.1,
    h1.2.2.2.1.trans h2.2.2.2.1, h1.2.2.2.2.1.trans h2.2.2.2.2.1,
    h1.2.2.2.2.2.1.trans h2.2.2.2.2.2.1,
    h1.2.2.2.2.2.2.trans h2.2.2.2.2.2.2⟩

theorem sameTablesNoML_trans {a b c : State} (h1 : sameTablesNoML a b)
    (h2 : sameTablesNoML b c) : sameTablesNoML a c :=
  ⟨h1.1.trans h2.1, h1.2.1.trans h2.2.1, h1.2.2.1.trans h2.2.2.1,
    h1.2.2.2.1.trans h2.2.2.2.1, h1.2.2.2.2.1.trans h2.2.2.2.2.1,
    h1.2.2.2.2.2.trans h2.2.2.2.2.2⟩

theorem confirmProcessMl_tables (rl : ReturnLine) (ml2Id : Nat)
    (acc : State × List Nat × List Nat) (mlId : Nat) :
    sameTables (PaymentReturn.confirmProcessMl rl ml2Id acc mlId).1 acc.1 :=
  ⟨rfl, rfl, rfl, rfl, rfl, rfl, rfl⟩

theorem confirmInner_tables (rl : ReturnLine) (ml2Id : Nat)
    (mls : List Nat) :
    ∀ acc : State × List Nat × List Nat,
      sameTables (mls.foldl (PaymentReturn.confirmProcessMl rl ml2Id)
        acc).1 acc.1 := by
  induction mls with
  | nil => intro acc; exact ⟨rfl, rfl, rfl, rfl, rfl, rfl, rfl⟩
  | cons m t ih =>
    intro acc
    exact sameTables_trans
      (ih (PaymentReturn.confirmProcessMl rl ml2Id acc m))
      (confirmProcessMl_tables rl ml2Id acc m)

theorem expense_vals_congr (s1 s2 : State) (h : s1.journals = s2.journals)
    (pr : PaymentReturn) (rl : ReturnLine) (mv : Move) (b : Nat) :
    PaymentReturnLine._prepare_expense_lines_vals s1 pr rl mv b
      = PaymentReturnLine._prepare_expense_lines_vals s2 pr rl mv b := by
  unfold PaymentReturnLine._prepare_expense_lines_vals
  have hg : s1.getJournal pr.journalId = s2.getJournal pr.journalId := by
    unfold State.getJournal
    rw [h]
  rw [hg]

theorem confirmProcessLine_effect (s : State) (pr : PaymentReturn)
    (mv : Move) (acc : State × List Nat × List Nat)
    (rlp : ReturnLine × Nat) (hj : acc.1.journals = s.journals) :
    sameTablesNoML (PaymentReturn.confirmProcessLine pr mv acc rlp).1 acc.1
    ∧ ∃ E, (PaymentReturn.confirmProcessLine pr mv acc rlp).1.moveLines
          = acc.1.moveLines ++ E
      ∧ ((rlp.1.expenseAmount = 0 ∧ E = [])
        ∨ (rlp.1.expenseAmount ≠ 0 ∧ ∃ b,
            E = PaymentReturnLine._prepare_expense_lines_vals s pr rlp.1
              mv b)) := by
  have hin := confirmInner_tables rlp.1 rlp.2 rlp.1.moveLineIds acc
  simp only [PaymentReturn.confirmProcessLine]
  by_cases he : rlp.1.expenseAmount ≠ 0
  · rw [if_pos he]
    refine ⟨⟨hin.1, hin.2.1, hin.2.2.1, hin.2.2.2.1, hin.2.2.2.2.2.1,
      hin.2.2.2.2.2.2⟩,
      PaymentReturnLine._prepare_expense_lines_vals s pr rlp.1 mv
        (rlp.1.moveLineIds.foldl
          (PaymentReturn.confirmProcessMl rlp.1 rlp.2) acc).1.nextId,
      ?_, Or.inr ⟨he, _, rfl⟩⟩
    show (rlp.1.moveLineIds.foldl
        (PaymentReturn.confirmProcessMl rlp.1 rlp.2) acc).1.moveLines
        ++ PaymentReturnLine._prepare_expense_lines_vals
            (rlp.1.moveLineIds.foldl
              (PaymentReturn.confirmProcessMl rlp.1 rlp.2) acc).1 pr rlp.1
            mv _ = _
    rw [hin.2.2.2.2.1,
      expense_vals_congr _ s (hin.2.2.1.trans hj) pr rlp.1 mv _]
  · rw [if_neg he]
    refine ⟨⟨hin.1, hin.2.1, hin.2.2.1, hin.2.2.2.1, hin.2.2.2.2.2.1,
      hin.2.2.2.2.2.2⟩, [], ?_, Or.inl ⟨not_not.mp he, rfl⟩⟩
    rw [List.append_nil]
    exact hin.2.2.2.2.1

theorem confirmLoop2_effect (s : State) (pr : PaymentReturn) (mv : Move)
    (pairs : List (ReturnLine × Nat)) :
    ∀ acc : State × List Nat × List Nat, acc.1.journals = s.journals →
      sameTablesNoML (pairs.foldl (PaymentReturn.confirmProcessLine pr mv)
          acc).1 acc.1
      ∧ ∃ E, (pairs.foldl (PaymentReturn.confirmProcessLine pr mv)
            acc).1.moveLines = acc.1.moveLines ++ E
        ∧ ExpPairs s pr mv (pairs.map (fun p => p.1)) E := by
  induction pairs with
  | nil =>
    intro acc _
    exact ⟨⟨rfl, rfl, rfl, rfl, rfl, rfl⟩, [],
      by rw [List.foldl_nil, List.append_nil], ExpPairs.nil⟩
  | cons rlp rest ih =>
    intro acc hj
    have hstep := confirmProcessLine_effect s pr mv acc rlp hj
    have hj1 : (PaymentReturn.confirmProcessLine pr mv acc rlp).1.journals
        = s.journals := hstep.1.2.2.1.trans hj
    have hrest := ih (PaymentReturn.confirmProcessLine pr mv acc rlp) hj1
    refine ⟨sameTablesNoML_trans hrest.1 hstep.1, ?_⟩
    rcases hrest.2 with ⟨E2, hE2, hps⟩
    rcases hstep.2 with ⟨E1, hE1, (⟨h0, rfl⟩ | ⟨h0, b, rfl⟩)⟩
    · refine ⟨E2, ?_, ExpPairs.skip rlp.1 _ E2 h0 hps⟩
      show (rest.foldl (PaymentReturn.confirmProcessLine pr mv)
        (PaymentReturn.confirmProcessLine pr mv acc rlp)).1.moveLines = _
      rw [hE2, hE1, List.append_nil]
    · refine ⟨PaymentReturnLine._prepare_expense_lines_vals s pr rlp.1 mv b
        ++ E2, ?_, ExpPairs.pair rlp.1 _ E2 b h0 hps⟩
      show (rest.foldl (PaymentReturn.confirmProcessLine pr mv)
        (PaymentReturn.confirmProcessLine pr mv acc rlp)).1.moveLines = _
      rw [hE2, hE1, List.append_assoc]

theorem auto_reconcile_tables (s : State) (rid cml : Nat)
    (mls : List Nat) (total : ℤ) :
    sameTables (PaymentReturn._auto_reconcile s rid cml mls total) s := by
  unfold PaymentReturn._auto_reconcile
  split
  · exact ⟨rfl, rfl, rfl, rfl, rfl, rfl, rfl⟩
  · split
    · exact ⟨rfl, rfl, rfl, rfl, rfl, rfl, rfl⟩
    · split
      · split
        · exact ⟨rfl, rfl, rfl, rfl, rfl, rfl, rfl⟩
        · exact ⟨rfl, rfl, rfl, rfl, rfl, rfl, rfl⟩
      · exact ⟨rfl, rfl, rfl, rfl, rfl, rfl, rfl⟩

theorem confirmBody_moveLines (s : State) (rid : Nat)
    (pr : PaymentReturn) :
    (PaymentReturn.confirmBody s rid pr).moveLines
      = (PaymentReturn.confirmAcc s rid pr).1.moveLines :=
  (auto_reconcile_tables (PaymentReturn.confirmAcc s rid pr).1 rid
    (PaymentReturn.confirmCml s rid pr).id
    (PaymentReturn.confirmAcc s rid pr).2.2
    (PaymentReturn.confirmTotal s rid pr)).2.2.2.2.1

theorem confirmPairs_map_fst (lines : List ReturnLine) :
    ∀ base, (PaymentReturn.confirmPairs lines base).map (fun p => p.1)
      = lines := by
  induction lines with
  | nil => intro base; rfl
  | cons rl rest ih =>
    intro base
    show (rl, base).1 :: (PaymentReturn.confirmPairs rest (base + 1)).map
      (fun p => p.1) = rl :: rest
    rw [ih (base + 1)]

theorem confirmAcc_moveLines (s : State) (rid : Nat)
    (pr : PaymentReturn) :
    ∃ E, (PaymentReturn.confirmAcc s rid pr).1.moveLines
        = s.moveLines
          ++ PaymentReturn.confirmDebitLines s pr
              (PaymentReturn.confirmLines s rid) s.nextId (s.nextId + 1)
          ++ [PaymentReturn.confirmCml s rid pr] ++ E
      ∧ ExpPairs s pr (PaymentReturn._prepare_return_move_vals pr s.nextId)
          (PaymentReturn.confirmLines s rid) E := by
  have h := (confirmLoop2_effect s pr
    (PaymentReturn._prepare_return_move_vals pr s.nextId)
    (PaymentReturn.confirmPairs (PaymentReturn.confirmLines s rid)
      (s.nextId + 1))
    (PaymentReturn.confirmPosted s rid pr, [], []) rfl).2
  rcases h with ⟨E, hE, hps⟩
  rw [confirmPairs_map_fst] at hps
  exact ⟨E, hE, hps⟩

theorem ExpPairs_sum {s : State} {pr : PaymentReturn} {mv : Move}
    {rls : List ReturnLine} {E : List MoveLine}
    (h : ExpPairs s pr mv rls E) :
    ((E.map (fun l => l.debit)).sum = (E.map (fun l => l.credit)).sum)
    ∧ ∀ l ∈ E, l.moveId = mv.id := by
  induction h with
  | nil => exact ⟨rfl, by intro l hl; cases hl⟩
  | skip rl rest E h0 hp ih => exact ih
  | pair rl rest E b h0 hp ih =>
    constructor
    · simp only [PaymentReturnLine._prepare_expense_lines_vals,
        List.map_append, List.sum_append, List.map_cons, List.sum_cons,
        List.map_nil, List.sum_nil]
      rw [ih.1]
      ring
    · intro l hl
      rcases List.mem_append.mp hl with h1 | h2
      · rcases List.mem_cons.mp h1 with rfl | h1'
        · rfl
        · rcases List.mem_cons.mp h1' with rfl | h1''
          · rfl
          · cases h1''
      · exact ih.2 l h2

theorem ExpPairs_mem {s : State} {pr : PaymentReturn} {mv : Move}
    {rls : List ReturnLine} {E : List MoveLine}
    (h : ExpPairs s pr mv rls E) :
    ∀ rl ∈ rls, rl.expenseAmount ≠ 0 →
      ∃ a ∈ E, ∃ b2 ∈ E,
        a.debit = 0 ∧ a.credit = rl.expenseAmount
        ∧ a.accountId = ((s.getJournal pr.journalId).map
            (fun j => j.defaultAccountId)).getD 0
        ∧ a.moveId = mv.id
        ∧ b2.debit = rl.expenseAmount ∧ b2.credit = 0
        ∧ b2.accountId = rl.expenseAccountId.getD 0
        ∧ b2.moveId = mv.id := by
  induction h with
  | nil => intro rl hrl; cases hrl
  | skip rl0 rest E h0 hp ih =>
    intro rl hrl hne
    rcases List.mem_cons.mp hrl with rfl | hmem
    · exact absurd h0 hne
    · exact ih rl hmem hne
  | pair rl0 rest E b h0 hp ih =>
    intro rl hrl hne
    rcases List.mem_cons.mp hrl with rfl | hmem
    · exact ⟨_, List.mem_append_left _ (List.mem_cons_self _ _),
        _, List.mem_append_left _
          (List.mem_cons_of_mem _ (List.mem_cons_self _ _)),
        rfl, rfl, rfl, rfl, rfl, rfl, rfl, rfl⟩
    · rcases ih rl hmem hne with ⟨a, ha, b2, hb2, hprops⟩
      exact ⟨a, List.mem_append_right _ ha,
        b2, List.mem_append_right _ hb2, hprops⟩

theorem confirmDebitLines_map_debit (s : State) (pr : PaymentReturn) :
    ∀ (lines : List ReturnLine) (mvId base : Nat),
      (PaymentReturn.confirmDebitLines s pr lines mvId base).map
        (fun l => l.debit)
      = lines.map (fun rl => rl.amount) := by
  intro lines
  induction lines with
  | nil => intro mvId base; rfl
  | cons rl rest ih =>
    intro mvId base
    show rl.amount :: _ = rl.amount :: _
    rw [ih mvId (base + 1)]

theorem confirmDebitLines_props (s : State) (pr : PaymentReturn) :
    ∀ (lines : List ReturnLine) (mvId base : Nat),
      ∀ l ∈ PaymentReturn.confirmDebitLines s pr lines mvId base,
        l.moveId = mvId ∧ l.credit = 0 := by
  intro lines
  induction lines with
  | nil => intro mvId base l hl; cases hl
  | cons rl rest ih =>
    intro mvId base l hl
    rcases List.mem_cons.mp hl with rfl | hmem
    · exact ⟨rfl, rfl⟩
    · exact ih mvId (base + 1) l hmem

theorem confirmDebitLines_get (s : State) (pr : PaymentReturn) :
    ∀ (lines : List ReturnLine) (mvId base : Nat) (i : Nat)
      (h : i < lines.length),
      ∃ dl ∈ PaymentReturn.confirmDebitLines s pr lines mvId base,
        dl.id = base + i ∧ dl.debit = (lines.get ⟨i, h⟩).amount
        ∧ dl.credit = 0 := by
  intro lines
  induction lines with
  | nil => intro mvId base i h; cases h
  | cons rl rest ih =>
    intro mvId base i h
    cases i with
    | zero =>
      exact ⟨_, List.mem_cons_self _ _, rfl, rfl, rfl⟩
    | succ i' =>
      rcases ih mvId (base + 1) i' (Nat.lt_of_succ_lt_succ h)
        with ⟨dl, hmem, hid, hdeb, hcr⟩
      exact ⟨dl, List.mem_cons_of_mem _ hmem,
        by rw [hid]; omega, hdeb, hcr⟩

theorem action_confirm_ok (s : State) (rid : Nat) (s' : State)
    (hok : PaymentReturn.action_confirm s rid = Except.ok s') :
    ∃ pr, s.getReturn rid = some pr
      ∧ s' = PaymentReturn.confirmBody s rid pr := by
  unfold PaymentReturn.action_confirm at hok
  cases hgr : s.getReturn rid with
  | none => simp [hgr] at hok
  | some pr =>
    simp only [hgr] at hok
    by_cases hany : ((s.returnLines.filter (fun l => l.returnId == rid)).any
        (fun l => l.moveLineIds.isEmpty)) = true
    · rw [if_pos hany] at hok
      cases hok
    · rw [if_neg hany] at hok
      injection hok with h
      exact ⟨pr, rfl, h.symm⟩

/-- C3: on every successful `action_confirm`, the created journal entry
nets to zero: over the entry's move lines the debit and credit columns
have equal sums; the single credit line — posted on the journal's
`payment_credit_account_id` — carries a credit equal to `total_amount`,
which is the sum of the per-line return move lines' debits (each debit
being the matching return line's amount); and each expense produces a
matched pair of one debit line and one credit line of the same
`expense_amount`. -/
theorem C3_confirm_move_balances (s : State) (rid : Nat) (s' : State)
    (pr : PaymentReturn)
    (hpr : s.getReturn rid = some pr)
    (hok : PaymentReturn.action_confirm s rid = Except.ok s')
    (hfresh : ∀ l ∈ s.moveLines, l.moveId ≠ s.nextId) :
    (((s'.moveLines.filter (fun l => l.moveId == s.nextId)).map
        (fun l => l.debit)).sum
      = ((s'.moveLines.filter (fun l => l.moveId == s.nextId)).map
        (fun l => l.credit)).sum)
    ∧ (∃ cl ∈ s'.moveLines.filter (fun l => l.moveId == s.nextId),
        cl.id = s.nextId + 1 + (PaymentReturn.confirmLines s rid).length
        ∧ cl.debit = 0 ∧ cl.credit = PaymentReturn.confirmTotal s rid pr
        ∧ cl.accountId = ((s.getJournal pr.journalId).map
            (fun j => j.paymentCreditAccountId)).getD 0)
    ∧ PaymentReturn.confirmTotal s rid pr
        = ((PaymentReturn.confirmLines s rid).map
            (fun rl => rl.amount)).sum
    ∧ (∀ (i : Nat) (h : i < (PaymentReturn.confirmLines s rid).length),
        ∃ dl ∈ s'.moveLines.filter (fun l => l.moveId == s.nextId),
          dl.id = s.nextId + 1 + i
          ∧ dl.debit
              = ((PaymentReturn.confirmLines s rid).get ⟨i, h⟩).amount
          ∧ dl.credit = 0)
    ∧ (∀ rl ∈ PaymentReturn.confirmLines s rid, rl.expenseAmount ≠ 0 →
        ∃ a ∈ s'.moveLines.filter (fun l => l.moveId == s.nextId),
          ∃ b2 ∈ s'.moveLines.filter (fun l => l.moveId == s.nextId),
            a.debit = 0 ∧ a.credit = rl.expenseAmount
            ∧ a.accountId = ((s.getJournal pr.journalId).map
                (fun j => j.defaultAccountId)).getD 0
            ∧ b2.debit = rl.expenseAmount ∧ b2.credit = 0
            ∧ b2.accountId = rl.expenseAccountId.getD 0) := by
  rcases action_confirm_ok s rid s' hok with ⟨pr', hpr', hs'⟩
  rw [hpr] at hpr'
  injection hpr' with hpr'
  subst hpr'
  subst hs'
  rcases confirmAcc_moveLines s rid pr with ⟨E, hE, hps⟩
  have hml : (PaymentReturn.confirmBody s rid pr).moveLines
      = s.moveLines
        ++ PaymentReturn.confirmDebitLines s pr
            (PaymentReturn.confirmLines s rid) s.nextId (s.nextId + 1)
        ++ [PaymentReturn.confirmCml s rid pr] ++ E :=
    (confirmBody_moveLines s rid pr).trans hE
  have hEprops := ExpPairs_sum hps
  have hfilter : (PaymentReturn.confirmBody s rid pr).moveLines.filter
        (fun l => l.moveId == s.nextId)
      = PaymentReturn.confirmDebitLines s pr
          (PaymentReturn.confirmLines s rid) s.nextId (s.nextId + 1)
        ++ [PaymentReturn.confirmCml s rid pr] ++ E := by
    rw [hml, List.filter_append, List.filter_append, List.filter_append]
    rw [List.filter_eq_nil_iff.mpr (fun l hl => by
      simp only [beq_iff_eq]
      exact fun hx => hfresh l hl (by simpa using hx))]
    rw [List.filter_eq_self.mpr (fun l hl => by
      simp only [beq_iff_eq, decide_eq_true_eq]
      exact (confirmDebitLines_props s pr
        (PaymentReturn.confirmLines s rid) s.nextId (s.nextId + 1)
        l hl).1)]
    rw [List.filter_eq_self.mpr (fun l hl => by
      rcases List.mem_singleton.mp hl with rfl
      simp only [beq_iff_eq, decide_eq_true_eq]
      rfl)]
    rw [List.filter_eq_self.mpr (fun l hl => by
      simp only [beq_iff_eq, decide_eq_true_eq]
      exact hEprops.2 l hl)]
    rw [List.nil_append]
  rw [hfilter]
  have hdlcredit : ((PaymentReturn.confirmDebitLines s pr
      (PaymentReturn.confirmLines s rid) s.nextId (s.nextId + 1)).map
        (fun l => l.credit)).sum = 0 :=
    List.sum_eq_zero (fun x hx => by
      rcases List.mem_map.mp hx with ⟨l, hl, rfl⟩
      exact (confirmDebitLines_props s pr
        (PaymentReturn.confirmLines s rid) s.nextId (s.nextId + 1)
        l hl).2)
  refine ⟨?_, ?_, ?_, ?_, ?_⟩
  · simp only [List.map_append, List.sum_append, List.map_cons,
      List.sum_cons, List.map_nil, List.sum_nil]
    rw [hdlcredit, hEprops.1]
    have hcml : (PaymentReturn.confirmCml s rid pr).credit
        = PaymentReturn.confirmTotal s rid pr := rfl
    have hcmld : (PaymentReturn.confirmCml s rid pr).debit = 0 := rfl
    rw [hcml, hcmld]
    rw [show PaymentReturn.confirmTotal s rid pr
      = ((PaymentReturn.confirmDebitLines s pr
          (PaymentReturn.confirmLines s rid) s.nextId (s.nextId + 1)).map
            (fun l => l.debit)).sum from rfl]
    ring
  · exact ⟨PaymentReturn.confirmCml s rid pr,
      List.mem_append_left _ (List.mem_append_right _
        (List.mem_cons_self _ _)), rfl, rfl, rfl, rfl⟩
  · exact confirmDebitLines_map_debit s pr
      (PaymentReturn.confirmLines s rid) s.nextId (s.nextId + 1) ▸ rfl
  · intro i h
    rcases confirmDebitLines_get s pr (PaymentReturn.confirmLines s rid)
      s.nextId (s.nextId + 1) i h with ⟨dl, hmem, hid, hdeb, hcr⟩
    exact ⟨dl, List.mem_append_left _ (List.mem_append_left _ hmem),
      hid, hdeb, hcr⟩
  · intro rl hrl hne
    rcases ExpPairs_mem hps rl hrl hne
      with ⟨a, ha, b2, hb2, p1, p2, p3, p4, p5, p6, p7, p8⟩
    exact ⟨a, List.mem_append_right _ ha, b2, List.mem_append_right _ hb2,
      p1, p2, p3, p5, p6, p7⟩

/-- Witness for C3: the theorem applied to the concrete database `wit2`
(its first conjunct: the created entry balances). -/
theorem C3_confirm_move_balances_witness :
    ((((PaymentReturn.confirmBody wit2 1 wit2ret).moveLines.filter
        (fun l => l.moveId == wit2.nextId)).map (fun l => l.debit)).sum
      = (((PaymentReturn.confirmBody wit2 1 wit2ret).moveLines.filter
        (fun l => l.moveId == wit2.nextId)).map (fun l => l.credit)).sum) :=
  (C3_confirm_move_balances wit2 1
    (PaymentReturn.confirmBody wit2 1 wit2ret) wit2ret (by decide) rfl
    (by decide)).1

theorem find?_append_some {α : Type} (p : α → Bool) (l1 l2 : List α)
    (a : α) (h : l1.find? p = some a) : (l1 ++ l2).find? p = some a := by
  induction l1 with
  | nil => cases h
  | cons x t ih =>
    rw [List.cons_append]
    cases hx : p x
    · rw [List.find?_cons, hx] at h ⊢
      exact ih h
    · rw [List.find?_cons, hx] at h ⊢
      exact h

theorem getMoveLine_id (s : State) (i : Nat) (l : MoveLine)
    (h : s.getMoveLine i = some l) : l.id = i := by
  unfold State.getMoveLine at h
  have := List.find?_some h
  exact eq_of_beq this

theorem getMoveLine_mem (s : State) (i : Nat) (l : MoveLine)
    (h : s.getMoveLine i = some l) : l ∈ s.moveLines := by
  unfold State.getMoveLine at h
  exact List.mem_of_find?_eq_some h

theorem getMoveLine_congr (s1 s2 : State)
    (h : s1.moveLines = s2.moveLines) (i : Nat) :
    s1.getMoveLine i = s2.getMoveLine i := by
  unfold State.getMoveLine
  rw [h]

theorem getMoveLine_append (s1 s2 : State) (e : List MoveLine)
    (h : s2.moveLines = s1.moveLines ++ e) (i : Nat) (l : MoveLine)
    (hl : s1.getMoveLine i = some l) : s2.getMoveLine i = some l := by
  unfold State.getMoveLine at hl ⊢
  rw [h]
  exact find?_append_some _ _ _ _ hl

theorem getMoveLine_of_mem (s : State) (l : MoveLine)
    (hnd : (s.moveLines.map (fun x => x.id)).Nodup) (hm : l ∈ s.moveLines) :
    s.getMoveLine l.id = some l := by
  unfold State.getMoveLine
  cases hf : s.moveLines.find? (fun x => x.id == l.id) with
  | none =>
    have := List.find?_eq_none.mp hf l hm
    simp at this
  | some r =>
    have hrm := List.mem_of_find?_eq_some hf
    have hr2 := List.find?_some hf
    have hrid : r.id = l.id := eq_of_beq hr2
    have : r = l := List.inj_on_of_nodup_map hnd hrm hm hrid
    rw [this]

theorem linesOf_congr (s1 s2 : State) (ids : List Nat)
    (h : ∀ i ∈ ids, s2.getMoveLine i = s1.getMoveLine i) :
    s2.linesOf ids = s1.linesOf ids := by
  unfold State.linesOf
  induction ids with
  | nil => rfl
  | cons i t ih =>
    have ht := ih (fun j hj => h j (List.mem_cons_of_mem _ hj))
    rw [List.filterMap_cons, List.filterMap_cons,
      h i (List.mem_cons_self _ _), ht]

theorem filter_filter_of_imp {α : Type} (q r : α → Bool) (l : List α)
    (h : ∀ a ∈ l, q a = true → r a = true) :
    (l.filter r).filter q = l.filter q := by
  induction l with
  | nil => rfl
  | cons a t ih =>
    have ht : ∀ x ∈ t, q x = true → r x = true :=
      fun x hx => h x (List.mem_cons_of_mem a hx)
    by_cases hq : q a = true
    · have hr := h a (List.mem_cons_self a t) hq
      simp [List.filter_cons, hq, hr, ih ht]
    · cases hr : r a <;> simp [List.filter_cons, hq, hr, ih ht]

theorem filter_map_of_preserve {α β : Type} (g : α → α) (q : α → Bool)
    (f : α → β) (l : List α)
    (hq : ∀ a, q (g a) = q a) (hf : ∀ a, q a = true → f (g a) = f a) :
    ((l.map g).filter q).map f = (l.filter q).map f := by
  induction l with
  | nil => rfl
  | cons a t ih =>
    rw [List.map_cons, List.filter_cons, List.filter_cons, hq a]
    by_cases h : q a = true
    · rw [if_pos h, if_pos h, List.map_cons, List.map_cons, hf a h, ih]
    · rw [if_neg h, if_neg h, ih]

theorem removeMoveReconcile_partials (s : State) (x : Nat) :
    (s.removeMoveReconcile x).partials = s.partials.filter
      (fun p => !(p.debitMoveId == x) && !(p.creditMoveId == x)) := rfl

theorem removeMoveReconcile_moveLines (s : State) (x : Nat) :
    (s.removeMoveReconcile x).moveLines = s.moveLines := rfl

theorem removeMoveReconcile_nextId (s : State) (x : Nat) :
    (s.removeMoveReconcile x).nextId = s.nextId := rfl

theorem reconcileLines_moveLines (s : State) (ids : List Nat) :
    (s.reconcileLines ids).moveLines = s.moveLines := rfl

theorem residual_eq_of_filters (s1 s2 : State) (l : MoveLine)
    (hd : ((s1.partials.filter (fun p => p.debitMoveId == l.id)).map
        (fun p => p.amount))
      = ((s2.partials.filter (fun p => p.debitMoveId == l.id)).map
        (fun p => p.amount)))
    (hc : ((s1.partials.filter (fun p => p.creditMoveId == l.id)).map
        (fun p => p.amount))
      = ((s2.partials.filter (fun p => p.creditMoveId == l.id)).map
        (fun p => p.amount))) :
    s1.residual l = s2.residual l := by
  unfold State.residual
  rw [hd, hc]

theorem residual_of_no_sides (s : State) (l : MoveLine)
    (h : ∀ p ∈ s.partials, p.debitMoveId ≠ l.id ∧ p.creditMoveId ≠ l.id) :
    s.residual l = l.debit - l.credit := by
  unfold State.residual
  have hd : s.partials.filter (fun p => p.debitMoveId == l.id) = [] := by
    rw [List.filter_eq_nil_iff]
    intro p hp hq
    exact (h p hp).1 (eq_of_beq hq)
  have hc : s.partials.filter (fun p => p.creditMoveId == l.id) = [] := by
    rw [List.filter_eq_nil_iff]
    intro p hp hq
    exact (h p hp).2 (eq_of_beq hq)
  rw [hd, hc]
  simp

theorem residual_remove_self (s : State) (x : Nat) (l : MoveLine)
    (hl : l.id = x) :
    (s.removeMoveReconcile x).residual l = l.debit - l.credit := by
  apply residual_of_no_sides
  intro p hp
  rw [removeMoveReconcile_partials] at hp
  have hr := List.of_mem_filter hp
  simp only [Bool.and_eq_true, Bool.not_eq_true', beq_eq_false_iff_ne] at hr
  rw [hl]
  exact hr

theorem residual_remove_other (s : State) (x : Nat) (l : MoveLine)
    (h : ∀ p ∈ s.partials, (p.debitMoveId = l.id ∨ p.creditMoveId = l.id) →
      p.debitMoveId ≠ x ∧ p.creditMoveId ≠ x) :
    (s.removeMoveReconcile x).residual l = s.residual l := by
  apply residual_eq_of_filters
  · rw [removeMoveReconcile_partials,
      filter_filter_of_imp _ _ _ (fun p hp hq => by
        have := h p hp (Or.inl (eq_of_beq hq))
        simp [this.1, this.2])]
  · rw [removeMoveReconcile_partials,
      filter_filter_of_imp _ _ _ (fun p hp hq => by
        have := h p hp (Or.inr (eq_of_beq hq))
        simp [this.1, this.2])]

theorem residual_of_partials_append (s s2 : State)
    (new : List PartialReconcile) (l : MoveLine)
    (h : s2.partials = s.partials ++ new) :
    s2.residual l = s.residual l
      - ((new.filter (fun p => p.debitMoveId == l.id)).map
          (fun p => p.amount)).sum
      + ((new.filter (fun p => p.creditMoveId == l.id)).map
          (fun p => p.amount)).sum := by
  unfold State.residual
  rw [h, List.filter_append, List.filter_append, List.map_append,
    List.map_append, List.sum_append, List.sum_append]
  ring

theorem residual_of_partials_map (s s2 : State)
    (g : PartialReconcile → PartialReconcile) (l : MoveLine)
    (h : s2.partials = s.partials.map g)
    (hg : ∀ p, (g p).debitMoveId = p.debitMoveId
      ∧ (g p).creditMoveId = p.creditMoveId ∧ (g p).amount = p.amount) :
    s2.residual l = s.residual l := by
  apply residual_eq_of_filters
  · rw [h, filter_map_of_preserve g _ _ _
      (fun p => by rw [(hg p).1]) (fun p _ => (hg p).2.2)]
  · rw [h, filter_map_of_preserve g _ _ _
      (fun p => by rw [(hg p).2.1]) (fun p _ => (hg p).2.2)]

theorem mkRecParts_id_ge (k : Nat) :
    ∀ (n : Nat) (ds cs : List (Nat × ℤ)), ds.length + cs.length ≤ k →
      ∀ p ∈ mkRecParts n ds cs, n ≤ p.id := by
  induction k with
  | zero =>
    intro n ds cs hlen p hp
    have hd : ds = [] := List.length_eq_zero.mp (by omega)
    subst hd
    unfold mkRecParts at hp
    cases hp
  | succ k ih =>
    intro n ds cs hlen p hp
    cases ds with
    | nil =>
      unfold mkRecParts at hp
      cases hp
    | cons d ds' =>
      cases cs with
      | nil =>
        unfold mkRecParts at hp
        cases hp
      | cons c cs' =>
        unfold mkRecParts at hp
        rw [List.length_cons, List.length_cons] at hlen
        split_ifs at hp
        · rcases List.mem_cons.mp hp with rfl | hmem
          · exact Nat.le_refl n
          · have := ih (n + 1) ds' cs' (by omega) p hmem
            omega
        · rcases List.mem_cons.mp hp with rfl | hmem
          · exact Nat.le_refl n
          · have := ih (n + 1) ds' ((c.1, c.2 - min d.2 c.2) :: cs')
              (by simp only [List.length_cons]; omega) p hmem
            omega
        · rcases List.mem_cons.mp hp with rfl | hmem
          · exact Nat.le_refl n
          · have := ih (n + 1) ((d.1, d.2 - min d.2 c.2) :: ds') cs'
              (by simp only [List.length_cons]; omega) p hmem
            omega

theorem mkRecParts_single (n : Nat) (d c : Nat × ℤ) :
    mkRecParts n [d] [c]
      = [{ id := n, debitMoveId := d.1, creditMoveId := c.1,
           amount := min d.2 c.2, originReturnedMoveIds := [] }] := by
  unfold mkRecParts
  split_ifs <;> simp [mkRecParts]

theorem reconcileLines_pair (s : State) (mlId ml2Id : Nat)
    (ml ml2 : MoveLine)
    (hm : s.getMoveLine mlId = some ml)
    (hm2 : s.getMoveLine ml2Id = some ml2)
    (hr1 : s.residual ml < 0) (hr2 : 0 < s.residual ml2)
    (hle : -(s.residual ml) ≤ s.residual ml2) :
    (s.reconcileLines [mlId, ml2Id]).partials
      = s.partials
        ++ [{ id := s.nextId
              debitMoveId := ml2Id
              creditMoveId := mlId
              amount := -(s.residual ml)
              originReturnedMoveIds := [] }] := by
  have hlines : s.linesOf [mlId, ml2Id] = [ml, ml2] := by
    unfold State.linesOf
    rw [List.filterMap_cons, hm, List.filterMap_cons, hm2,
      List.filterMap_nil]
  have hid : ml.id = mlId := getMoveLine_id s mlId ml hm
  have hid2 : ml2.id = ml2Id := getMoveLine_id s ml2Id ml2 hm2
  rw [reconcileLines_partials, hlines]
  have hd : ([ml, ml2].filter (fun l => decide (0 < s.residual l)))
      = [ml2] := by
    rw [List.filter_cons, List.filter_cons, List.filter_nil,
      if_neg (by simp only [decide_eq_true_eq]; omega),
      if_pos (by simp only [decide_eq_true_eq]; exact hr2)]
  have hc : ([ml, ml2].filter (fun l => decide (s.residual l < 0)))
      = [ml] := by
    rw [List.filter_cons, List.filter_cons, List.filter_nil,
      if_pos (by simp only [decide_eq_true_eq]; exact hr1),
      if_neg (by simp only [decide_eq_true_eq]; omega)]
  rw [hd, hc, List.map_cons, List.map_nil, List.map_cons, List.map_nil,
    mkRecParts_single]
  simp [hid, hid2, min_eq_right hle]

theorem auto_reconcile_partials (s : State) (rid cml : Nat)
    (mls : List Nat) (total : ℤ) :
    ∃ new, (PaymentReturn._auto_reconcile s rid cml mls total).partials
        = s.partials ++ new
      ∧ ∀ p ∈ new, s.nextId ≤ p.id := by
  unfold PaymentReturn._auto_reconcile
  split
  · exact ⟨[], (List.append_nil _).symm, by intro p hp; cases hp⟩
  · split
    · exact ⟨[], (List.append_nil _).symm, by intro p hp; cases hp⟩
    · split
      · split
        · exact ⟨[], (List.append_nil _).symm, by intro p hp; cases hp⟩
        · refine ⟨_, reconcileLines_partials s _, ?_⟩
          intro p hp
          exact mkRecParts_id_ge _ _ _ _ le_rfl p hp
      · exact ⟨[], (List.append_nil _).symm, by intro p hp; cases hp⟩

theorem mem_rsDedup (b : List Nat) (j : Nat) : j ∈ rsDedup b ↔ j ∈ b := by
  unfold rsDedup
  rw [mem_rsUnion]
  simp

theorem reconcileLines_nextId_ge (s : State) (ids : List Nat) :
    s.nextId ≤ (s.reconcileLines ids).nextId :=
  Nat.le_add_right _ _

theorem originUpd_fields (rm : List Nat) (mls : List Nat)
    (p : PartialReconcile) :
    ((if mls.contains p.creditMoveId then
        { p with originReturnedMoveIds := rm } else p).id = p.id)
    ∧ ((if mls.contains p.creditMoveId then
        { p with originReturnedMoveIds := rm } else p).debitMoveId
      = p.debitMoveId)
    ∧ ((if mls.contains p.creditMoveId then
        { p with originReturnedMoveIds := rm } else p).creditMoveId
      = p.creditMoveId)
    ∧ ((if mls.contains p.creditMoveId then
        { p with originReturnedMoveIds := rm } else p).amount
      = p.amount) := by
  by_cases h : mls.contains p.creditMoveId = true
  · rw [if_pos h]
    exact ⟨rfl, rfl, rfl, rfl⟩
  · rw [if_neg h]
    exact ⟨rfl, rfl, rfl, rfl⟩

theorem confirmProcessMl_partials (rl : ReturnLine) (ml2Id : Nat)
    (acc : State × List Nat × List Nat) (mlId : Nat) :
    (PaymentReturn.confirmProcessMl rl ml2Id acc mlId).1.partials
      = (((acc.1.removeMoveReconcile mlId).reconcileLines
            [mlId, ml2Id]).partials).map (fun p =>
          if rl.moveLineIds.contains p.creditMoveId then
            { p with
              originReturnedMoveIds := rsDedup ((acc.1.partials.filter (fun q => q.creditMoveId == mlId)).map (fun q => q.debitMoveId)) }
          else p) := rfl

theorem confirmProcessMl_nextId (rl : ReturnLine) (ml2Id : Nat)
    (acc : State × List Nat × List Nat) (mlId : Nat) :
    (PaymentReturn.confirmProcessMl rl ml2Id acc mlId).1.nextId
      = ((acc.1.removeMoveReconcile mlId).reconcileLines
          [mlId, ml2Id]).nextId := rfl

theorem confirmProcessMl_inv (rl : ReturnLine) (ml2Id : Nat)
    (acc : State × List Nat × List Nat) (mlId : Nat) :
    (PaymentReturn.confirmProcessMl rl ml2Id acc mlId).2.1
      = rsUnion acc.2.1 (rsDedup ((acc.1.linesOf
          (rsDedup ((acc.1.partials.filter
            (fun q => q.creditMoveId == mlId)).map
            (fun q => q.debitMoveId)))).map (fun l => l.moveId))) := rfl

theorem confirmInner_main (rl : ReturnLine) (ml2Id : Nat) (n : Nat)
    (ms : List Nat) :
    ∀ acc : State × List Nat × List Nat,
      ms.Nodup → ml2Id ∉ ms →
      (∀ m ∈ ms, ∃ ml, acc.1.getMoveLine m = some ml
        ∧ ml.debit = 0 ∧ 0 < ml.credit) →
      (∃ ml2, acc.1.getMoveLine ml2Id = some ml2
        ∧ acc.1.residual ml2
          = ((acc.1.linesOf ms).map (fun l => l.credit)).sum) →
      (∀ p ∈ acc.1.partials, p.creditMoveId ≠ ml2Id) →
      (∀ p ∈ acc.1.partials, p.debitMoveId = ml2Id →
        p.creditMoveId ∉ ms) →
      (∀ p ∈ acc.1.partials, p.creditMoveId ∈ ms →
        p.debitMoveId ∉ ms ∧ p.debitMoveId ≠ ml2Id) →
      n ≤ acc.1.nextId →
      (∀ m ∈ ms,
        ∃ p ∈ (ms.foldl (PaymentReturn.confirmProcessMl rl ml2Id)
          acc).1.partials,
          p.creditMoveId = m ∧ p.debitMoveId = ml2Id ∧ n ≤ p.id)
      ∧ (∀ p ∈ (ms.foldl (PaymentReturn.confirmProcessMl rl ml2Id)
          acc).1.partials,
          (∃ q ∈ acc.1.partials, p.id = q.id
            ∧ p.debitMoveId = q.debitMoveId
            ∧ p.creditMoveId = q.creditMoveId ∧ p.amount = q.amount
            ∧ q.debitMoveId ∉ ms ∧ q.creditMoveId ∉ ms)
          ∨ (n ≤ p.id ∧ p.debitMoveId = ml2Id ∧ p.creditMoveId ∈ ms))
      ∧ (∀ q ∈ acc.1.partials, q.debitMoveId ∉ ms → q.creditMoveId ∉ ms →
          ∃ p ∈ (ms.foldl (PaymentReturn.confirmProcessMl rl ml2Id)
            acc).1.partials,
            p.id = q.id ∧ p.debitMoveId = q.debitMoveId
            ∧ p.creditMoveId = q.creditMoveId ∧ p.amount = q.amount)
      ∧ (∀ m ∈ ms, ∀ q ∈ acc.1.partials, q.creditMoveId = m →
          ∀ dl, acc.1.getMoveLine q.debitMoveId = some dl →
            dl.moveId ∈ (ms.foldl (PaymentReturn.confirmProcessMl rl
              ml2Id) acc).2.1)
      ∧ (∀ x ∈ acc.2.1, x ∈ (ms.foldl (PaymentReturn.confirmProcessMl rl
          ml2Id) acc).2.1)
      ∧ acc.1.nextId ≤ (ms.foldl (PaymentReturn.confirmProcessMl rl
          ml2Id) acc).1.nextId := by
  induction ms with
  | nil =>
    intro acc _ _ _ _ _ _ _ _
    refine ⟨?_, ?_, ?_, ?_, ?_, ?_⟩
    · intro m hm
      cases hm
    · intro p hp
      exact Or.inl ⟨p, hp, rfl, rfl, rfl, rfl,
        (by intro h; cases h), (by intro h; cases h)⟩
    · intro q hq _ _
      exact ⟨q, hq, rfl, rfl, rfl, rfl⟩
    · intro m hm
      cases hm
    · intro x hx
      exact hx
    · exact Nat.le_refl _
  | cons m tail ih =>
    intro acc h1 h2 h4 h5 h6 h7 h8 h9
    obtain ⟨hm_nin, h1t⟩ := List.nodup_cons.mp h1
    have h2t : ml2Id ∉ tail := fun h => h2 (List.mem_cons_of_mem _ h)
    have hmne2 : m ≠ ml2Id := by
      intro he
      exact h2 (by rw [← he]; exact List.mem_cons_self m tail)
    obtain ⟨ml, hm, hml0, hmlc⟩ := h4 m (List.mem_cons_self m tail)
    obtain ⟨ml2, hm2, hres⟩ := h5
    have hidml : ml.id = m := getMoveLine_id _ _ _ hm
    have hidml2 : ml2.id = ml2Id := getMoveLine_id _ _ _ hm2
    -- residual bookkeeping of the step
    have hr1v : (acc.1.removeMoveReconcile m).residual ml
        = ml.debit - ml.credit := residual_remove_self acc.1 m ml hidml
    have hr2v : (acc.1.removeMoveReconcile m).residual ml2
        = acc.1.residual ml2 := by
      apply residual_remove_other
      intro p hp hside
      rcases hside with hd | hc
      · rw [hidml2] at hd
        have hcnot := h7 p hp hd
        constructor
        · rw [hd]
          exact Ne.symm hmne2
        · intro he
          exact hcnot (by rw [he]; exact List.mem_cons_self m tail)
      · rw [hidml2] at hc
        exact absurd hc (h6 p hp)
    have hsum : acc.1.residual ml2
        = ml.credit + ((acc.1.linesOf tail).map (fun l => l.credit)).sum := by
      rw [hres]
      have hcons : acc.1.linesOf (m :: tail) = ml :: acc.1.linesOf tail := by
        unfold State.linesOf
        rw [List.filterMap_cons, hm]
      rw [hcons, List.map_cons, List.sum_cons]
    have htail0 : 0 ≤ ((acc.1.linesOf tail).map (fun l => l.credit)).sum := by
      apply List.sum_nonneg
      intro x hx
      rcases List.mem_map.mp hx with ⟨l, hl, rfl⟩
      rcases List.mem_filterMap.mp hl with ⟨i, hi, hlk⟩
      obtain ⟨ml', hm', _, hpos⟩ := h4 i (List.mem_cons_of_mem _ hi)
      rw [hm'] at hlk
      injection hlk with hlk
      rw [← hlk]
      omega
    have hr1 : (acc.1.removeMoveReconcile m).residual ml < 0 := by
      rw [hr1v]
      omega
    have hr2 : 0 < (acc.1.removeMoveReconcile m).residual ml2 := by
      rw [hr2v, hsum]
      omega
    have hle : -((acc.1.removeMoveReconcile m).residual ml)
        ≤ (acc.1.removeMoveReconcile m).residual ml2 := by
      rw [hr1v, hr2v, hsum]
      omega
    have hm1 : (acc.1.removeMoveReconcile m).getMoveLine m = some ml :=
      (getMoveLine_congr _ _ rfl m).trans hm
    have hm21 : (acc.1.removeMoveReconcile m).getMoveLine ml2Id
        = some ml2 := (getMoveLine_congr _ _ rfl ml2Id).trans hm2
    have hp2 := reconcileLines_pair (acc.1.removeMoveReconcile m) m ml2Id
      ml ml2 hm1 hm21 hr1 hr2 hle
    have hpartA := confirmProcessMl_partials rl ml2Id acc m
    rw [hp2, List.map_append, List.map_cons, List.map_nil] at hpartA
    -- the step state's tables and lookups agree with `acc`
    have hlkA : ∀ x,
        (PaymentReturn.confirmProcessMl rl ml2Id acc m).1.getMoveLine x
          = acc.1.getMoveLine x :=
      fun x => getMoveLine_congr _ _
        (confirmProcessMl_tables rl ml2Id acc m).2.2.2.2.1 x
    have hnx : acc.1.nextId
        ≤ (PaymentReturn.confirmProcessMl rl ml2Id acc m).1.nextId := by
      rw [confirmProcessMl_nextId]
      exact reconcileLines_nextId_ge (acc.1.removeMoveReconcile m)
        [m, ml2Id]
    -- re-establish the invariants at the stepped accumulator
    have h4' : ∀ m' ∈ tail,
        ∃ ml', (PaymentReturn.confirmProcessMl rl ml2Id
            acc m).1.getMoveLine m' = some ml'
          ∧ ml'.debit = 0 ∧ 0 < ml'.credit := by
      intro m' hm'
      obtain ⟨ml', ha, hb, hc⟩ := h4 m' (List.mem_cons_of_mem _ hm')
      exact ⟨ml', (hlkA m').trans ha, hb, hc⟩
    have hlinesA : (PaymentReturn.confirmProcessMl rl ml2Id
        acc m).1.linesOf tail = acc.1.linesOf tail :=
      linesOf_congr acc.1 _ tail (fun i _ => hlkA i)
    have hGpres : ∀ p : PartialReconcile,
        ((fun p => if rl.moveLineIds.contains p.creditMoveId then
            { p with
              originReturnedMoveIds := rsDedup ((acc.1.partials.filter (fun q => q.creditMoveId == m)).map (fun q => q.debitMoveId)) }
          else p) p).debitMoveId = p.debitMoveId
        ∧ ((fun p => if rl.moveLineIds.contains p.creditMoveId then
            { p with
              originReturnedMoveIds := rsDedup ((acc.1.partials.filter (fun q => q.creditMoveId == m)).map (fun q => q.debitMoveId)) }
          else p) p).creditMoveId = p.creditMoveId
        ∧ ((fun p => if rl.moveLineIds.contains p.creditMoveId then
            { p with
              originReturnedMoveIds := rsDedup ((acc.1.partials.filter (fun q => q.creditMoveId == m)).map (fun q => q.debitMoveId)) }
          else p) p).amount = p.amount := by
      intro p
      have h := originUpd_fields
        (rsDedup ((acc.1.partials.filter (fun q => q.creditMoveId == m)).map
          (fun q => q.debitMoveId))) rl.moveLineIds p
      exact ⟨h.2.1, h.2.2.1, h.2.2.2⟩
    have hresA : (PaymentReturn.confirmProcessMl rl ml2Id
          acc m).1.residual ml2
        = ((acc.1.linesOf tail).map (fun l => l.credit)).sum := by
      have e1 := residual_of_partials_map
        ((acc.1.removeMoveReconcile m).reconcileLines [m, ml2Id])
        (PaymentReturn.confirmProcessMl rl ml2Id acc m).1 _ ml2
        (confirmProcessMl_partials rl ml2Id acc m) hGpres
      have e2 := residual_of_partials_append (acc.1.removeMoveReconcile m)
        ((acc.1.removeMoveReconcile m).reconcileLines [m, ml2Id]) _ ml2 hp2
      rw [e1, e2, hr2v, hsum]
      simp [List.filter_cons, hidml2, hmne2, hr1v, hml0]
    have h5' : ∃ ml2', (PaymentReturn.confirmProcessMl rl ml2Id
          acc m).1.getMoveLine ml2Id = some ml2'
        ∧ (PaymentReturn.confirmProcessMl rl ml2Id acc m).1.residual ml2'
          = (((PaymentReturn.confirmProcessMl rl ml2Id
              acc m).1.linesOf tail).map (fun l => l.credit)).sum := by
      refine ⟨ml2, (hlkA ml2Id).trans hm2, ?_⟩
      rw [hlinesA]
      exact hresA
    -- field facts for the freshly created partial and its origin-write
    have hfid := originUpd_fields
      (rsDedup ((acc.1.partials.filter (fun q => q.creditMoveId == m)).map
        (fun q => q.debitMoveId))) rl.moveLineIds
      { id := (acc.1.removeMoveReconcile m).nextId
        debitMoveId := ml2Id
        creditMoveId := m
        amount := -((acc.1.removeMoveReconcile m).residual ml)
        originReturnedMoveIds := [] }
    have hfldsN := hGpres
      { id := (acc.1.removeMoveReconcile m).nextId
        debitMoveId := ml2Id
        creditMoveId := m
        amount := -((acc.1.removeMoveReconcile m).residual ml)
        originReturnedMoveIds := [] }
    have hnew0 : ∃ p0 ∈ (PaymentReturn.confirmProcessMl rl ml2Id
        acc m).1.partials,
        p0.id = acc.1.nextId ∧ p0.debitMoveId = ml2Id
        ∧ p0.creditMoveId = m := by
      refine ⟨_, ?_, hfid.1, hfldsN.1, hfldsN.2.1⟩
      rw [hpartA]
      exact List.mem_append_right _ (List.mem_cons_self _ _)
    -- membership characterisation of the stepped partials
    have hmemA : ∀ p ∈ (PaymentReturn.confirmProcessMl rl ml2Id
          acc m).1.partials,
        (∃ q ∈ acc.1.partials, q.debitMoveId ≠ m ∧ q.creditMoveId ≠ m
          ∧ p.id = q.id ∧ p.debitMoveId = q.debitMoveId
          ∧ p.creditMoveId = q.creditMoveId ∧ p.amount = q.amount)
        ∨ (p.id = acc.1.nextId ∧ p.debitMoveId = ml2Id
          ∧ p.creditMoveId = m) := by
      intro p hp
      rw [hpartA] at hp
      rcases List.mem_append.mp hp with hp1 | hp1
      · rcases List.mem_map.mp hp1 with ⟨q, hq, hfq⟩
        have hq2 := List.of_mem_filter hq
        simp only [Bool.and_eq_true, Bool.not_eq_true',
          beq_eq_false_iff_ne] at hq2
        have hflds := hGpres q
        left
        refine ⟨q, List.mem_of_mem_filter hq, hq2.1, hq2.2, ?_, ?_, ?_, ?_⟩
        · rw [← hfq]
          exact (originUpd_fields _ _ q).1
        · rw [← hfq]
          exact hflds.1
        · rw [← hfq]
          exact hflds.2.1
        · rw [← hfq]
          exact hflds.2.2
      · rcases List.mem_cons.mp hp1 with hpz | hpz
        · right
          rw [hpz]
          exact ⟨hfid.1, hfldsN.1, hfldsN.2.1⟩
        · cases hpz
    -- surviving partials of `acc` reappear unchanged in the stepped state
    have hsurv : ∀ q ∈ acc.1.partials, q.debitMoveId ≠ m →
        q.creditMoveId ≠ m →
        ∃ p ∈ (PaymentReturn.confirmProcessMl rl ml2Id acc m).1.partials,
          p.id = q.id ∧ p.debitMoveId = q.debitMoveId
          ∧ p.creditMoveId = q.creditMoveId ∧ p.amount = q.amount := by
      intro q hq hd hc
      have hq1 : q ∈ (acc.1.removeMoveReconcile m).partials := by
        rw [removeMoveReconcile_partials]
        refine List.mem_filter.mpr ⟨hq, ?_⟩
        simp [hd, hc]
      have hflds := hGpres q
      refine ⟨_, ?_, (originUpd_fields _ _ q).1, hflds.1, hflds.2.1,
        hflds.2.2⟩
      rw [hpartA]
      exact List.mem_append_left _ (List.mem_map_of_mem _ hq1)
    have h6' : ∀ p ∈ (PaymentReturn.confirmProcessMl rl ml2Id
          acc m).1.partials, p.creditMoveId ≠ ml2Id := by
      intro p hp
      rcases hmemA p hp with ⟨q, hq, _, _, _, _, hceq, _⟩ | ⟨_, _, hceq⟩
      · rw [hceq]
        exact h6 q hq
      · rw [hceq]
        exact hmne2
    have h7' : ∀ p ∈ (PaymentReturn.confirmProcessMl rl ml2Id
          acc m).1.partials, p.debitMoveId = ml2Id →
        p.creditMoveId ∉ tail := by
      intro p hp hd
      rcases hmemA p hp with ⟨q, hq, _, _, _, hdeq, hceq, _⟩ | ⟨_, _, hceq⟩
      · rw [hceq]
        intro hmem
        exact h7 q hq (by rw [← hdeq]; exact hd)
          (List.mem_cons_of_mem _ hmem)
      · rw [hceq]
        exact hm_nin
    have h8' : ∀ p ∈ (PaymentReturn.confirmProcessMl rl ml2Id
          acc m).1.partials, p.creditMoveId ∈ tail →
        p.debitMoveId ∉ tail ∧ p.debitMoveId ≠ ml2Id := by
      intro p hp hc
      rcases hmemA p hp with ⟨q, hq, _, _, _, hdeq, hceq, _⟩ | ⟨_, hdeq, hceq⟩
      · rw [hceq] at hc
        have := h8 q hq (List.mem_cons_of_mem _ hc)
        rw [hdeq]
        exact ⟨fun hmem => this.1 (List.mem_cons_of_mem _ hmem), this.2⟩
      · rw [hceq] at hc
        exact absurd hc hm_nin
    have h9' : n ≤ (PaymentReturn.confirmProcessMl rl ml2Id
        acc m).1.nextId := Nat.le_trans h9 hnx
    obtain ⟨K1t, K2t, K3t, K4t, K5t, K6t⟩ :=
      ih (PaymentReturn.confirmProcessMl rl ml2Id acc m)
        h1t h2t h4' h5' h6' h7' h8' h9'
    simp only [List.foldl_cons]
    refine ⟨?_, ?_, ?_, ?_, ?_, ?_⟩
    · -- every matched line ends up reconciled against the new debit line
      intro m' hm'
      rcases List.mem_cons.mp hm' with rfl | hmem
      · -- the head: the partial created in this step survives the tail
        obtain ⟨p0, hp0, hpid, hpd, hpc⟩ := hnew0
        obtain ⟨p, hp, hid, hd, hc, _⟩ := K3t p0 hp0
          (by rw [hpd]; exact h2t) (by rw [hpc]; exact hm_nin)
        refine ⟨p, hp, ?_, ?_, ?_⟩
        · rw [hc, hpc]
        · rw [hd, hpd]
        · rw [hid, hpid]
          exact h9
      · obtain ⟨p, hp, hc, hd, hid⟩ := K1t m' hmem
        exact ⟨p, hp, hc, hd, hid⟩
    · -- characterisation of all partials in the final state
      intro p hp
      rcases K2t p hp with ⟨q1, hq1, hids, hdeq, hceq, haeq, hdnin, hcnin⟩
        | ⟨hid, hdeq, hceq⟩
      · rcases hmemA q1 hq1 with ⟨q, hq, hqd, hqc, hids2, hdeq2, hceq2,
          haeq2⟩ | ⟨hidz, hdz, hcz⟩
        · left
          refine ⟨q, hq, hids.trans hids2, hdeq.trans hdeq2,
            hceq.trans hceq2, haeq.trans haeq2, ?_, ?_⟩
          · intro hmem
            rcases List.mem_cons.mp hmem with he | hmem2
            · exact hqd he
            · exact hdnin (by rw [hdeq2]; exact hmem2)
          · intro hmem
            rcases List.mem_cons.mp hmem with he | hmem2
            · exact hqc he
            · exact hcnin (by rw [hceq2]; exact hmem2)
        · right
          refine ⟨?_, hdeq.trans hdz, ?_⟩
          · rw [hids, hidz]
            exact h9
          · rw [hceq, hcz]
            exact List.mem_cons_self _ _
      · exact Or.inr ⟨hid, hdeq, List.mem_cons_of_mem _ hceq⟩
    · -- untouched partials survive the whole loop
      intro q hq hdn hcn
      have hdm : q.debitMoveId ≠ m :=
        fun he => hdn (by rw [he]; exact List.mem_cons_self _ _)
      have hcm : q.creditMoveId ≠ m :=
        fun he => hcn (by rw [he]; exact List.mem_cons_self _ _)
      obtain ⟨p1, hp1, hid1, hd1, hc1, ha1⟩ := hsurv q hq hdm hcm
      obtain ⟨p, hp, hid2, hd2, hc2, ha2⟩ := K3t p1 hp1
        (by rw [hd1]; exact fun h => hdn (List.mem_cons_of_mem _ h))
        (by rw [hc1]; exact fun h => hcn (List.mem_cons_of_mem _ h))
      exact ⟨p, hp, hid2.trans hid1, hd2.trans hd1, hc2.trans hc1,
        ha2.trans ha1⟩
    · -- the debit lines previously reconciled with a matched line are
      -- collected into `invoices`
      intro m' hm' q hq hqc dl hdl
      rcases List.mem_cons.mp hm' with rfl | hmem
      · have hstep : dl.moveId ∈ (PaymentReturn.confirmProcessMl rl
            ml2Id acc m').2.1 := by
          rw [confirmProcessMl_inv]
          refine (mem_rsUnion _ _ _).mpr (Or.inr ?_)
          refine (mem_rsDedup _ _).mpr ?_
          refine List.mem_map.mpr ⟨dl, ?_, rfl⟩
          refine List.mem_filterMap.mpr ⟨q.debitMoveId, ?_, hdl⟩
          refine (mem_rsDedup _ _).mpr ?_
          refine List.mem_map.mpr ⟨q, ?_, rfl⟩
          refine List.mem_filter.mpr ⟨hq, ?_⟩
          simp [hqc]
        exact K5t _ hstep
      · have hqd : q.debitMoveId ≠ m := by
          intro he
          have := h8 q hq (by rw [hqc]; exact List.mem_cons_of_mem _ hmem)
          exact this.1 (by rw [he]; exact List.mem_cons_self _ _)
        have hqcm : q.creditMoveId ≠ m := by
          intro he
          rw [hqc] at he
          exact hm_nin (by rw [← he]; exact hmem)
        obtain ⟨p1, hp1, hid1, hd1, hc1, _⟩ := hsurv q hq hqd hqcm
        refine K4t m' hmem p1 hp1 (hc1.trans hqc) dl ?_
        rw [hd1, hlkA]
        exact hdl
    · -- invoices only grow
      intro x hx
      refine K5t x ?_
      rw [confirmProcessMl_inv]
      exact (mem_rsUnion _ _ _).mpr (Or.inl hx)
    · exact Nat.le_trans hnx K6t

theorem confirmProcessLine_partials (pr : PaymentReturn) (mv : Move)
    (acc : State × List Nat × List Nat) (rlp : ReturnLine × Nat) :
    (PaymentReturn.confirmProcessLine pr mv acc rlp).1.partials
      = ((rlp.1.moveLineIds.foldl
          (PaymentReturn.confirmProcessMl rlp.1 rlp.2) acc).1).partials := by
  unfold PaymentReturn.confirmProcessLine
  split
  · rfl
  · rfl

theorem confirmProcessLine_inv (pr : PaymentReturn) (mv : Move)
    (acc : State × List Nat × List Nat) (rlp : ReturnLine × Nat) :
    (PaymentReturn.confirmProcessLine pr mv acc rlp).2.1
      = ((rlp.1.moveLineIds.foldl
          (PaymentReturn.confirmProcessMl rlp.1 rlp.2) acc)).2.1 := by
  unfold PaymentReturn.confirmProcessLine
  split
  · rfl
  · rfl

theorem confirmProcessMl_nextId_mono (rl : ReturnLine) (ml2Id : Nat)
    (acc : State × List Nat × List Nat) (mlId : Nat) :
    acc.1.nextId
      ≤ (PaymentReturn.confirmProcessMl rl ml2Id acc mlId).1.nextId := by
  rw [confirmProcessMl_nextId]
  exact reconcileLines_nextId_ge (acc.1.removeMoveReconcile mlId)
    [mlId, ml2Id]

theorem confirmInner_nextId_mono (rl : ReturnLine) (ml2Id : Nat)
    (ms : List Nat) :
    ∀ acc : State × List Nat × List Nat,
      acc.1.nextId ≤ (ms.foldl (PaymentReturn.confirmProcessMl rl ml2Id)
        acc).1.nextId := by
  induction ms with
  | nil =>
    intro acc
    exact Nat.le_refl _
  | cons m t ih =>
    intro acc
    exact Nat.le_trans (confirmProcessMl_nextId_mono rl ml2Id acc m)
      (ih _)

theorem confirmProcessLine_nextId_mono (pr : PaymentReturn) (mv : Move)
    (acc : State × List Nat × List Nat) (rlp : ReturnLine × Nat) :
    acc.1.nextId
      ≤ (PaymentReturn.confirmProcessLine pr mv acc rlp).1.nextId := by
  unfold PaymentReturn.confirmProcessLine
  split
  · exact Nat.le_trans
      (confirmInner_nextId_mono rlp.1 rlp.2 rlp.1.moveLineIds acc)
      (Nat.le_add_right _ 2)
  · exact confirmInner_nextId_mono rlp.1 rlp.2 rlp.1.moveLineIds acc

theorem confirmProcessLine_lookup (pr : PaymentReturn) (mv : Move)
    (acc : State × List Nat × List Nat) (rlp : ReturnLine × Nat)
    (i : Nat) (l : MoveLine) (h : acc.1.getMoveLine i = some l) :
    (PaymentReturn.confirmProcessLine pr mv acc rlp).1.getMoveLine i
      = some l := by
  obtain ⟨_, E, hE, _⟩ := confirmProcessLine_effect acc.1 pr mv acc rlp rfl
  exact getMoveLine_append acc.1 _ E hE i l h

theorem confirmOuter_main (pr : PaymentReturn) (mv : Move) (n : Nat)
    (pairs : List (ReturnLine × Nat)) :
    ∀ acc : State × List Nat × List Nat,
      ((pairs.map (fun rp => rp.1)).flatMap
        (fun rl => rl.moveLineIds)).Nodup →
      (pairs.map (fun rp => rp.2)).Nodup →
      (∀ rp ∈ pairs, ∀ m ∈ rp.1.moveLineIds, m < n) →
      (∀ rp ∈ pairs, n ≤ rp.2) →
      (∀ rp ∈ pairs, ∀ m ∈ rp.1.moveLineIds,
        ∃ ml, acc.1.getMoveLine m = some ml
          ∧ ml.debit = 0 ∧ 0 < ml.credit) →
      (∀ rp ∈ pairs, ∃ ml2, acc.1.getMoveLine rp.2 = some ml2
        ∧ ml2.credit = 0
        ∧ ml2.debit = ((acc.1.linesOf rp.1.moveLineIds).map
            (fun l => l.credit)).sum) →
      (∀ p ∈ acc.1.partials, ∀ rp ∈ pairs,
        p.debitMoveId ≠ rp.2 ∧ p.creditMoveId ≠ rp.2) →
      (∀ p ∈ acc.1.partials,
        p.creditMoveId ∈ (pairs.map (fun rp => rp.1)).flatMap
            (fun rl => rl.moveLineIds) →
        p.debitMoveId ∉ (pairs.map (fun rp => rp.1)).flatMap
            (fun rl => rl.moveLineIds)) →
      n ≤ acc.1.nextId →
      (∀ rp ∈ pairs, ∀ m ∈ rp.1.moveLineIds,
        ∃ p ∈ (pairs.foldl (PaymentReturn.confirmProcessLine pr mv)
          acc).1.partials,
          p.creditMoveId = m ∧ p.debitMoveId = rp.2 ∧ n ≤ p.id)
      ∧ (∀ p ∈ (pairs.foldl (PaymentReturn.confirmProcessLine pr mv)
          acc).1.partials,
          (∃ q ∈ acc.1.partials, p.id = q.id
            ∧ p.debitMoveId = q.debitMoveId
            ∧ p.creditMoveId = q.creditMoveId ∧ p.amount = q.amount
            ∧ ∀ rp ∈ pairs, q.debitMoveId ∉ rp.1.moveLineIds
              ∧ q.creditMoveId ∉ rp.1.moveLineIds)
          ∨ (n ≤ p.id ∧ ∃ rp ∈ pairs, p.debitMoveId = rp.2
              ∧ p.creditMoveId ∈ rp.1.moveLineIds))
      ∧ (∀ q ∈ acc.1.partials,
          (∀ rp ∈ pairs, q.debitMoveId ∉ rp.1.moveLineIds
            ∧ q.creditMoveId ∉ rp.1.moveLineIds) →
          ∃ p ∈ (pairs.foldl (PaymentReturn.confirmProcessLine pr mv)
            acc).1.partials,
            p.id = q.id ∧ p.debitMoveId = q.debitMoveId
            ∧ p.creditMoveId = q.creditMoveId ∧ p.amount = q.amount)
      ∧ (∀ rp ∈ pairs, ∀ m ∈ rp.1.moveLineIds, ∀ q ∈ acc.1.partials,
          q.creditMoveId = m →
          ∀ dl, acc.1.getMoveLine q.debitMoveId = some dl →
            dl.moveId ∈ (pairs.foldl (PaymentReturn.confirmProcessLine
              pr mv) acc).2.1)
      ∧ (∀ x ∈ acc.2.1, x ∈ (pairs.foldl
          (PaymentReturn.confirmProcessLine pr mv) acc).2.1)
      ∧ acc.1.nextId ≤ (pairs.foldl (PaymentReturn.confirmProcessLine
          pr mv) acc).1.nextId := by
  induction pairs with
  | nil =>
    intro acc _ _ _ _ _ _ _ _ _
    refine ⟨?_, ?_, ?_, ?_, ?_, ?_⟩
    · intro rp hrp
      cases hrp
    · intro p hp
      exact Or.inl ⟨p, hp, rfl, rfl, rfl, rfl,
        (by intro rp hrp; cases hrp)⟩
    · intro q hq _
      exact ⟨q, hq, rfl, rfl, rfl, rfl⟩
    · intro rp hrp
      cases hrp
    · intro x hx
      exact hx
    · exact Nat.le_refl _
  | cons rlp rest ih =>
    intro acc G1 G2 G3 G4 G5 G6 G7 G8 G9
    rw [List.map_cons, List.flatMap_cons] at G1 G8
    rw [List.map_cons] at G2
    obtain ⟨hms_nd, hrest_nd, hdisj⟩ := List.nodup_append.mp G1
    obtain ⟨hsnd_nin, hsnd_nd⟩ := List.nodup_cons.mp G2
    have hrlpmem : rlp ∈ rlp :: rest := List.mem_cons_self _ _
    have i2 : rlp.2 ∉ rlp.1.moveLineIds := by
      intro hmem
      have hlt := G3 rlp hrlpmem rlp.2 hmem
      have hge := G4 rlp hrlpmem
      omega
    obtain ⟨ml2, hml2lk, hml2c, hml2d⟩ := G6 rlp hrlpmem
    have hidml2 : ml2.id = rlp.2 := getMoveLine_id _ _ _ hml2lk
    have i5res : acc.1.residual ml2
        = ((acc.1.linesOf rlp.1.moveLineIds).map
            (fun l => l.credit)).sum := by
      rw [residual_of_no_sides acc.1 ml2 ?_, hml2c, hml2d]
      · ring
      · intro p hp
        have := G7 p hp rlp hrlpmem
        rw [hidml2]
        exact this
    obtain ⟨I1, I2, I3, I4, I5, I6⟩ := confirmInner_main rlp.1 rlp.2 n
      rlp.1.moveLineIds acc hms_nd i2
      (G5 rlp hrlpmem)
      ⟨ml2, hml2lk, i5res⟩
      (fun p hp => (G7 p hp rlp hrlpmem).2)
      (fun p hp hd => absurd hd (G7 p hp rlp hrlpmem).1)
      (fun p hp hc => ⟨fun hd => G8 p hp (List.mem_append_left _ hc)
          (List.mem_append_left _ hd),
        (G7 p hp rlp hrlpmem).1⟩)
      G9
    have hpacc1 : (PaymentReturn.confirmProcessLine pr mv acc
        rlp).1.partials
        = (rlp.1.moveLineIds.foldl (PaymentReturn.confirmProcessMl rlp.1
            rlp.2) acc).1.partials :=
      confirmProcessLine_partials pr mv acc rlp
    have hiacc1 : (PaymentReturn.confirmProcessLine pr mv acc rlp).2.1
        = (rlp.1.moveLineIds.foldl (PaymentReturn.confirmProcessMl rlp.1
            rlp.2) acc).2.1 :=
      confirmProcessLine_inv pr mv acc rlp
    -- re-establish the invariants for the remaining lines
    have G5' : ∀ rp ∈ rest, ∀ m ∈ rp.1.moveLineIds,
        ∃ ml, (PaymentReturn.confirmProcessLine pr mv acc
            rlp).1.getMoveLine m = some ml
          ∧ ml.debit = 0 ∧ 0 < ml.credit := by
      intro rp hrp m hm
      obtain ⟨ml, hlk, h0, hc⟩ := G5 rp (List.mem_cons_of_mem _ hrp) m hm
      exact ⟨ml, confirmProcessLine_lookup pr mv acc rlp m ml hlk, h0, hc⟩
    have hlines_pres : ∀ rp ∈ rest,
        (PaymentReturn.confirmProcessLine pr mv acc rlp).1.linesOf
          rp.1.moveLineIds = acc.1.linesOf rp.1.moveLineIds := by
      intro rp hrp
      apply linesOf_congr
      intro i hi
      obtain ⟨mli, hlki, _, _⟩ := G5 rp (List.mem_cons_of_mem _ hrp) i hi
      rw [hlki, confirmProcessLine_lookup pr mv acc rlp i mli hlki]
    have G6' : ∀ rp ∈ rest,
        ∃ ml2', (PaymentReturn.confirmProcessLine pr mv acc
            rlp).1.getMoveLine rp.2 = some ml2'
          ∧ ml2'.credit = 0
          ∧ ml2'.debit = (((PaymentReturn.confirmProcessLine pr mv acc
              rlp).1.linesOf rp.1.moveLineIds).map
              (fun l => l.credit)).sum := by
      intro rp hrp
      obtain ⟨ml2', hlk, hc0, hdv⟩ := G6 rp (List.mem_cons_of_mem _ hrp)
      refine ⟨ml2', confirmProcessLine_lookup pr mv acc rlp rp.2 ml2' hlk,
        hc0, ?_⟩
      rw [hdv, hlines_pres rp hrp]
    have G7' : ∀ p ∈ (PaymentReturn.confirmProcessLine pr mv acc
        rlp).1.partials, ∀ rp ∈ rest,
        p.debitMoveId ≠ rp.2 ∧ p.creditMoveId ≠ rp.2 := by
      intro p hp rp hrp
      rw [hpacc1] at hp
      rcases I2 p hp with ⟨q, hq, _, hdeq, hceq, _, _, _⟩
        | ⟨_, hdeq, hceq⟩
      · rw [hdeq, hceq]
        exact G7 q hq rp (List.mem_cons_of_mem _ hrp)
      · constructor
        · rw [hdeq]
          intro he
          exact hsnd_nin (by rw [he]; exact List.mem_map_of_mem _ hrp)
        · intro he
          have hlt := G3 rlp hrlpmem p.creditMoveId hceq
          have hge := G4 rp (List.mem_cons_of_mem _ hrp)
          rw [he] at hlt
          omega
    have G8' : ∀ p ∈ (PaymentReturn.confirmProcessLine pr mv acc
        rlp).1.partials,
        p.creditMoveId ∈ (rest.map (fun rp => rp.1)).flatMap
          (fun rl => rl.moveLineIds) →
        p.debitMoveId ∉ (rest.map (fun rp => rp.1)).flatMap
          (fun rl => rl.moveLineIds) := by
      intro p hp hc
      rw [hpacc1] at hp
      rcases I2 p hp with ⟨q, hq, _, hdeq, hceq, _, _, _⟩
        | ⟨_, hdeq, hceq⟩
      · rw [hceq] at hc
        rw [hdeq]
        intro hd
        exact G8 q hq (List.mem_append_right _ hc)
          (List.mem_append_right _ hd)
      · exact (hdisj hceq hc).elim
    have G9' : n ≤ (PaymentReturn.confirmProcessLine pr mv acc
        rlp).1.nextId :=
      Nat.le_trans G9 (confirmProcessLine_nextId_mono pr mv acc rlp)
    obtain ⟨R1, R2, R3, R4, R5, R6⟩ := ih
      (PaymentReturn.confirmProcessLine pr mv acc rlp)
      hrest_nd hsnd_nd
      (fun rp hrp => G3 rp (List.mem_cons_of_mem _ hrp))
      (fun rp hrp => G4 rp (List.mem_cons_of_mem _ hrp))
      G5' G6' G7' G8' G9'
    simp only [List.foldl_cons]
    refine ⟨?_, ?_, ?_, ?_, ?_, ?_⟩
    · intro rp hrp m hm
      rcases List.mem_cons.mp hrp with rfl | hmem
      · obtain ⟨p1, hp1, hc1, hd1, hid1⟩ := I1 m hm
        rw [← hpacc1] at hp1
        have hsides : ∀ rp' ∈ rest, p1.debitMoveId ∉ rp'.1.moveLineIds
            ∧ p1.creditMoveId ∉ rp'.1.moveLineIds := by
          intro rp' hrp'
          constructor
          · rw [hd1]
            intro hmem2
            have hlt := G3 rp' (List.mem_cons_of_mem _ hrp') rp.2 hmem2
            have hge := G4 rp hrlpmem
            omega
          · rw [hc1]
            intro hmem2
            exact hdisj hm (List.mem_flatMap.mpr
              ⟨rp'.1, List.mem_map_of_mem _ hrp', hmem2⟩)
        obtain ⟨p, hp, hid2, hd2, hc2, _⟩ := R3 p1 hp1 hsides
        exact ⟨p, hp, hc2.trans hc1, hd2.trans hd1,
          (by rw [hid2]; exact hid1)⟩
      · exact R1 rp hmem m hm
    · intro p hp
      rcases R2 p hp with ⟨q1, hq1, hids, hdeq, hceq, haeq, hnin⟩
        | ⟨hid, rp, hrp, hdeq, hceq⟩
      · rw [hpacc1] at hq1
        rcases I2 q1 hq1 with ⟨q, hq, hids2, hdeq2, hceq2, haeq2, hdnin,
          hcnin⟩ | ⟨hid2, hdeq2, hceq2⟩
        · left
          refine ⟨q, hq, hids.trans hids2, hdeq.trans hdeq2,
            hceq.trans hceq2, haeq.trans haeq2, ?_⟩
          intro rp hrp
          rcases List.mem_cons.mp hrp with rfl | hmem
          · exact ⟨hdnin, hcnin⟩
          · have hh := hnin rp hmem
            rw [hdeq2, hceq2] at hh
            exact hh
        · right
          refine ⟨(by rw [hids]; exact hid2), rlp,
            List.mem_cons_self _ _, hdeq.trans hdeq2, ?_⟩
          rw [hceq]
          exact hceq2
      · exact Or.inr ⟨hid, rp, List.mem_cons_of_mem _ hrp, hdeq, hceq⟩
    · intro q hq hall
      have hhead := hall rlp hrlpmem
      obtain ⟨q1, hq1, hids1, hdeq1, hceq1, haeq1⟩ :=
        I3 q hq hhead.1 hhead.2
      rw [← hpacc1] at hq1
      have hsides : ∀ rp ∈ rest, q1.debitMoveId ∉ rp.1.moveLineIds
          ∧ q1.creditMoveId ∉ rp.1.moveLineIds := by
        intro rp hrp
        rw [hdeq1, hceq1]
        exact hall rp (List.mem_cons_of_mem _ hrp)
      obtain ⟨p, hp, hids2, hdeq2, hceq2, haeq2⟩ := R3 q1 hq1 hsides
      exact ⟨p, hp, hids2.trans hids1, hdeq2.trans hdeq1,
        hceq2.trans hceq1, haeq2.trans haeq1⟩
    · intro rp hrp m hm q hq hqc dl hdl
      rcases List.mem_cons.mp hrp with rfl | hmem
      · have hstep := I4 m hm q hq hqc dl hdl
        rw [← hiacc1] at hstep
        exact R5 _ hstep
      · have hqd_nin : q.debitMoveId ∉ rlp.1.moveLineIds := by
          intro hd
          exact G8 q hq (List.mem_append_right _ (List.mem_flatMap.mpr
              ⟨rp.1, List.mem_map_of_mem _ hmem,
                (by rw [hqc]; exact hm)⟩))
            (List.mem_append_left _ hd)
        have hqc_nin : q.creditMoveId ∉ rlp.1.moveLineIds := by
          intro hc
          exact hdisj hc (List.mem_flatMap.mpr
            ⟨rp.1, List.mem_map_of_mem _ hmem, (by rw [hqc]; exact hm)⟩)
        obtain ⟨q1, hq1, hids1, hdeq1, hceq1, _⟩ :=
          I3 q hq hqd_nin hqc_nin
        rw [← hpacc1] at hq1
        refine R4 rp hmem m hm q1 hq1 (hceq1.trans hqc) dl ?_
        rw [hdeq1]
        exact confirmProcessLine_lookup pr mv acc rlp q.debitMoveId dl hdl
    · intro x hx
      have hx1 := I5 x hx
      rw [← hiacc1] at hx1
      exact R5 x hx1
    · exact Nat.le_trans (confirmProcessLine_nextId_mono pr mv acc rlp) R6

theorem find?_append_of_none {α : Type} (p : α → Bool) (l1 l2 : List α)
    (h : l1.find? p = none) : (l1 ++ l2).find? p = l2.find? p := by
  induction l1 with
  | nil => rfl
  | cons x t ih =>
    rw [List.cons_append]
    cases hx : p x
    · rw [List.find?_cons, hx] at h ⊢
      exact ih h
    · rw [List.find?_cons, hx] at h
      cases h

theorem map_id_pres {α β : Type} (f : α → α) (g : α → β)
    (hf : ∀ a, g (f a) = g a) (l : List α) :
    (l.map f).map g = l.map g := by
  induction l with
  | nil => rfl
  | cons a t ih =>
    rw [List.map_cons, List.map_cons, List.map_cons, hf a, ih]

theorem confirmPairs_snd_ge (lines : List ReturnLine) :
    ∀ base, ∀ rp ∈ PaymentReturn.confirmPairs lines base, base ≤ rp.2 := by
  induction lines with
  | nil =>
    intro base rp hrp
    cases hrp
  | cons rl rest ih =>
    intro base rp hrp
    rcases List.mem_cons.mp hrp with rfl | hmem
    · exact Nat.le_refl _
    · exact Nat.le_trans (Nat.le_succ _) (ih (base + 1) rp hmem)

theorem confirmPairs_snd_nodup (lines : List ReturnLine) :
    ∀ base, ((PaymentReturn.confirmPairs lines base).map
      (fun rp => rp.2)).Nodup := by
  induction lines with
  | nil =>
    intro base
    exact List.nodup_nil
  | cons rl rest ih =>
    intro base
    rw [show PaymentReturn.confirmPairs (rl :: rest) base
      = (rl, base) :: PaymentReturn.confirmPairs rest (base + 1) from rfl]
    rw [List.map_cons]
    refine List.nodup_cons.mpr ⟨?_, ih (base + 1)⟩
    intro hmem
    rcases List.mem_map.mp hmem with ⟨rp, hrp, heq⟩
    have := confirmPairs_snd_ge rest (base + 1) rp hrp
    omega

theorem confirmPairs_fst_mem (lines : List ReturnLine) :
    ∀ base, ∀ rp ∈ PaymentReturn.confirmPairs lines base, rp.1 ∈ lines := by
  induction lines with
  | nil =>
    intro base rp hrp
    cases hrp
  | cons rl rest ih =>
    intro base rp hrp
    rcases List.mem_cons.mp hrp with rfl | hmem
    · exact List.mem_cons_self _ _
    · exact List.mem_cons_of_mem _ (ih (base + 1) rp hmem)

theorem confirmPairs_mem_elim (lines : List ReturnLine) :
    ∀ base, ∀ rp ∈ PaymentReturn.confirmPairs lines base,
      ∃ i, ∃ h : i < lines.length,
        rp.1 = lines.get ⟨i, h⟩ ∧ rp.2 = base + i := by
  induction lines with
  | nil =>
    intro base rp hrp
    cases hrp
  | cons rl rest ih =>
    intro base rp hrp
    rcases List.mem_cons.mp hrp with rfl | hmem
    · exact ⟨0, Nat.succ_pos _, rfl, rfl⟩
    · obtain ⟨i, h, h1, h2⟩ := ih (base + 1) rp hmem
      exact ⟨i + 1, Nat.succ_lt_succ h, h1, by omega⟩

theorem confirmPairs_get_mem (lines : List ReturnLine) :
    ∀ base i (h : i < lines.length),
      (lines.get ⟨i, h⟩, base + i) ∈ PaymentReturn.confirmPairs lines
        base := by
  induction lines with
  | nil =>
    intro base i h
    cases h
  | cons rl rest ih =>
    intro base i h
    cases i with
    | zero => exact List.mem_cons_self _ _
    | succ i' =>
      have := ih (base + 1) i' (Nat.lt_of_succ_lt_succ h)
      refine List.mem_cons_of_mem _ ?_
      have he : base + 1 + i' = base + (i' + 1) := by omega
      rw [← he]
      exact this

theorem confirmPairs_mem_of_fst (lines : List ReturnLine) :
    ∀ base, ∀ rl ∈ lines, ∃ b,
      (rl, b) ∈ PaymentReturn.confirmPairs lines base := by
  induction lines with
  | nil =>
    intro base rl hrl
    cases hrl
  | cons rl0 rest ih =>
    intro base rl hrl
    rcases List.mem_cons.mp hrl with rfl | hmem
    · exact ⟨base, List.mem_cons_self _ _⟩
    · obtain ⟨b, hb⟩ := ih (base + 1) rl hmem
      exact ⟨b, List.mem_cons_of_mem _ hb⟩

theorem confirmDebitLines_find (s : State) (pr : PaymentReturn) :
    ∀ (lines : List ReturnLine) (mvId base i : Nat)
      (h : i < lines.length),
      (PaymentReturn.confirmDebitLines s pr lines mvId base).find?
          (fun l => l.id == base + i)
        = some (PaymentReturnLine._prepare_return_move_line_vals s pr
            (lines.get ⟨i, h⟩) mvId (base + i)) := by
  intro lines
  induction lines with
  | nil =>
    intro mvId base i h
    cases h
  | cons rl rest ih =>
    intro mvId base i h
    cases i with
    | zero =>
      rw [show PaymentReturn.confirmDebitLines s pr (rl :: rest) mvId base
        = PaymentReturnLine._prepare_return_move_line_vals s pr rl mvId
            base
          :: PaymentReturn.confirmDebitLines s pr rest mvId (base + 1)
        from rfl]
      rw [List.find?_cons]
      have hc : ((PaymentReturnLine._prepare_return_move_line_vals s pr rl
          mvId base).id == base + 0) = true := by
        simp [PaymentReturnLine._prepare_return_move_line_vals]
      rw [hc]
      rfl
    | succ i' =>
      rw [show PaymentReturn.confirmDebitLines s pr (rl :: rest) mvId base
        = PaymentReturnLine._prepare_return_move_line_vals s pr rl mvId
            base
          :: PaymentReturn.confirmDebitLines s pr rest mvId (base + 1)
        from rfl]
      rw [List.find?_cons]
      have hc : ((PaymentReturnLine._prepare_return_move_line_vals s pr rl
          mvId base).id == base + (i' + 1)) = false := by
        rw [beq_eq_false_iff_ne]
        show base ≠ base + (i' + 1)
        omega
      rw [hc]
      have he : base + 1 + i' = base + (i' + 1) := by omega
      have := ih mvId (base + 1) i' (Nat.lt_of_succ_lt_succ h)
      rw [he] at this
      exact this

theorem flagMove_fields (inv : List Nat) (mm : Move) :
    ((if inv.contains mm.id then { mm with returnedPayment := true }
      else mm).id = mm.id)
    ∧ ((if inv.contains mm.id then { mm with returnedPayment := true }
      else mm).ref = mm.ref) := by
  by_cases h : inv.contains mm.id = true
  · rw [if_pos h]
    exact ⟨rfl, rfl⟩
  · rw [if_neg h]
    exact ⟨rfl, rfl⟩

theorem postMove_fields (nid : Nat) (mm : Move) :
    ((if mm.id == nid then { mm with state := "posted" } else mm).id
      = mm.id)
    ∧ ((if mm.id == nid then { mm with state := "posted" } else mm).ref
      = mm.ref) := by
  by_cases h : (mm.id == nid) = true
  · rw [if_pos h]
    exact ⟨rfl, rfl⟩
  · rw [if_neg h]
    exact ⟨rfl, rfl⟩

theorem confirmPosted_partials (s : State) (rid : Nat)
    (pr : PaymentReturn) :
    (PaymentReturn.confirmPosted s rid pr).partials = s.partials := rfl

theorem confirmPosted_returns (s : State) (rid : Nat)
    (pr : PaymentReturn) :
    (PaymentReturn.confirmPosted s rid pr).returns = s.returns := rfl

theorem confirmPosted_nextId (s : State) (rid : Nat)
    (pr : PaymentReturn) :
    (PaymentReturn.confirmPosted s rid pr).nextId
      = s.nextId + 1 + (PaymentReturn.confirmLines s rid).length
        + 1 := rfl

theorem confirmPosted_lookup (s : State) (rid : Nat) (pr : PaymentReturn)
    (i : Nat) (l : MoveLine) (h : s.getMoveLine i = some l) :
    (PaymentReturn.confirmPosted s rid pr).getMoveLine i = some l := by
  refine getMoveLine_append s _ (PaymentReturn.confirmDebitLines s pr
    (PaymentReturn.confirmLines s rid) s.nextId (s.nextId + 1)
    ++ [PaymentReturn.confirmCml s rid pr]) ?_ i l h
  show s.moveLines
      ++ PaymentReturn.confirmDebitLines s pr
        (PaymentReturn.confirmLines s rid) s.nextId (s.nextId + 1)
      ++ [PaymentReturn.confirmCml s rid pr] = _
  rw [List.append_assoc]

theorem confirmPosted_debit_lookup (s : State) (rid : Nat)
    (pr : PaymentReturn) (i : Nat)
    (h : i < (PaymentReturn.confirmLines s rid).length)
    (hwf : ∀ l ∈ s.moveLines, l.id < s.nextId) :
    (PaymentReturn.confirmPosted s rid pr).getMoveLine (s.nextId + 1 + i)
      = some (PaymentReturnLine._prepare_return_move_line_vals s pr
          ((PaymentReturn.confirmLines s rid).get ⟨i, h⟩) s.nextId
          (s.nextId + 1 + i)) := by
  have h0 : s.moveLines.find? (fun l => l.id == s.nextId + 1 + i)
      = none := by
    rw [List.find?_eq_none]
    intro l hl hb
    have h1 := hwf l hl
    have h2 := eq_of_beq hb
    omega
  show (s.moveLines
      ++ PaymentReturn.confirmDebitLines s pr
        (PaymentReturn.confirmLines s rid) s.nextId (s.nextId + 1)
      ++ [PaymentReturn.confirmCml s rid pr]).find?
      (fun l => l.id == s.nextId + 1 + i) = _
  rw [List.append_assoc, find?_append_of_none _ _ _ h0]
  exact find?_append_some _ _ _ _ (confirmDebitLines_find s pr
    (PaymentReturn.confirmLines s rid) s.nextId (s.nextId + 1) i h)

theorem confirmBody_partials (s : State) (rid : Nat)
    (pr : PaymentReturn) :
    ∃ new, (PaymentReturn.confirmBody s rid pr).partials
        = (PaymentReturn.confirmAcc s rid pr).1.partials ++ new
      ∧ ∀ p ∈ new,
          (PaymentReturn.confirmAcc s rid pr).1.nextId ≤ p.id := by
  obtain ⟨new, h1, h2⟩ := auto_reconcile_partials
    (PaymentReturn.confirmAcc s rid pr).1 rid
    (PaymentReturn.confirmCml s rid pr).id
    (PaymentReturn.confirmAcc s rid pr).2.2
    (PaymentReturn.confirmTotal s rid pr)
  exact ⟨new, h1, h2⟩

theorem confirmBody_moves_eq (s : State) (rid : Nat)
    (pr : PaymentReturn) :
    (PaymentReturn.confirmBody s rid pr).moves
      = ((s.moves ++ [PaymentReturn._prepare_return_move_vals pr
            s.nextId]).map (fun mm => if mm.id == s.nextId then
              { mm with state := "posted" } else mm)).map
          (fun mm => if (PaymentReturn.confirmAcc s rid pr).2.1.contains
              mm.id then { mm with returnedPayment := true }
            else mm) := by
  show ((PaymentReturn._auto_reconcile (PaymentReturn.confirmAcc s rid
      pr).1 rid (PaymentReturn.confirmCml s rid pr).id
      (PaymentReturn.confirmAcc s rid pr).2.2
      (PaymentReturn.confirmTotal s rid pr)).moves).map
      (fun mm => if (PaymentReturn.confirmAcc s rid pr).2.1.contains
          mm.id then { mm with returnedPayment := true } else mm) = _
  congr 1
  have h5 := (auto_reconcile_tables (PaymentReturn.confirmAcc s rid pr).1
    rid (PaymentReturn.confirmCml s rid pr).id
    (PaymentReturn.confirmAcc s rid pr).2.2
    (PaymentReturn.confirmTotal s rid pr)).2.2.2.1
  have h2 := (confirmLoop2_effect s pr
    (PaymentReturn._prepare_return_move_vals pr s.nextId)
    (PaymentReturn.confirmPairs (PaymentReturn.confirmLines s rid)
      (s.nextId + 1))
    (PaymentReturn.confirmPosted s rid pr, [], []) rfl).1.2.2.2.1
  rw [h5, show PaymentReturn.confirmAcc s rid pr
    = (PaymentReturn.confirmPairs (PaymentReturn.confirmLines s rid)
        (s.nextId + 1)).foldl (PaymentReturn.confirmProcessLine pr
        (PaymentReturn._prepare_return_move_vals pr s.nextId))
        (PaymentReturn.confirmPosted s rid pr, [], []) from rfl, h2]
  rfl

theorem confirmBody_returns (s : State) (rid : Nat)
    (pr : PaymentReturn) :
    (PaymentReturn.confirmBody s rid pr).returns
      = s.returns.map (fun r => if r.id == rid then
          { r with state := RState.done, moveId := some s.nextId }
        else r) := by
  show ((PaymentReturn._auto_reconcile (PaymentReturn.confirmAcc s rid
      pr).1 rid (PaymentReturn.confirmCml s rid pr).id
      (PaymentReturn.confirmAcc s rid pr).2.2
      (PaymentReturn.confirmTotal s rid pr)).returns).map
      (fun r => if r.id == rid then
        { r with state := RState.done, moveId := some s.nextId }
      else r) = _
  congr 1
  have h5 := (auto_reconcile_tables (PaymentReturn.confirmAcc s rid pr).1
    rid (PaymentReturn.confirmCml s rid pr).id
    (PaymentReturn.confirmAcc s rid pr).2.2
    (PaymentReturn.confirmTotal s rid pr)).2.2.2.2.2.2
  have h2 := (confirmLoop2_effect s pr
    (PaymentReturn._prepare_return_move_vals pr s.nextId)
    (PaymentReturn.confirmPairs (PaymentReturn.confirmLines s rid)
      (s.nextId + 1))
    (PaymentReturn.confirmPosted s rid pr, [], []) rfl).1.2.2.2.2.2
  rw [h5, show PaymentReturn.confirmAcc s rid pr
    = (PaymentReturn.confirmPairs (PaymentReturn.confirmLines s rid)
        (s.nextId + 1)).foldl (PaymentReturn.confirmProcessLine pr
        (PaymentReturn._prepare_return_move_vals pr s.nextId))
        (PaymentReturn.confirmPosted s rid pr, [], []) from rfl, h2]
  rfl

/-- C2: on every successful `action_confirm` over a well-formed database
(fresh ids below `nextId`, unique move line ids, matched lines pairwise
distinct, each matched line a pure credit line, each line amount the sum
of its matched credits, and no pre-existing partial reconciliation
linking two matched lines), the operation creates exactly one new journal
entry whose `ref` names the return; every matched payment move line of
the i-th return line is reconciled with the i-th freshly created debit
line, all its pre-existing reconciliations having been removed (every
surviving partial touching it is newly created); every move holding a
debit line that was previously reconciled against a matched payment line
is flagged `returned_payment`; and the return ends in state "done" with
`move_id` pointing at the created entry. -/
theorem C2_confirm_effects (s : State) (rid : Nat) (s' : State)
    (pr : PaymentReturn)
    (hpr : s.getReturn rid = some pr)
    (hok : PaymentReturn.action_confirm s rid = Except.ok s')
    (hwfMl : ∀ l ∈ s.moveLines, l.id < s.nextId)
    (hwfP : ∀ p ∈ s.partials, p.debitMoveId < s.nextId
      ∧ p.creditMoveId < s.nextId)
    (hids : (s.moveLines.map (fun l => l.id)).Nodup)
    (hnodup : ((PaymentReturn.confirmLines s rid).flatMap
      (fun rl => rl.moveLineIds)).Nodup)
    (hcred : ∀ rl ∈ PaymentReturn.confirmLines s rid,
      ∀ m ∈ rl.moveLineIds, ∃ ml ∈ s.moveLines, ml.id = m
        ∧ ml.debit = 0 ∧ 0 < ml.credit)
    (hamt : ∀ rl ∈ PaymentReturn.confirmLines s rid,
      rl.amount = ((s.linesOf rl.moveLineIds).map
        (fun l => l.credit)).sum)
    (hnc : ∀ p ∈ s.partials,
      p.creditMoveId ∈ (PaymentReturn.confirmLines s rid).flatMap
        (fun rl => rl.moveLineIds) →
      p.debitMoveId ∉ (PaymentReturn.confirmLines s rid).flatMap
        (fun rl => rl.moveLineIds)) :
    (s'.moves.map (fun mm => mm.id)
        = s.moves.map (fun mm => mm.id) ++ [s.nextId]
      ∧ ∃ mv ∈ s'.moves, mv.id = s.nextId
        ∧ mv.ref = "Return " ++ pr.name)
    ∧ (∀ i, ∀ h : i < (PaymentReturn.confirmLines s rid).length,
        ∀ m ∈ ((PaymentReturn.confirmLines s rid).get
            ⟨i, h⟩).moveLineIds,
          (∃ p ∈ s'.partials, p.creditMoveId = m
            ∧ p.debitMoveId = s.nextId + 1 + i)
          ∧ (∀ p ∈ s'.partials,
              p.debitMoveId = m ∨ p.creditMoveId = m →
                s.nextId ≤ p.id))
    ∧ (∀ mvi ∈ s'.moves,
        (∃ rl ∈ PaymentReturn.confirmLines s rid, ∃ m ∈ rl.moveLineIds,
          ∃ q ∈ s.partials, q.creditMoveId = m
            ∧ ∃ dl, s.getMoveLine q.debitMoveId = some dl
              ∧ dl.moveId = mvi.id) →
        mvi.returnedPayment = true)
    ∧ (∃ r ∈ s'.returns, r.id = rid ∧ r.state = RState.done
        ∧ r.moveId = some s.nextId) := by
  obtain ⟨pr2, hpr2, hbody⟩ := action_confirm_ok s rid s' hok
  rw [hpr] at hpr2
  injection hpr2 with hpre
  subst hpre
  subst hbody
  -- usable lookups for matched lines
  have hlk : ∀ rl ∈ PaymentReturn.confirmLines s rid,
      ∀ m ∈ rl.moveLineIds, ∃ ml, s.getMoveLine m = some ml
        ∧ ml.debit = 0 ∧ 0 < ml.credit := by
    intro rl hrl m hm
    obtain ⟨ml, hmem, hid, h0, hc⟩ := hcred rl hrl m hm
    have hfind := getMoveLine_of_mem s ml hids hmem
    rw [hid] at hfind
    exact ⟨ml, hfind, h0, hc⟩
  -- the outer loop invariant at the top level
  have T1 : (((PaymentReturn.confirmPairs (PaymentReturn.confirmLines s
      rid) (s.nextId + 1)).map (fun rp => rp.1)).flatMap
      (fun rl => rl.moveLineIds)).Nodup := by
    rw [confirmPairs_map_fst]
    exact hnodup
  have T3 : ∀ rp ∈ PaymentReturn.confirmPairs
      (PaymentReturn.confirmLines s rid) (s.nextId + 1),
      ∀ m ∈ rp.1.moveLineIds, m < s.nextId := by
    intro rp hrp m hm
    have hfst := confirmPairs_fst_mem (PaymentReturn.confirmLines s rid)
      (s.nextId + 1) rp hrp
    obtain ⟨ml, hmem, hid, _, _⟩ := hcred rp.1 hfst m hm
    have := hwfMl ml hmem
    omega
  have T4 : ∀ rp ∈ PaymentReturn.confirmPairs
      (PaymentReturn.confirmLines s rid) (s.nextId + 1),
      s.nextId ≤ rp.2 := by
    intro rp hrp
    have := confirmPairs_snd_ge (PaymentReturn.confirmLines s rid)
      (s.nextId + 1) rp hrp
    omega
  have T5 : ∀ rp ∈ PaymentReturn.confirmPairs
      (PaymentReturn.confirmLines s rid) (s.nextId + 1),
      ∀ m ∈ rp.1.moveLineIds,
      ∃ ml, (PaymentReturn.confirmPosted s rid pr, ([] : List Nat),
          ([] : List Nat)).1.getMoveLine m = some ml
        ∧ ml.debit = 0 ∧ 0 < ml.credit := by
    intro rp hrp m hm
    have hfst := confirmPairs_fst_mem (PaymentReturn.confirmLines s rid)
      (s.nextId + 1) rp hrp
    obtain ⟨ml, hfind, h0, hc⟩ := hlk rp.1 hfst m hm
    exact ⟨ml, confirmPosted_lookup s rid pr m ml hfind, h0, hc⟩
  have hlines_post : ∀ rl ∈ PaymentReturn.confirmLines s rid,
      (PaymentReturn.confirmPosted s rid pr).linesOf rl.moveLineIds
        = s.linesOf rl.moveLineIds := by
    intro rl hrl
    apply linesOf_congr
    intro i hi
    obtain ⟨mli, hlki, _, _⟩ := hlk rl hrl i hi
    rw [hlki, confirmPosted_lookup s rid pr i mli hlki]
  have T6 : ∀ rp ∈ PaymentReturn.confirmPairs
      (PaymentReturn.confirmLines s rid) (s.nextId + 1),
      ∃ ml2, (PaymentReturn.confirmPosted s rid pr, ([] : List Nat),
          ([] : List Nat)).1.getMoveLine rp.2 = some ml2
        ∧ ml2.credit = 0
        ∧ ml2.debit = (((PaymentReturn.confirmPosted s rid pr,
            ([] : List Nat), ([] : List Nat)).1.linesOf
            rp.1.moveLineIds).map (fun l => l.credit)).sum := by
    intro rp hrp
    obtain ⟨i, h, hfst, hsnd⟩ := confirmPairs_mem_elim
      (PaymentReturn.confirmLines s rid) (s.nextId + 1) rp hrp
    have hfind := confirmPosted_debit_lookup s rid pr i h hwfMl
    have hgetmem : (PaymentReturn.confirmLines s rid).get ⟨i, h⟩
        ∈ PaymentReturn.confirmLines s rid := List.get_mem _ _ _
    refine ⟨PaymentReturnLine._prepare_return_move_line_vals s pr
      ((PaymentReturn.confirmLines s rid).get ⟨i, h⟩) s.nextId
      (s.nextId + 1 + i), ?_, rfl, ?_⟩
    · rw [hsnd]
      exact hfind
    · show ((PaymentReturn.confirmLines s rid).get ⟨i, h⟩).amount = _
      rw [hfst, hlines_post _ hgetmem]
      exact hamt _ hgetmem
  have T7 : ∀ p ∈ (PaymentReturn.confirmPosted s rid pr, ([] : List Nat),
      ([] : List Nat)).1.partials,
      ∀ rp ∈ PaymentReturn.confirmPairs (PaymentReturn.confirmLines s
        rid) (s.nextId + 1),
      p.debitMoveId ≠ rp.2 ∧ p.creditMoveId ≠ rp.2 := by
    intro p hp rp hrp
    have hp2 : p ∈ s.partials := hp
    have h1 := hwfP p hp2
    have h2 := confirmPairs_snd_ge (PaymentReturn.confirmLines s rid)
      (s.nextId + 1) rp hrp
    constructor
    · omega
    · omega
  have T8 : ∀ p ∈ (PaymentReturn.confirmPosted s rid pr, ([] : List Nat),
      ([] : List Nat)).1.partials,
      p.creditMoveId ∈ ((PaymentReturn.confirmPairs
        (PaymentReturn.confirmLines s rid) (s.nextId + 1)).map
        (fun rp => rp.1)).flatMap (fun rl => rl.moveLineIds) →
      p.debitMoveId ∉ ((PaymentReturn.confirmPairs
        (PaymentReturn.confirmLines s rid) (s.nextId + 1)).map
        (fun rp => rp.1)).flatMap (fun rl => rl.moveLineIds) := by
    intro p hp hc
    rw [confirmPairs_map_fst] at hc ⊢
    exact hnc p hp hc
  have T9 : s.nextId ≤ (PaymentReturn.confirmPosted s rid pr,
      ([] : List Nat), ([] : List Nat)).1.nextId := by
    have h1 := confirmPosted_nextId s rid pr
    show s.nextId ≤ (PaymentReturn.confirmPosted s rid pr).nextId
    omega
  obtain ⟨O1, O2, O3, O4, O5, O6⟩ := confirmOuter_main pr
    (PaymentReturn._prepare_return_move_vals pr s.nextId) s.nextId
    (PaymentReturn.confirmPairs (PaymentReturn.confirmLines s rid)
      (s.nextId + 1))
    (PaymentReturn.confirmPosted s rid pr, [], [])
    T1 (confirmPairs_snd_nodup _ _) T3 T4 T5 T6 T7 T8 T9
  have hAccDef : PaymentReturn.confirmAcc s rid pr
      = (PaymentReturn.confirmPairs (PaymentReturn.confirmLines s rid)
          (s.nextId + 1)).foldl (PaymentReturn.confirmProcessLine pr
          (PaymentReturn._prepare_return_move_vals pr s.nextId))
          (PaymentReturn.confirmPosted s rid pr, [], []) := rfl
  rw [← hAccDef] at O1 O2 O3 O4 O5 O6
  obtain ⟨new, hnewEq, hnewIds⟩ := confirmBody_partials s rid pr
  have hch : s.nextId ≤ (PaymentReturn.confirmAcc s rid pr).1.nextId := by
    have h1 := confirmPosted_nextId s rid pr
    have h2 : (PaymentReturn.confirmPosted s rid pr).nextId
        ≤ (PaymentReturn.confirmAcc s rid pr).1.nextId := O6
    omega
  refine ⟨⟨?_, ?_⟩, ?_, ?_, ?_⟩
  · -- (1a) the move table gains exactly the new entry
    rw [confirmBody_moves_eq,
      map_id_pres _ _ (fun mm => (flagMove_fields
        (PaymentReturn.confirmAcc s rid pr).2.1 mm).1),
      map_id_pres _ _ (fun mm => (postMove_fields s.nextId mm).1),
      List.map_append]
    rfl
  · -- (1b) the new entry references the return
    rw [confirmBody_moves_eq]
    refine ⟨_, List.mem_map_of_mem _ (List.mem_map_of_mem _
      (List.mem_append_right _ (List.mem_cons_self _ _))), ?_, ?_⟩
    · exact (flagMove_fields _ _).1.trans
        ((postMove_fields _ _).1.trans rfl)
    · exact (flagMove_fields _ _).2.trans
        ((postMove_fields _ _).2.trans rfl)
  · -- (2) reconciliation of each matched line with its new debit line
    intro i h m hm
    have hpairmem := confirmPairs_get_mem
      (PaymentReturn.confirmLines s rid) (s.nextId + 1) i h
    constructor
    · obtain ⟨p, hp, hcq, hdq, _⟩ := O1 _ hpairmem m hm
      refine ⟨p, ?_, hcq, hdq⟩
      rw [hnewEq]
      exact List.mem_append_left _ hp
    · intro p hp hside
      rw [hnewEq] at hp
      rcases List.mem_append.mp hp with hp1 | hp1
      · rcases O2 p hp1 with ⟨q, hq, hidq, hdq, hcq, _, hnin⟩
          | ⟨hid, _⟩
        · exfalso
          have hnm := hnin _ hpairmem
          rcases hside with hd | hc
          · exact hnm.1 (by rw [← hdq, hd]; exact hm)
          · exact hnm.2 (by rw [← hcq, hc]; exact hm)
        · exact hid
      · have := hnewIds p hp1
        omega
  · -- (3) invoices are flagged
    intro mvi hmvi hyp
    obtain ⟨rl, hrl, m, hm, q, hq, hqc, dl, hdl, hdlmv⟩ := hyp
    obtain ⟨b, hb⟩ := confirmPairs_mem_of_fst
      (PaymentReturn.confirmLines s rid) (s.nextId + 1) rl hrl
    have hinv : dl.moveId ∈ (PaymentReturn.confirmAcc s rid pr).2.1 :=
      O4 (rl, b) hb m hm q hq hqc dl
        (confirmPosted_lookup s rid pr q.debitMoveId dl hdl)
    rw [confirmBody_moves_eq] at hmvi
    rcases List.mem_map.mp hmvi with ⟨m1, hm1, hflagm⟩
    have hidm : mvi.id = m1.id := by
      rw [← hflagm]
      exact (flagMove_fields _ _).1
    have hcont : ((PaymentReturn.confirmAcc s rid pr).2.1.contains
        m1.id) = true := by
      apply List.elem_iff.mpr
      rw [← hidm, ← hdlmv]
      exact hinv
    rw [← hflagm, if_pos hcont]
  · -- (4) the return is done and points at the entry
    have hprmem : pr ∈ s.returns := by
      unfold State.getReturn at hpr
      exact List.mem_of_find?_eq_some hpr
    have hprid : pr.id = rid := by
      unfold State.getReturn at hpr
      have := List.find?_some hpr
      exact eq_of_beq this
    rw [confirmBody_returns]
    refine ⟨_, List.mem_map_of_mem _ hprmem, ?_, ?_, ?_⟩
    · rw [if_pos (by rw [hprid]; exact beq_self_eq_true rid)]
      exact hprid
    · rw [if_pos (by rw [hprid]; exact beq_self_eq_true rid)]
    · rw [if_pos (by rw [hprid]; exact beq_self_eq_true rid)]

theorem C2_confirm_effects_witness :
    ∃ r ∈ (PaymentReturn.confirmBody wit2 1 wit2ret).returns,
      r.id = 1 ∧ r.state = RState.done
      ∧ r.moveId = some wit2.nextId :=
  (C2_confirm_effects wit2 1 (PaymentReturn.confirmBody wit2 1 wit2ret)
    wit2ret rfl rfl (by decide) (by decide) (by decide) (by decide)
    (by decide) (by decide) (by decide)).2.2.2

theorem sublist_flatMap {α β : Type} (f : α → List β) {l1 l2 : List α}
    (h : l1.Sublist l2) : (l1.flatMap f).Sublist (l2.flatMap f) := by
  induction h with
  | slnil => exact List.Sublist.refl _
  | cons a h ih =>
    rw [List.flatMap_cons]
    exact ih.trans (List.sublist_append_right _ _)
  | cons₂ a h ih =>
    rw [List.flatMap_cons, List.flatMap_cons]
    exact List.Sublist.append_left ih _

theorem mkRecParts_fan (cid : Nat) :
    ∀ (ds : List (Nat × ℤ)) (n : Nat) (t : ℤ),
      (∀ d ∈ ds, 0 < d.2) → t = (ds.map (fun x => x.2)).sum →
      (∀ d ∈ ds, ∃ p ∈ mkRecParts n ds [(cid, t)],
        p.debitMoveId = d.1 ∧ p.creditMoveId = cid ∧ n ≤ p.id)
      ∧ (∀ p ∈ mkRecParts n ds [(cid, t)],
        p.creditMoveId = cid ∧ p.debitMoveId ∈ ds.map (fun x => x.1)
        ∧ n ≤ p.id) := by
  intro ds
  induction ds with
  | nil =>
    intro n t _ _
    constructor
    · intro d hd
      cases hd
    · intro p hp
      unfold mkRecParts at hp
      cases hp
  | cons d rest ih =>
    intro n t hpos ht
    have hsum : t = d.2 + (rest.map (fun x => x.2)).sum := by
      rw [ht, List.map_cons, List.sum_cons]
    cases rest with
    | nil =>
      have ht2 : t = d.2 := by
        rw [hsum]
        simp
      subst ht2
      rw [mkRecParts_single]
      constructor
      · intro d' hd'
        rcases List.mem_cons.mp hd' with rfl | h0
        · exact ⟨_, List.mem_cons_self _ _, rfl, rfl, Nat.le_refl _⟩
        · cases h0
      · intro p hp
        rcases List.mem_cons.mp hp with rfl | h0
        · exact ⟨rfl, by simp, Nat.le_refl _⟩
        · cases h0
    | cons d2 rest2 =>
      have hpos' : ∀ x ∈ d2 :: rest2, 0 < x.2 :=
        fun x hx => hpos x (List.mem_cons_of_mem _ hx)
      have hrpos : 0 < (((d2 :: rest2).map (fun x => x.2)).sum) := by
        rw [List.map_cons, List.sum_cons]
        have h1 := hpos d2 (List.mem_cons_of_mem _ (List.mem_cons_self _ _))
        have h2 : 0 ≤ ((rest2.map (fun x => x.2)).sum) :=
          List.sum_nonneg (fun x hx => by
            rcases List.mem_map.mp hx with ⟨y, hy, rfl⟩
            exact le_of_lt (hpos y (List.mem_cons_of_mem _
              (List.mem_cons_of_mem _ hy))))
        omega
      have hlt : d.2 < t := by
        omega
      have hstep : mkRecParts n (d :: d2 :: rest2) [(cid, t)]
          = { id := n, debitMoveId := d.1, creditMoveId := cid,
              amount := min d.2 t, originReturnedMoveIds := [] }
            :: mkRecParts (n + 1) (d2 :: rest2)
                [(cid, t - min d.2 t)] := by
        conv_lhs => unfold mkRecParts
        rw [if_pos (show d.2 ≤ t from le_of_lt hlt),
          if_neg (show ¬((d.2 == t) = true) from by
            rw [beq_iff_eq]
            omega)]
      rw [hstep]
      obtain ⟨ih1, ih2⟩ := ih (n + 1) (t - min d.2 t) hpos' (by
        rw [min_eq_left (le_of_lt hlt)]
        omega)
      constructor
      · intro d' hd'
        rcases List.mem_cons.mp hd' with rfl | hmem
        · exact ⟨_, List.mem_cons_self _ _, rfl, rfl, Nat.le_refl _⟩
        · obtain ⟨p, hp, h1, h2, h3⟩ := ih1 d' hmem
          exact ⟨p, List.mem_cons_of_mem _ hp, h1, h2, by omega⟩
      · intro p hp
        rcases List.mem_cons.mp hp with rfl | hmem
        · exact ⟨rfl, by simp, Nat.le_refl _⟩
        · obtain ⟨h1, h2, h3⟩ := ih2 p hmem
          refine ⟨h1, ?_, by omega⟩
          rw [List.map_cons]
          exact List.mem_cons_of_mem _ h2

theorem reconcileLines_fanned (st : State) (origins : List Nat)
    (cidn : Nat) (c : MoveLine)
    (hc : st.getMoveLine cidn = some c)
    (hrc : st.residual c < 0)
    (ho : ∀ o ∈ origins, ∃ ol, st.getMoveLine o = some ol
      ∧ 0 < st.residual ol)
    (hsum : -(st.residual c)
      = ((st.linesOf origins).map (fun l => st.residual l)).sum) :
    (st.reconcileLines (origins ++ [cidn])).partials
      = st.partials ++ mkRecParts st.nextId
          ((st.linesOf origins).map (fun l => (l.id, st.residual l)))
          [(cidn, -(st.residual c))]
    ∧ (∀ o ∈ origins,
        ∃ p ∈ (st.reconcileLines (origins ++ [cidn])).partials,
          p.debitMoveId = o ∧ p.creditMoveId = cidn ∧ st.nextId ≤ p.id)
    ∧ (∀ p ∈ (st.reconcileLines (origins ++ [cidn])).partials,
        p ∈ st.partials
        ∨ (p.creditMoveId = cidn ∧ p.debitMoveId ∈ origins
          ∧ st.nextId ≤ p.id)) := by
  have hcid := getMoveLine_id _ _ _ hc
  have hlines : st.linesOf (origins ++ [cidn])
      = st.linesOf origins ++ [c] := by
    unfold State.linesOf
    rw [List.filterMap_append]
    congr 1
    rw [List.filterMap_cons, hc, List.filterMap_nil]
  have hfpos : ((st.linesOf origins ++ [c]).filter
      (fun l => decide (0 < st.residual l))) = st.linesOf origins := by
    rw [List.filter_append]
    have h1 : ((st.linesOf origins).filter
        (fun l => decide (0 < st.residual l))) = st.linesOf origins := by
      rw [List.filter_eq_self]
      intro l hl
      rcases List.mem_filterMap.mp hl with ⟨o, ho2, hlo⟩
      obtain ⟨ol, hol, hpos⟩ := ho o ho2
      rw [hol] at hlo
      injection hlo with hlo
      simp only [decide_eq_true_eq]
      rw [← hlo]
      exact hpos
    have h2 : ([c].filter (fun l => decide (0 < st.residual l))) = [] := by
      rw [List.filter_cons,
        if_neg (by simp only [decide_eq_true_eq]; omega), List.filter_nil]
    rw [h1, h2, List.append_nil]
  have hfneg : ((st.linesOf origins ++ [c]).filter
      (fun l => decide (st.residual l < 0))) = [c] := by
    rw [List.filter_append]
    have h1 : ((st.linesOf origins).filter
        (fun l => decide (st.residual l < 0))) = [] := by
      rw [List.filter_eq_nil_iff]
      intro l hl hdec
      rcases List.mem_filterMap.mp hl with ⟨o, ho2, hlo⟩
      obtain ⟨ol, hol, hpos⟩ := ho o ho2
      rw [hol] at hlo
      injection hlo with hlo
      simp only [decide_eq_true_eq] at hdec
      rw [← hlo] at hdec
      omega
    have h2 : ([c].filter (fun l => decide (st.residual l < 0)))
        = [c] := by
      rw [List.filter_cons,
        if_pos (by simp only [decide_eq_true_eq]; exact hrc),
        List.filter_nil]
    rw [h1, h2, List.nil_append]
  have hpart : (st.reconcileLines (origins ++ [cidn])).partials
      = st.partials ++ mkRecParts st.nextId
          ((st.linesOf origins).map (fun l => (l.id, st.residual l)))
          [(cidn, -(st.residual c))] := by
    rw [reconcileLines_partials, hlines, hfpos, hfneg, List.map_cons,
      List.map_nil, hcid]
  have hds_pos : ∀ d ∈ (st.linesOf origins).map
      (fun l => (l.id, st.residual l)), 0 < d.2 := by
    intro d hd
    rcases List.mem_map.mp hd with ⟨l, hl, rfl⟩
    rcases List.mem_filterMap.mp hl with ⟨o, ho2, hlo⟩
    obtain ⟨ol, hol, hpos⟩ := ho o ho2
    rw [hol] at hlo
    injection hlo with hlo
    show 0 < st.residual l
    rw [← hlo]
    exact hpos
  have hsum2 : -(st.residual c)
      = (((st.linesOf origins).map (fun l => (l.id, st.residual l))).map
          (fun x => x.2)).sum := by
    rw [hsum, List.map_map]
    rfl
  obtain ⟨fan1, fan2⟩ := mkRecParts_fan cidn _ st.nextId _ hds_pos hsum2
  refine ⟨hpart, ?_, ?_⟩
  · intro o ho2
    obtain ⟨ol, hol, hpos⟩ := ho o ho2
    have holid := getMoveLine_id _ _ _ hol
    have hmemL : ol ∈ st.linesOf origins :=
      List.mem_filterMap.mpr ⟨o, ho2, hol⟩
    obtain ⟨p, hp, h1, h2, h3⟩ := fan1 _ (List.mem_map_of_mem _ hmemL)
    refine ⟨p, ?_, ?_, h2, h3⟩
    · rw [hpart]
      exact List.mem_append_right _ hp
    · rw [h1]
      exact holid
  · intro p hp
    rw [hpart] at hp
    rcases List.mem_append.mp hp with h | h
    · exact Or.inl h
    · obtain ⟨h1, h2, h3⟩ := fan2 p h
      refine Or.inr ⟨h1, ?_, h3⟩
      rcases List.mem_map.mp h2 with ⟨d, hd, hdeq⟩
      rcases List.mem_map.mp hd with ⟨l, hl, rfl⟩
      rcases List.mem_filterMap.mp hl with ⟨o, ho2, hlo⟩
      have hlid : l.id = o := getMoveLine_id _ _ _ hlo
      rw [← hdeq]
      show l.id ∈ origins
      rw [hlid]
      exact ho2

theorem cancelProcessOne_fst (acc : State × List Nat)
    (p : PartialReconcile) :
    (PaymentReturn.cancelProcessOne acc p).1
      = (acc.1.removeMoveReconcile p.creditMoveId).reconcileLines
          (rsUnion p.originReturnedMoveIds [p.creditMoveId]) := rfl

theorem cancelProcessOne_tables (acc : State × List Nat)
    (p : PartialReconcile) :
    sameTables (PaymentReturn.cancelProcessOne acc p).1 acc.1 :=
  ⟨rfl, rfl, rfl, rfl, rfl, rfl, rfl⟩

theorem cancelInner_main (n : Nat) (ps : List PartialReconcile) :
    ∀ acc : State × List Nat,
      (∀ p ∈ ps, ∃ c, acc.1.getMoveLine p.creditMoveId = some c
        ∧ c.debit = 0 ∧ 0 < c.credit) →
      (∀ p ∈ ps, ∀ o ∈ p.originReturnedMoveIds,
        ∃ ol, acc.1.getMoveLine o = some ol ∧ 0 < ol.debit
          ∧ ol.credit = 0) →
      (∀ p ∈ ps, ((acc.1.linesOf p.originReturnedMoveIds).map
          (fun l => l.debit)).sum
        = ((acc.1.linesOf [p.creditMoveId]).map
            (fun l => l.credit)).sum) →
      ((ps.flatMap (fun p => p.originReturnedMoveIds
        ++ [p.creditMoveId])).Nodup) →
      (∀ p ∈ ps, ∀ o ∈ p.originReturnedMoveIds, ∀ q ∈ acc.1.partials,
        q.debitMoveId ≠ o ∧ q.creditMoveId ≠ o) →
      n ≤ acc.1.nextId →
      (∀ p ∈ ps, ∀ o ∈ p.originReturnedMoveIds,
        ∃ p2 ∈ (ps.foldl PaymentReturn.cancelProcessOne acc).1.partials,
          p2.debitMoveId = o ∧ p2.creditMoveId = p.creditMoveId
          ∧ n ≤ p2.id)
      ∧ (∀ p2 ∈ (ps.foldl PaymentReturn.cancelProcessOne
          acc).1.partials,
          (p2 ∈ acc.1.partials ∧ ∀ p ∈ ps,
            p2.debitMoveId ≠ p.creditMoveId
            ∧ p2.creditMoveId ≠ p.creditMoveId)
          ∨ (n ≤ p2.id ∧ ∃ p ∈ ps, p2.creditMoveId = p.creditMoveId
              ∧ p2.debitMoveId ∈ p.originReturnedMoveIds))
      ∧ (∀ q ∈ acc.1.partials,
          (∀ p ∈ ps, q.debitMoveId ≠ p.creditMoveId
            ∧ q.creditMoveId ≠ p.creditMoveId) →
          q ∈ (ps.foldl PaymentReturn.cancelProcessOne acc).1.partials)
      ∧ sameTables (ps.foldl PaymentReturn.cancelProcessOne acc).1 acc.1
      ∧ acc.1.nextId ≤ (ps.foldl PaymentReturn.cancelProcessOne
          acc).1.nextId := by
  induction ps with
  | nil =>
    intro acc _ _ _ _ _ _
    refine ⟨?_, ?_, ?_, ⟨rfl, rfl, rfl, rfl, rfl, rfl, rfl⟩,
      Nat.le_refl _⟩
    · intro p hp
      cases hp
    · intro p2 hp2
      exact Or.inl ⟨hp2, (by intro p hp; cases hp)⟩
    · intro q hq _
      exact hq
  | cons p rest ih =>
    intro acc h1 h2 h3 h4 h5 h6
    obtain ⟨c, hc, hcd, hcc⟩ := h1 p (List.mem_cons_self _ _)
    have hcid : c.id = p.creditMoveId := getMoveLine_id _ _ _ hc
    rw [List.flatMap_cons] at h4
    obtain ⟨hhead_nd, hrest_nd, hdisj⟩ := List.nodup_append.mp h4
    have hc_not_origin : p.creditMoveId ∉ p.originReturnedMoveIds := by
      obtain ⟨_, _, hdisj2⟩ := List.nodup_append.mp hhead_nd
      intro hmem
      exact hdisj2 hmem (List.mem_cons_self _ _)
    -- the state after removing the credit line's reconciliations
    have hlk1 : ∀ x,
        (acc.1.removeMoveReconcile p.creditMoveId).getMoveLine x
          = acc.1.getMoveLine x :=
      fun x => getMoveLine_congr _ _ rfl x
    have hrc : (acc.1.removeMoveReconcile p.creditMoveId).residual c
        = c.debit - c.credit := residual_remove_self acc.1 _ c hcid
    have hlines1 : ∀ ids : List Nat,
        (acc.1.removeMoveReconcile p.creditMoveId).linesOf ids
          = acc.1.linesOf ids :=
      fun ids => linesOf_congr acc.1 _ ids (fun i _ => hlk1 i)
    have hro : ∀ o ∈ p.originReturnedMoveIds, ∃ ol,
        (acc.1.removeMoveReconcile p.creditMoveId).getMoveLine o = some ol
        ∧ 0 < (acc.1.removeMoveReconcile p.creditMoveId).residual ol := by
      intro o ho
      obtain ⟨ol, hol, hd0, hc0⟩ := h2 p (List.mem_cons_self _ _) o ho
      refine ⟨ol, (hlk1 o).trans hol, ?_⟩
      have hres : (acc.1.removeMoveReconcile p.creditMoveId).residual ol
          = ol.debit - ol.credit := by
        apply residual_of_no_sides
        intro q hq
        rw [removeMoveReconcile_partials] at hq
        have hq2 := List.mem_of_mem_filter hq
        have := h5 p (List.mem_cons_self _ _) o ho q hq2
        rw [getMoveLine_id _ _ _ hol]
        exact this
      omega
    have hrcneg : (acc.1.removeMoveReconcile p.creditMoveId).residual c
        < 0 := by
      omega
    have hressum : -((acc.1.removeMoveReconcile p.creditMoveId).residual
          c)
        = (((acc.1.removeMoveReconcile p.creditMoveId).linesOf
            p.originReturnedMoveIds).map (fun l =>
            (acc.1.removeMoveReconcile p.creditMoveId).residual l)).sum
        := by
      have h3h := h3 p (List.mem_cons_self _ _)
      have hsing : acc.1.linesOf [p.creditMoveId] = [c] := by
        unfold State.linesOf
        rw [List.filterMap_cons, hc, List.filterMap_nil]
      rw [hsing, List.map_cons, List.map_nil, List.sum_cons,
        List.sum_nil] at h3h
      -- h3h : Σ origin debits = c.credit + 0
      have hcong : (((acc.1.removeMoveReconcile
            p.creditMoveId).linesOf p.originReturnedMoveIds).map
            (fun l => (acc.1.removeMoveReconcile
              p.creditMoveId).residual l)).sum
          = ((acc.1.linesOf p.originReturnedMoveIds).map
              (fun l => l.debit)).sum := by
        rw [hlines1]
        congr 1
        apply List.map_congr_left
        intro l hl
        rcases List.mem_filterMap.mp hl with ⟨o, ho2, hlo⟩
        obtain ⟨ol2, hol2, hd0, hc0⟩ := h2 p (List.mem_cons_self _ _)
          o ho2
        rw [hol2] at hlo
        injection hlo with heq
        rw [heq] at hol2 hd0 hc0
        show (acc.1.removeMoveReconcile p.creditMoveId).residual l
          = l.debit
        have hres : (acc.1.removeMoveReconcile p.creditMoveId).residual l
            = l.debit - l.credit := by
          apply residual_of_no_sides
          intro q hq
          rw [removeMoveReconcile_partials] at hq
          have hq2 := List.mem_of_mem_filter hq
          have h5q := h5 p (List.mem_cons_self _ _) o ho2 q hq2
          rw [getMoveLine_id _ _ _ hol2]
          exact h5q
        omega
      rw [hcong, hrc]
      omega
    have hun : rsUnion p.originReturnedMoveIds [p.creditMoveId]
        = p.originReturnedMoveIds ++ [p.creditMoveId] :=
      rsUnion_eq_append [p.creditMoveId] p.originReturnedMoveIds hhead_nd
    obtain ⟨hpart2, hfan2, hchar2⟩ := reconcileLines_fanned
      (acc.1.removeMoveReconcile p.creditMoveId) p.originReturnedMoveIds
      p.creditMoveId c ((hlk1 _).trans hc) hrcneg hro hressum
    -- restate over the actual step state
    have hstepEq : (PaymentReturn.cancelProcessOne acc p).1
        = (acc.1.removeMoveReconcile p.creditMoveId).reconcileLines
            (p.originReturnedMoveIds ++ [p.creditMoveId]) := by
      rw [cancelProcessOne_fst, hun]
    -- re-establish the invariants at the stepped accumulator
    have hlkS : ∀ x, (PaymentReturn.cancelProcessOne acc p).1.getMoveLine
        x = acc.1.getMoveLine x :=
      fun x => getMoveLine_congr _ _
        (cancelProcessOne_tables acc p).2.2.2.2.1 x
    have hlinesS : ∀ ids : List Nat,
        (PaymentReturn.cancelProcessOne acc p).1.linesOf ids
          = acc.1.linesOf ids :=
      fun ids => linesOf_congr acc.1 _ ids (fun i _ => hlkS i)
    have hmemS : ∀ p2 ∈ (PaymentReturn.cancelProcessOne
        acc p).1.partials,
        (p2 ∈ acc.1.partials ∧ p2.debitMoveId ≠ p.creditMoveId
          ∧ p2.creditMoveId ≠ p.creditMoveId)
        ∨ (p2.creditMoveId = p.creditMoveId
          ∧ p2.debitMoveId ∈ p.originReturnedMoveIds
          ∧ acc.1.nextId ≤ p2.id) := by
      intro p2 hp2
      rw [hstepEq] at hp2
      rcases hchar2 p2 hp2 with h | h
      · rw [removeMoveReconcile_partials] at h
        have hm := List.mem_of_mem_filter h
        have hcond := List.of_mem_filter h
        simp only [Bool.and_eq_true, Bool.not_eq_true',
          beq_eq_false_iff_ne] at hcond
        exact Or.inl ⟨hm, hcond⟩
      · exact Or.inr h
    have hsurvS : ∀ q ∈ acc.1.partials, q.debitMoveId ≠ p.creditMoveId →
        q.creditMoveId ≠ p.creditMoveId →
        q ∈ (PaymentReturn.cancelProcessOne acc p).1.partials := by
      intro q hq hd hcq
      rw [hstepEq, reconcileLines_partials]
      refine List.mem_append_left _ ?_
      rw [removeMoveReconcile_partials]
      refine List.mem_filter.mpr ⟨hq, ?_⟩
      simp [hd, hcq]
    have hnxS : acc.1.nextId
        ≤ (PaymentReturn.cancelProcessOne acc p).1.nextId := by
      rw [hstepEq]
      exact reconcileLines_nextId_ge
        (acc.1.removeMoveReconcile p.creditMoveId)
        (p.originReturnedMoveIds ++ [p.creditMoveId])
    have h1' : ∀ p2 ∈ rest, ∃ c2,
        (PaymentReturn.cancelProcessOne acc p).1.getMoveLine
          p2.creditMoveId = some c2 ∧ c2.debit = 0 ∧ 0 < c2.credit := by
      intro p2 hp2
      obtain ⟨c2, hc2, hcd2, hcc2⟩ := h1 p2 (List.mem_cons_of_mem _ hp2)
      exact ⟨c2, (hlkS _).trans hc2, hcd2, hcc2⟩
    have h2' : ∀ p2 ∈ rest, ∀ o ∈ p2.originReturnedMoveIds, ∃ ol,
        (PaymentReturn.cancelProcessOne acc p).1.getMoveLine o = some ol
        ∧ 0 < ol.debit ∧ ol.credit = 0 := by
      intro p2 hp2 o ho
      obtain ⟨ol, hol, hd0, hc0⟩ := h2 p2 (List.mem_cons_of_mem _ hp2)
        o ho
      exact ⟨ol, (hlkS _).trans hol, hd0, hc0⟩
    have h3' : ∀ p2 ∈ rest,
        (((PaymentReturn.cancelProcessOne acc p).1.linesOf
          p2.originReturnedMoveIds).map (fun l => l.debit)).sum
        = (((PaymentReturn.cancelProcessOne acc p).1.linesOf
            [p2.creditMoveId]).map (fun l => l.credit)).sum := by
      intro p2 hp2
      rw [hlinesS, hlinesS]
      exact h3 p2 (List.mem_cons_of_mem _ hp2)
    have h5' : ∀ p2 ∈ rest, ∀ o ∈ p2.originReturnedMoveIds,
        ∀ q ∈ (PaymentReturn.cancelProcessOne acc p).1.partials,
        q.debitMoveId ≠ o ∧ q.creditMoveId ≠ o := by
      intro p2 hp2 o ho q hq
      have hoin : o ∈ rest.flatMap (fun x => x.originReturnedMoveIds
          ++ [x.creditMoveId]) :=
        List.mem_flatMap.mpr ⟨p2, hp2,
          List.mem_append_left _ ho⟩
      rcases hmemS q hq with ⟨hqold, _, _⟩ | ⟨hqc, hqd, _⟩
      · exact h5 p2 (List.mem_cons_of_mem _ hp2) o ho q hqold
      · constructor
        · intro he
          exact hdisj (List.mem_append_left _ (by rw [← he]; exact hqd))
            hoin
        · intro he
          exact hdisj (List.mem_append_right _ (by
              rw [← he, hqc]
              exact List.mem_cons_self _ _)) hoin
    have h6' : n ≤ (PaymentReturn.cancelProcessOne acc p).1.nextId :=
      Nat.le_trans h6 hnxS
    obtain ⟨K1t, K2t, K3t, K4t, K5t⟩ :=
      ih (PaymentReturn.cancelProcessOne acc p) h1' h2' h3'
        hrest_nd h5' h6'
    simp only [List.foldl_cons]
    refine ⟨?_, ?_, ?_, sameTables_trans K4t
      (cancelProcessOne_tables acc p), Nat.le_trans hnxS K5t⟩
    · intro p2 hp2 o ho
      rcases List.mem_cons.mp hp2 with rfl | hmem
      · -- the head: the restored partial survives the rest of the loop
        obtain ⟨q, hq, hqd, hqc, hqid⟩ := hfan2 o ho
        rw [← hstepEq] at hq
        refine ⟨q, K3t q hq ?_, hqd, hqc, Nat.le_trans h6 hqid⟩
        intro p3 hp3
        constructor
        · rw [hqd]
          intro he
          exact hdisj (List.mem_append_left _ ho) (by
            rw [he]
            exact List.mem_flatMap.mpr ⟨p3, hp3,
              List.mem_append_right _ (List.mem_cons_self _ _)⟩)
        · rw [hqc]
          intro he
          exact hdisj (List.mem_append_right _ (List.mem_cons_self _ _))
            (by
              rw [he]
              exact List.mem_flatMap.mpr ⟨p3, hp3,
                List.mem_append_right _ (List.mem_cons_self _ _)⟩)
      · obtain ⟨p3, hp3, ha, hb, hcid3⟩ := K1t p2 hmem o ho
        exact ⟨p3, hp3, ha, hb, hcid3⟩
    · intro p2 hp2
      rcases K2t p2 hp2 with ⟨hold, hconds⟩ | ⟨hid, p3, hp3, ha, hb⟩
      · rcases hmemS p2 hold with ⟨hold2, hd2, hc2⟩ | ⟨hqc, hqd, hqid⟩
        · refine Or.inl ⟨hold2, ?_⟩
          intro p3 hp3
          rcases List.mem_cons.mp hp3 with rfl | hmem
          · exact ⟨hd2, hc2⟩
          · exact hconds p3 hmem
        · exact Or.inr ⟨Nat.le_trans h6 hqid, p,
            List.mem_cons_self _ _, hqc, hqd⟩
      · exact Or.inr ⟨hid, p3, List.mem_cons_of_mem _ hp3, ha, hb⟩
    · intro q hq hconds
      have hstep := hsurvS q hq (hconds p (List.mem_cons_self _ _)).1
        (hconds p (List.mem_cons_self _ _)).2
      exact K3t q hstep (fun p3 hp3 =>
        hconds p3 (List.mem_cons_of_mem _ hp3))

theorem mkRecParts_debit_mem (k : Nat) :
    ∀ (n : Nat) (ds cs : List (Nat × ℤ)), ds.length + cs.length ≤ k →
      ∀ p ∈ mkRecParts n ds cs,
        p.debitMoveId ∈ ds.map (fun d => d.1) := by
  induction k with
  | zero =>
    intro n ds cs hlen p hp
    have hd : ds = [] := List.length_eq_zero.mp (by omega)
    subst hd
    unfold mkRecParts at hp
    cases hp
  | succ k ih =>
    intro n ds cs hlen p hp
    cases ds with
    | nil =>
      unfold mkRecParts at hp
      cases hp
    | cons d ds' =>
      cases cs with
      | nil =>
        unfold mkRecParts at hp
        cases hp
      | cons c cs' =>
        unfold mkRecParts at hp
        rw [List.length_cons, List.length_cons] at hlen
        rw [List.map_cons]
        split_ifs at hp
        · rcases List.mem_cons.mp hp with rfl | hmem
          · exact List.mem_cons_self _ _
          · exact List.mem_cons_of_mem _
              (ih (n + 1) ds' cs' (by omega) p hmem)
        · rcases List.mem_cons.mp hp with rfl | hmem
          · exact List.mem_cons_self _ _
          · exact List.mem_cons_of_mem _
              (ih (n + 1) ds' ((c.1, c.2 - min d.2 c.2) :: cs')
                (by simp only [List.length_cons]; omega) p hmem)
        · rcases List.mem_cons.mp hp with rfl | hmem
          · exact List.mem_cons_self _ _
          · have := ih (n + 1) ((d.1, d.2 - min d.2 c.2) :: ds') cs'
              (by simp only [List.length_cons]; omega) p hmem
            rw [List.map_cons] at this
            exact this

theorem reconcileLines_new_debit (st : State) (ids : List Nat)
    (p : PartialReconcile)
    (hp : p ∈ (st.reconcileLines ids).partials)
    (hnot : p ∉ st.partials) : p.debitMoveId ∈ ids := by
  rw [reconcileLines_partials] at hp
  rcases List.mem_append.mp hp with h | h
  · exact absurd h hnot
  · have := mkRecParts_debit_mem _ st.nextId _ _ le_rfl p h
    rcases List.mem_map.mp this with ⟨d, hd, hdeq⟩
    rcases List.mem_map.mp hd with ⟨l, hl, rfl⟩
    have hl2 := List.mem_of_mem_filter hl
    rcases List.mem_filterMap.mp hl2 with ⟨i, hi, hlk⟩
    have hlid := getMoveLine_id _ _ _ hlk
    rw [← hdeq]
    show l.id ∈ ids
    rw [hlid]
    exact hi

theorem reconcileLines_filter_debit (st : State) (ids : List Nat)
    (x : Nat) (hx : x ∉ ids) :
    ((st.reconcileLines ids).partials.filter
      (fun q => q.debitMoveId == x))
      = st.partials.filter (fun q => q.debitMoveId == x) := by
  rw [reconcileLines_partials, List.filter_append]
  have h2 : ((mkRecParts st.nextId
      (((st.linesOf ids).filter
        (fun l => decide (0 < st.residual l))).map
        (fun l => (l.id, st.residual l)))
      (((st.linesOf ids).filter
        (fun l => decide (st.residual l < 0))).map
        (fun l => (l.id, -(st.residual l))))).filter
      (fun q => q.debitMoveId == x)) = [] := by
    rw [List.filter_eq_nil_iff]
    intro q hq hbe
    have := mkRecParts_debit_mem _ st.nextId _ _ le_rfl q hq
    rcases List.mem_map.mp this with ⟨d, hd, hdeq⟩
    rcases List.mem_map.mp hd with ⟨l, hl, rfl⟩
    have hl2 := List.mem_of_mem_filter hl
    rcases List.mem_filterMap.mp hl2 with ⟨i, hi, hlk⟩
    have hlid := getMoveLine_id _ _ _ hlk
    have hqx : q.debitMoveId = x := eq_of_beq hbe
    rw [hqx] at hdeq
    apply hx
    rw [← hdeq]
    show l.id ∈ ids
    rw [hlid]
    exact hi
  rw [h2, List.append_nil]

theorem remove_filter_debit_stable (s : State) (cid x : Nat)
    (h : ∀ q ∈ s.partials, q.debitMoveId = x →
      q.debitMoveId ≠ cid ∧ q.creditMoveId ≠ cid) :
    ((s.removeMoveReconcile cid).partials.filter
      (fun q => q.debitMoveId == x))
      = s.partials.filter (fun q => q.debitMoveId == x) := by
  rw [removeMoveReconcile_partials]
  apply filter_filter_of_imp
  intro q hq hbe
  have := h q hq (eq_of_beq hbe)
  simp [this.1, this.2]

theorem cancelInner_filter (ps : List PartialReconcile) :
    ∀ (acc : State × List Nat) (x : Nat),
      (∀ p ∈ ps, x ≠ p.creditMoveId ∧ x ∉ p.originReturnedMoveIds) →
      (∀ q ∈ acc.1.partials, q.debitMoveId = x →
        ∀ p ∈ ps, q.creditMoveId ≠ p.creditMoveId) →
      ((ps.foldl PaymentReturn.cancelProcessOne acc).1.partials.filter
        (fun q => q.debitMoveId == x))
        = acc.1.partials.filter (fun q => q.debitMoveId == x) := by
  induction ps with
  | nil =>
    intro acc x _ _
    rfl
  | cons p rest ih =>
    intro acc x h1 h2
    have hx1 := h1 p (List.mem_cons_self _ _)
    -- characterise the partials after one step
    have hmem1 : ∀ q ∈ (PaymentReturn.cancelProcessOne acc p).1.partials,
        q ∈ acc.1.partials
        ∨ q.debitMoveId ∈ rsUnion p.originReturnedMoveIds
            [p.creditMoveId] := by
      intro q hq
      rw [cancelProcessOne_fst] at hq
      by_cases hold : q ∈ (acc.1.removeMoveReconcile
          p.creditMoveId).partials
      · rw [removeMoveReconcile_partials] at hold
        exact Or.inl (List.mem_of_mem_filter hold)
      · exact Or.inr (reconcileLines_new_debit _ _ q hq hold)
    have hstep : ((PaymentReturn.cancelProcessOne
        acc p).1.partials.filter (fun q => q.debitMoveId == x))
        = acc.1.partials.filter (fun q => q.debitMoveId == x) := by
      rw [cancelProcessOne_fst]
      rw [reconcileLines_filter_debit _ _ x (by
        rw [mem_rsUnion]
        rintro (hmem | hmem)
        · exact hx1.2 hmem
        · exact hx1.1 (List.mem_singleton.mp hmem))]
      apply remove_filter_debit_stable
      intro q hq hqx
      constructor
      · rw [hqx]
        exact hx1.1
      · exact h2 q hq hqx p (List.mem_cons_self _ _)
    have h1' : ∀ p2 ∈ rest, x ≠ p2.creditMoveId
        ∧ x ∉ p2.originReturnedMoveIds :=
      fun p2 hp2 => h1 p2 (List.mem_cons_of_mem _ hp2)
    have h2' : ∀ q ∈ (PaymentReturn.cancelProcessOne acc p).1.partials,
        q.debitMoveId = x → ∀ p2 ∈ rest,
        q.creditMoveId ≠ p2.creditMoveId := by
      intro q hq hqx p2 hp2
      rcases hmem1 q hq with hold | hnew
      · exact h2 q hold hqx p2 (List.mem_cons_of_mem _ hp2)
      · rw [hqx, mem_rsUnion] at hnew
        rcases hnew with hmem | hmem
        · exact absurd hmem hx1.2
        · exact absurd (List.mem_singleton.mp hmem) hx1.1
    rw [List.foldl_cons,
      ih (PaymentReturn.cancelProcessOne acc p) x h1' h2', hstep]

theorem cancelOuter_main (s : State) (R0 : List Nat) (n : Nat)
    (hS1 : ∀ p ∈ s.partials, p.debitMoveId ∈ R0 →
      ∃ c, s.getMoveLine p.creditMoveId = some c ∧ c.debit = 0
        ∧ 0 < c.credit)
    (hS2 : ∀ p ∈ s.partials, p.debitMoveId ∈ R0 →
      ∀ o ∈ p.originReturnedMoveIds, ∃ ol, s.getMoveLine o = some ol
        ∧ 0 < ol.debit ∧ ol.credit = 0)
    (hS3 : ∀ p ∈ s.partials, p.debitMoveId ∈ R0 →
      ((s.linesOf p.originReturnedMoveIds).map (fun l => l.debit)).sum
        = ((s.linesOf [p.creditMoveId]).map (fun l => l.credit)).sum)
    (hS4 : ((s.partials.filter
      (fun p => R0.contains p.debitMoveId)).flatMap
      (fun p => p.originReturnedMoveIds ++ [p.creditMoveId])).Nodup)
    (hS5 : ∀ p ∈ s.partials, p.debitMoveId ∈ R0 →
      ∀ o ∈ p.originReturnedMoveIds, ∀ q ∈ s.partials,
        q.debitMoveId ≠ o ∧ q.creditMoveId ≠ o)
    (hS6 : ∀ x ∈ R0, ∀ p ∈ s.partials, p.debitMoveId ∈ R0 →
      x ∉ p.originReturnedMoveIds ∧ x ≠ p.creditMoveId) :
    ∀ (Rr : List Nat) (acc : State × List Nat),
      (∀ x ∈ Rr, x ∈ R0) → Rr.Nodup →
      (∀ q ∈ acc.1.partials, q ∈ s.partials
        ∨ (∃ pd ∈ s.partials, pd.debitMoveId ∈ R0
            ∧ pd.debitMoveId ∉ Rr
            ∧ q.creditMoveId = pd.creditMoveId
            ∧ q.debitMoveId ∈ pd.originReturnedMoveIds ∧ n ≤ q.id)) →
      (∀ rml ∈ Rr, acc.1.partials.filter
          (fun p => p.debitMoveId == rml)
        = s.partials.filter (fun p => p.debitMoveId == rml)) →
      sameTables acc.1 s → n ≤ acc.1.nextId →
      (∀ rml ∈ Rr, ∀ p ∈ s.partials, p.debitMoveId = rml →
        ∀ o ∈ p.originReturnedMoveIds,
          ∃ p2 ∈ (Rr.foldl PaymentReturn.cancelProcessLine
            acc).1.partials,
            p2.debitMoveId = o ∧ p2.creditMoveId = p.creditMoveId
            ∧ n ≤ p2.id)
      ∧ (∀ q ∈ (Rr.foldl PaymentReturn.cancelProcessLine
          acc).1.partials, q ∈ acc.1.partials ∨ n ≤ q.id)
      ∧ (∀ rml ∈ Rr, ∀ p ∈ s.partials, p.debitMoveId = rml →
          ∀ q ∈ (Rr.foldl PaymentReturn.cancelProcessLine
            acc).1.partials,
            (q.debitMoveId = p.creditMoveId
              ∨ q.creditMoveId = p.creditMoveId) → n ≤ q.id)
      ∧ (∀ q ∈ acc.1.partials,
          (∀ rml ∈ Rr, ∀ p ∈ s.partials, p.debitMoveId = rml →
            q.debitMoveId ≠ p.creditMoveId
            ∧ q.creditMoveId ≠ p.creditMoveId) →
          q ∈ (Rr.foldl PaymentReturn.cancelProcessLine acc).1.partials)
      ∧ sameTables (Rr.foldl PaymentReturn.cancelProcessLine acc).1
          acc.1
      ∧ acc.1.nextId ≤ (Rr.foldl PaymentReturn.cancelProcessLine
          acc).1.nextId := by
  -- cross-component disjointness from the global nodup
  have hpairs := List.nodup_flatMap.mp hS4
  have hsymm : Symmetric (Function.onFun List.Disjoint
      (fun (p : PartialReconcile) =>
        p.originReturnedMoveIds ++ [p.creditMoveId])) :=
    fun _ _ h => List.disjoint_comm.mp h
  have hpairall := List.Pairwise.forall hsymm hpairs.2
  have hRmem : ∀ p ∈ s.partials, p.debitMoveId ∈ R0 →
      p ∈ s.partials.filter (fun p => R0.contains p.debitMoveId) :=
    fun p hp hd => List.mem_filter.mpr ⟨hp, List.elem_iff.mpr hd⟩
  have hcross : ∀ p1 ∈ s.partials, p1.debitMoveId ∈ R0 →
      ∀ p2 ∈ s.partials, p2.debitMoveId ∈ R0 →
      p1.debitMoveId ≠ p2.debitMoveId →
      ∀ x ∈ p1.originReturnedMoveIds ++ [p1.creditMoveId],
        x ∉ p2.originReturnedMoveIds ++ [p2.creditMoveId] := by
    intro p1 h1m h1d p2 h2m h2d hne x hx
    exact hpairall (hRmem p1 h1m h1d) (hRmem p2 h2m h2d)
      (fun he => hne (by rw [he])) hx
  intro Rr
  induction Rr with
  | nil =>
    intro acc _ _ _ _ _ _
    refine ⟨?_, ?_, ?_, ?_, ⟨rfl, rfl, rfl, rfl, rfl, rfl, rfl⟩,
      Nat.le_refl _⟩
    · intro rml hr
      cases hr
    · intro q hq
      exact Or.inl hq
    · intro rml hr
      cases hr
    · intro q hq _
      exact hq
  | cons rml rest ih =>
    intro acc hsub hnd A5 A1 A0 A6
    obtain ⟨hml_nin, hnd'⟩ := List.nodup_cons.mp hnd
    have hrmlR0 := hsub rml (List.mem_cons_self _ _)
    have hps := A1 rml (List.mem_cons_self _ _)
    have hpsmem : ∀ p ∈ acc.1.partials.filter
        (fun p => p.debitMoveId == rml),
        p ∈ s.partials ∧ p.debitMoveId = rml := by
      intro p hp
      rw [hps] at hp
      exact ⟨List.mem_of_mem_filter hp,
        eq_of_beq (List.mem_filter.mp hp).2⟩
    have hlkA : ∀ x, acc.1.getMoveLine x = s.getMoveLine x :=
      fun x => getMoveLine_congr _ _ A0.2.2.2.2.1 x
    have hlnA : ∀ ids : List Nat, acc.1.linesOf ids = s.linesOf ids :=
      fun ids => linesOf_congr s acc.1 ids (fun i _ => hlkA i)
    -- the invariants of the inner loop on this line's snapshot
    have i1 : ∀ p ∈ acc.1.partials.filter
        (fun p => p.debitMoveId == rml),
        ∃ c, acc.1.getMoveLine p.creditMoveId = some c ∧ c.debit = 0
          ∧ 0 < c.credit := by
      intro p hp
      obtain ⟨hpm, hpd⟩ := hpsmem p hp
      obtain ⟨c, hc, h1, h2⟩ := hS1 p hpm (by rw [hpd]; exact hrmlR0)
      exact ⟨c, (hlkA _).trans hc, h1, h2⟩
    have i2 : ∀ p ∈ acc.1.partials.filter
        (fun p => p.debitMoveId == rml),
        ∀ o ∈ p.originReturnedMoveIds,
        ∃ ol, acc.1.getMoveLine o = some ol ∧ 0 < ol.debit
          ∧ ol.credit = 0 := by
      intro p hp o ho
      obtain ⟨hpm, hpd⟩ := hpsmem p hp
      obtain ⟨ol, hol, h1, h2⟩ := hS2 p hpm (by rw [hpd]; exact hrmlR0)
        o ho
      exact ⟨ol, (hlkA _).trans hol, h1, h2⟩
    have i3 : ∀ p ∈ acc.1.partials.filter
        (fun p => p.debitMoveId == rml),
        ((acc.1.linesOf p.originReturnedMoveIds).map
          (fun l => l.debit)).sum
        = ((acc.1.linesOf [p.creditMoveId]).map
            (fun l => l.credit)).sum := by
      intro p hp
      obtain ⟨hpm, hpd⟩ := hpsmem p hp
      rw [hlnA, hlnA]
      exact hS3 p hpm (by rw [hpd]; exact hrmlR0)
    have i4 : ((acc.1.partials.filter
        (fun p => p.debitMoveId == rml)).flatMap
        (fun p => p.originReturnedMoveIds ++ [p.creditMoveId])).Nodup
        := by
      rw [hps]
      have he : s.partials.filter (fun p => p.debitMoveId == rml)
          = (s.partials.filter
              (fun p => R0.contains p.debitMoveId)).filter
              (fun p => p.debitMoveId == rml) :=
        (filter_filter_of_imp _ _ _ (fun p _ hb => by
          rw [List.elem_iff]
          rw [eq_of_beq hb]
          exact hrmlR0)).symm
      rw [he]
      exact List.Nodup.sublist
        (sublist_flatMap _ (List.filter_sublist _)) hS4
    have i5 : ∀ p ∈ acc.1.partials.filter
        (fun p => p.debitMoveId == rml),
        ∀ o ∈ p.originReturnedMoveIds, ∀ q ∈ acc.1.partials,
        q.debitMoveId ≠ o ∧ q.creditMoveId ≠ o := by
      intro p hp o ho q hq
      obtain ⟨hpm, hpd⟩ := hpsmem p hp
      rcases A5 q hq with hold | ⟨pd, hpdm, hpdR, hpdRr, hqc, hqd, _⟩
      · exact hS5 p hpm (by rw [hpd]; exact hrmlR0) o ho q hold
      · have hne : pd.debitMoveId ≠ p.debitMoveId := by
          rw [hpd]
          intro he
          exact hpdRr (by rw [he]; exact List.mem_cons_self _ _)
        have hdisj := hcross pd hpdm hpdR p hpm
          (by rw [hpd]; exact hrmlR0) hne
        constructor
        · intro he
          exact hdisj q.debitMoveId (List.mem_append_left _ hqd)
            (List.mem_append_left _ (by rw [he]; exact ho))
        · intro he
          exact hdisj q.creditMoveId
            (List.mem_append_right _ (by
              rw [hqc]
              exact List.mem_cons_self _ _))
            (List.mem_append_left _ (by rw [he]; exact ho))
    obtain ⟨K1, K2, K3, K4, K5⟩ := cancelInner_main n
      (acc.1.partials.filter (fun p => p.debitMoveId == rml)) acc
      i1 i2 i3 i4 i5 A6
    -- the line step is exactly this inner fold
    have hstepdef : PaymentReturn.cancelProcessLine acc rml
        = (acc.1.partials.filter
            (fun p => p.debitMoveId == rml)).foldl
            PaymentReturn.cancelProcessOne acc := rfl
    rw [← hstepdef] at K1 K2 K3 K4 K5
    -- re-establish the invariants for the remaining lines
    have A5' : ∀ q ∈ (PaymentReturn.cancelProcessLine
        acc rml).1.partials,
        q ∈ s.partials
        ∨ (∃ pd ∈ s.partials, pd.debitMoveId ∈ R0
            ∧ pd.debitMoveId ∉ rest
            ∧ q.creditMoveId = pd.creditMoveId
            ∧ q.debitMoveId ∈ pd.originReturnedMoveIds
            ∧ n ≤ q.id) := by
      intro q hq
      rcases K2 q hq with ⟨hold, _⟩ | ⟨hid, p, hp, hqc, hqd⟩
      · rcases A5 q hold with h | ⟨pd, h1, h2, h3, h4, h5, h6⟩
        · exact Or.inl h
        · exact Or.inr ⟨pd, h1, h2,
            (fun hm => h3 (List.mem_cons_of_mem _ hm)), h4, h5, h6⟩
      · obtain ⟨hpm, hpd⟩ := hpsmem p hp
        exact Or.inr ⟨p, hpm, (by rw [hpd]; exact hrmlR0),
          (by rw [hpd]; exact hml_nin), hqc, hqd, hid⟩
    have A1' : ∀ rml2 ∈ rest,
        (PaymentReturn.cancelProcessLine acc rml).1.partials.filter
          (fun p => p.debitMoveId == rml2)
        = s.partials.filter (fun p => p.debitMoveId == rml2) := by
      intro rml2 hr2
      have hr2R0 := hsub rml2 (List.mem_cons_of_mem _ hr2)
      have hfil := cancelInner_filter
        (acc.1.partials.filter (fun p => p.debitMoveId == rml)) acc rml2
        (by
          intro p hp
          obtain ⟨hpm, hpd⟩ := hpsmem p hp
          have := hS6 rml2 hr2R0 p hpm (by rw [hpd]; exact hrmlR0)
          exact ⟨this.2, this.1⟩)
        (by
          intro q hq hqx p hp
          obtain ⟨hpm, hpd⟩ := hpsmem p hp
          rcases A5 q hq with hold | ⟨pd, h1, h2, _, hqc, hqd, _⟩
          · have hne : q.debitMoveId ≠ p.debitMoveId := by
              rw [hqx, hpd]
              intro he
              exact hml_nin (by rw [← he]; exact hr2)
            have hdisj := hcross q hold (by rw [hqx]; exact hr2R0)
              p hpm (by rw [hpd]; exact hrmlR0) hne
            intro he
            exact hdisj q.creditMoveId
              (List.mem_append_right _ (List.mem_cons_self _ _))
              (List.mem_append_right _ (by
                rw [he]
                exact List.mem_cons_self _ _))
          · have := hS6 rml2 hr2R0 pd h1 h2
            exact absurd (by rw [← hqx]; exact hqd) this.1)
      rw [← hstepdef] at hfil
      exact hfil.trans (A1 rml2 (List.mem_cons_of_mem _ hr2))
    have A0' : sameTables (PaymentReturn.cancelProcessLine
        acc rml).1 s := sameTables_trans K4 A0
    have A6' : n ≤ (PaymentReturn.cancelProcessLine acc rml).1.nextId :=
      Nat.le_trans A6 K5
    obtain ⟨R1, R2, R3, R4, R5, R6⟩ := ih
      (PaymentReturn.cancelProcessLine acc rml)
      (fun x hx => hsub x (List.mem_cons_of_mem _ hx)) hnd'
      A5' A1' A0' A6'
    simp only [List.foldl_cons]
    refine ⟨?_, ?_, ?_, ?_, sameTables_trans R5 K4,
      Nat.le_trans K5 R6⟩
    · intro rml2 hr2 p hpm hpd o ho
      rcases List.mem_cons.mp hr2 with rfl | hmem
      · have hpin : p ∈ acc.1.partials.filter
            (fun q => q.debitMoveId == rml2) := by
          rw [hps]
          exact List.mem_filter.mpr ⟨hpm, by
            rw [hpd]
            exact beq_self_eq_true rml2⟩
        obtain ⟨p2, hp2, hda, hca, hia⟩ := K1 p hpin o ho
        refine ⟨p2, R4 p2 hp2 ?_, hda, hca, hia⟩
        intro rml3 hr3 p3 hp3m hp3d
        have hne : p.debitMoveId ≠ p3.debitMoveId := by
          rw [hpd, hp3d]
          intro he
          exact hml_nin (by rw [he]; exact hr3)
        have hdisj := hcross p hpm (by rw [hpd]; exact hrmlR0)
          p3 hp3m (by rw [hp3d]
                      exact hsub rml3 (List.mem_cons_of_mem _ hr3)) hne
        constructor
        · rw [hda]
          intro he
          exact hdisj o (List.mem_append_left _ ho)
            (List.mem_append_right _ (by
              rw [he]
              exact List.mem_cons_self _ _))
        · rw [hca]
          intro he
          exact hdisj p.creditMoveId
            (List.mem_append_right _ (List.mem_cons_self _ _))
            (List.mem_append_right _ (by
              rw [he]
              exact List.mem_cons_self _ _))
      · exact R1 rml2 hmem p hpm hpd o ho
    · intro q hq
      rcases R2 q hq with h | h
      · rcases K2 q h with ⟨hold, _⟩ | ⟨hid, _⟩
        · exact Or.inl hold
        · exact Or.inr hid
      · exact Or.inr h
    · intro rml2 hr2 p hpm hpd q hq hside
      rcases List.mem_cons.mp hr2 with rfl | hmem
      · rcases R2 q hq with h | h
        · rcases K2 q h with ⟨_, hconds⟩ | ⟨hid, _⟩
          · exfalso
            have hpin : p ∈ acc.1.partials.filter
                (fun r => r.debitMoveId == rml2) := by
              rw [hps]
              exact List.mem_filter.mpr ⟨hpm, by
                rw [hpd]
                exact beq_self_eq_true rml2⟩
            have := hconds p hpin
            rcases hside with he | he
            · exact this.1 he
            · exact this.2 he
          · exact hid
        · exact h
      · exact R3 rml2 hmem p hpm hpd q hq hside
    · intro q hq hconds
      have hq1 := K3 q hq (by
        intro p hp
        obtain ⟨hpm, hpd⟩ := hpsmem p hp
        exact hconds rml (List.mem_cons_self _ _) p hpm hpd)
      exact R4 q hq1 (fun rml2 hr2 p hpm hpd =>
        hconds rml2 (List.mem_cons_of_mem _ hr2) p hpm hpd)

theorem check_payment_return_move_ids (t : State) (ids : List Nat) :
    (PaymentReturn.check_payment_return t ids).moves.map
      (fun m => m.id) = t.moves.map (fun m => m.id) :=
  map_id_pres _ _ (fun mm => by
    by_cases hc : ids.contains mm.id
    · rw [if_pos hc]
    · rw [if_neg hc]) t.moves

/-- C6: on a well-formed database (unique move line ids; each
matched-credit partial of a receivable line of the return's entry links
a pure credit line to pure debit origin lines of matching total, with
every line to reconcile appearing once globally, untouched by other
reconciliations, and belonging to entries other than the return's),
`action_cancel` reverses the confirmation's reconciliations: for every
partial reconciliation of a receivable line of the return's journal
entry, the credit move line is un-reconciled (every surviving partial
touching it is newly created) and re-reconciled with each originally
returned move line; the return's journal entry and its move lines are
deleted; and the return ends in state "cancelled" with `move_id`
cleared. -/
theorem C6_action_cancel (s : State) (rid mid : Nat)
    (pr : PaymentReturn) (R0 : List Nat)
    (hpr : s.getReturn rid = some pr)
    (hmid : pr.moveId = some mid)
    (hR0 : R0 = ((s.moveLinesOf mid).filter
      (fun l => s.accountInternalType l == "receivable")).map
      (fun l => l.id))
    (hmlnd : (s.moveLines.map (fun l => l.id)).Nodup)
    (hS1 : ∀ p ∈ s.partials, p.debitMoveId ∈ R0 →
      ∃ c ∈ s.moveLines, s.getMoveLine p.creditMoveId = some c
        ∧ c.debit = 0 ∧ 0 < c.credit)
    (hS2 : ∀ p ∈ s.partials, p.debitMoveId ∈ R0 →
      ∀ o ∈ p.originReturnedMoveIds, ∃ ol ∈ s.moveLines,
        s.getMoveLine o = some ol ∧ 0 < ol.debit ∧ ol.credit = 0)
    (hS3 : ∀ p ∈ s.partials, p.debitMoveId ∈ R0 →
      ((s.linesOf p.originReturnedMoveIds).map (fun l => l.debit)).sum
        = ((s.linesOf [p.creditMoveId]).map (fun l => l.credit)).sum)
    (hS4 : ((s.partials.filter
      (fun p => R0.contains p.debitMoveId)).flatMap
      (fun p => p.originReturnedMoveIds ++ [p.creditMoveId])).Nodup)
    (hS5 : ∀ p ∈ s.partials, p.debitMoveId ∈ R0 →
      ∀ o ∈ p.originReturnedMoveIds, ∀ q ∈ s.partials,
        q.debitMoveId ≠ o ∧ q.creditMoveId ≠ o)
    (hS6 : ∀ x ∈ R0, ∀ p ∈ s.partials, p.debitMoveId ∈ R0 →
      x ∉ p.originReturnedMoveIds ∧ x ≠ p.creditMoveId)
    (hOrig : ∀ p ∈ s.partials, p.debitMoveId ∈ R0 →
      ∀ o ∈ p.originReturnedMoveIds, ∀ l ∈ s.moveLines, l.id = o →
        l.moveId ≠ mid)
    (hCred : ∀ p ∈ s.partials, p.debitMoveId ∈ R0 →
      ∀ l ∈ s.moveLines, l.id = p.creditMoveId → l.moveId ≠ mid) :
    (∀ p ∈ s.partials, p.debitMoveId ∈ R0 →
      (∀ o ∈ p.originReturnedMoveIds,
        ∃ p2 ∈ (PaymentReturn.action_cancel s rid).partials,
          p2.debitMoveId = o ∧ p2.creditMoveId = p.creditMoveId
          ∧ s.nextId ≤ p2.id)
      ∧ (∀ q ∈ (PaymentReturn.action_cancel s rid).partials,
          q.debitMoveId = p.creditMoveId
            ∨ q.creditMoveId = p.creditMoveId → s.nextId ≤ q.id))
    ∧ (∀ mv ∈ (PaymentReturn.action_cancel s rid).moves, mv.id ≠ mid)
    ∧ (∀ l ∈ (PaymentReturn.action_cancel s rid).moveLines,
        l.moveId ≠ mid)
    ∧ (∃ r ∈ (PaymentReturn.action_cancel s rid).returns,
        r.id = rid ∧ r.state = RState.cancelled ∧ r.moveId = none) := by
  have hred : PaymentReturn.action_cancel s rid
      = PaymentReturn.check_payment_return
          { (R0.foldl PaymentReturn.cancelProcessLine (s, [])).1 with
            moves := (R0.foldl PaymentReturn.cancelProcessLine
              (s, [])).1.moves.filter (fun mm => !(mm.id == mid))
            moveLines := (R0.foldl PaymentReturn.cancelProcessLine
              (s, [])).1.moveLines.filter (fun l => !(l.moveId == mid))
            partials := (R0.foldl PaymentReturn.cancelProcessLine
              (s, [])).1.partials.filter (fun p =>
                !((((R0.foldl PaymentReturn.cancelProcessLine
                  (s, [])).1.moveLines.filter
                  (fun l => l.moveId == mid)).map
                  (fun l => l.id)).contains p.debitMoveId)
                && !((((R0.foldl PaymentReturn.cancelProcessLine
                  (s, [])).1.moveLines.filter
                  (fun l => l.moveId == mid)).map
                  (fun l => l.id)).contains p.creditMoveId))
            returns := (R0.foldl PaymentReturn.cancelProcessLine
              (s, [])).1.returns.map (fun r =>
                if r.id == rid then
                  { r with state := RState.cancelled, moveId := none }
                else r) }
          (R0.foldl PaymentReturn.cancelProcessLine (s, [])).2 := by
    unfold PaymentReturn.action_cancel
    simp only [hpr, hmid]
    rw [← hR0]
  have hR0nd : R0.Nodup := by
    rw [hR0]
    exact List.Nodup.sublist (List.Sublist.map _
      ((List.filter_sublist _).trans (List.filter_sublist _))) hmlnd
  obtain ⟨OC1, OC2, OC5, OC7, OC3, OC4⟩ := cancelOuter_main s R0
    s.nextId
    (by
      intro p hp hd
      obtain ⟨c, _, h1, h2, h3⟩ := hS1 p hp hd
      exact ⟨c, h1, h2, h3⟩)
    (by
      intro p hp hd o ho
      obtain ⟨ol, _, h1, h2, h3⟩ := hS2 p hp hd o ho
      exact ⟨ol, h1, h2, h3⟩)
    hS3 hS4 hS5 hS6 R0 (s, []) (fun x hx => hx) hR0nd
    (fun q hq => Or.inl hq) (fun rml _ => rfl)
    ⟨rfl, rfl, rfl, rfl, rfl, rfl, rfl⟩ (Nat.le_refl _)
  have hMLeq : (R0.foldl PaymentReturn.cancelProcessLine
      (s, [])).1.moveLines = s.moveLines := OC3.2.2.2.2.1
  have hRetEq : (R0.foldl PaymentReturn.cancelProcessLine
      (s, [])).1.returns = s.returns := OC3.2.2.2.2.2.2
  have hdead : ∀ x, x ∈ (((R0.foldl PaymentReturn.cancelProcessLine
      (s, [])).1.moveLines.filter (fun l => l.moveId == mid)).map
      (fun l => l.id)) →
      ∃ l ∈ s.moveLines, l.id = x ∧ l.moveId = mid := by
    intro x hx
    obtain ⟨l, hl, hlid⟩ := List.mem_map.mp hx
    refine ⟨l, ?_, hlid, eq_of_beq (List.mem_filter.mp hl).2⟩
    rw [← hMLeq]
    exact List.mem_of_mem_filter hl
  have hdead_o : ∀ p ∈ s.partials, p.debitMoveId ∈ R0 →
      ∀ o ∈ p.originReturnedMoveIds,
      ((((R0.foldl PaymentReturn.cancelProcessLine
        (s, [])).1.moveLines.filter (fun l => l.moveId == mid)).map
        (fun l => l.id)).contains o) = false := by
    intro p hp hd o ho
    cases hc : ((((R0.foldl PaymentReturn.cancelProcessLine
        (s, [])).1.moveLines.filter (fun l => l.moveId == mid)).map
        (fun l => l.id)).contains o) with
    | false => rfl
    | true =>
      obtain ⟨l, hl, hlid, hlmv⟩ := hdead o (List.elem_iff.mp hc)
      exact absurd hlmv (hOrig p hp hd o ho l hl hlid)
  have hdead_c : ∀ p ∈ s.partials, p.debitMoveId ∈ R0 →
      ((((R0.foldl PaymentReturn.cancelProcessLine
        (s, [])).1.moveLines.filter (fun l => l.moveId == mid)).map
        (fun l => l.id)).contains p.creditMoveId) = false := by
    intro p hp hd
    cases hc : ((((R0.foldl PaymentReturn.cancelProcessLine
        (s, [])).1.moveLines.filter (fun l => l.moveId == mid)).map
        (fun l => l.id)).contains p.creditMoveId) with
    | false => rfl
    | true =>
      obtain ⟨l, hl, hlid, hlmv⟩ := hdead p.creditMoveId
        (List.elem_iff.mp hc)
      exact absurd hlmv (hCred p hp hd l hl hlid)
  have hParts : (PaymentReturn.action_cancel s rid).partials
      = (R0.foldl PaymentReturn.cancelProcessLine
        (s, [])).1.partials.filter (fun p =>
          !((((R0.foldl PaymentReturn.cancelProcessLine
            (s, [])).1.moveLines.filter
            (fun l => l.moveId == mid)).map
            (fun l => l.id)).contains p.debitMoveId)
          && !((((R0.foldl PaymentReturn.cancelProcessLine
            (s, [])).1.moveLines.filter
            (fun l => l.moveId == mid)).map
            (fun l => l.id)).contains p.creditMoveId)) := by
    rw [hred]
    exact rfl
  have hMLs : (PaymentReturn.action_cancel s rid).moveLines
      = (R0.foldl PaymentReturn.cancelProcessLine
        (s, [])).1.moveLines.filter (fun l => !(l.moveId == mid)) := by
    rw [hred]
    exact rfl
  have hRets : (PaymentReturn.action_cancel s rid).returns
      = (R0.foldl PaymentReturn.cancelProcessLine
        (s, [])).1.returns.map (fun r =>
          if r.id == rid then
            { r with state := RState.cancelled, moveId := none }
          else r) := by
    rw [hred]
    exact rfl
  have hMoves : (PaymentReturn.action_cancel s rid).moves.map
      (fun m => m.id)
      = ((R0.foldl PaymentReturn.cancelProcessLine
        (s, [])).1.moves.filter (fun mm => !(mm.id == mid))).map
        (fun m => m.id) := by
    rw [hred, check_payment_return_move_ids]
  refine ⟨?_, ?_, ?_, ?_⟩
  · intro p hp hd
    constructor
    · intro o ho
      obtain ⟨p2, hp2, hdq, hcq, hiq⟩ := OC1 p.debitMoveId hd p hp rfl
        o ho
      refine ⟨p2, ?_, hdq, hcq, hiq⟩
      rw [hParts]
      refine List.mem_filter.mpr ⟨hp2, ?_⟩
      rw [show p2.debitMoveId = o from hdq,
        show p2.creditMoveId = p.creditMoveId from hcq,
        hdead_o p hp hd o ho, hdead_c p hp hd]
      rfl
    · intro q hq hside
      rw [hParts] at hq
      exact OC5 p.debitMoveId hd p hp rfl q
        (List.mem_of_mem_filter hq) hside
  · intro mv hmv
    have h2 := List.mem_map_of_mem (fun m => m.id) hmv
    rw [hMoves] at h2
    obtain ⟨mm, hmm, hid⟩ := List.mem_map.mp h2
    have hid2 : mm.id = mv.id := hid
    have hb := (List.mem_filter.mp hmm).2
    intro he
    rw [he] at hid2
    rw [hid2] at hb
    simp at hb
  · intro l hl
    rw [hMLs] at hl
    have hb := (List.mem_filter.mp hl).2
    intro he
    rw [he] at hb
    simp at hb
  · have hprmem : pr ∈ s.returns := by
      unfold State.getReturn at hpr
      exact List.mem_of_find?_eq_some hpr
    have hprid : pr.id = rid := by
      unfold State.getReturn at hpr
      have := List.find?_some hpr
      exact eq_of_beq this
    rw [hRets, hRetEq]
    refine ⟨_, List.mem_map_of_mem _ hprmem, ?_, ?_, ?_⟩
    · rw [if_pos (by rw [hprid]; exact beq_self_eq_true rid)]
      exact hprid
    · rw [if_pos (by rw [hprid]; exact beq_self_eq_true rid)]
    · rw [if_pos (by rw [hprid]; exact beq_self_eq_true rid)]

theorem C6_action_cancel_witness :
    ∃ r ∈ (PaymentReturn.action_cancel wit6 1).returns,
      r.id = 1 ∧ r.state = RState.cancelled ∧ r.moveId = none :=
  (C6_action_cancel wit6 1 50 wit6ret [100] rfl rfl (by decide)
    (by decide) (by decide) (by decide) (by decide) (by decide)
    (by decide) (by decide) (by decide) (by decide)).2.2.2

theorem eqExceptRL_refl (a : State) : eqExceptRL a a :=
  ⟨rfl, rfl, rfl, rfl, rfl, rfl, rfl, rfl, rfl⟩

theorem eqExceptRL_trans {a b c : State} (h1 : eqExceptRL a b)
    (h2 : eqExceptRL b c) : eqExceptRL a c :=
  ⟨h1.1.trans h2.1, h1.2.1.trans h2.2.1, h1.2.2.1.trans h2.2.2.1,
   h1.2.2.2.1.trans h2.2.2.2.1, h1.2.2.2.2.1.trans h2.2.2.2.2.1,
   h1.2.2.2.2.2.1.trans h2.2.2.2.2.2.1,
   h1.2.2.2.2.2.2.1.trans h2.2.2.2.2.2.2.1,
   h1.2.2.2.2.2.2.2.1.trans h2.2.2.2.2.2.2.2.1,
   h1.2.2.2.2.2.2.2.2.trans h2.2.2.2.2.2.2.2.2⟩

theorem eqExceptRL_updLine (i : Nat) (f : ReturnLine → ReturnLine)
    (st : State) : eqExceptRL (updLine i f st) st :=
  ⟨rfl, rfl, rfl, rfl, rfl, rfl, rfl, rfl, rfl⟩

theorem getReturnLine_id (t : State) (i : Nat) (rl : ReturnLine)
    (h : t.getReturnLine i = some rl) : rl.id = i := by
  unfold State.getReturnLine at h
  have h2 := List.find?_some h
  exact eq_of_beq h2

theorem filterMapRL_ids_sublist (t : State) (q : ReturnLine → Bool) :
    ∀ ids : List Nat,
      (((ids.filterMap t.getReturnLine).filter q).map
        (fun l => l.id)).Sublist ids := by
  intro ids
  induction ids with
  | nil => simp
  | cons i rest ih =>
    rw [List.filterMap_cons]
    cases hg : t.getReturnLine i with
    | none => exact List.Sublist.cons i ih
    | some r =>
      have hrid : r.id = i := getReturnLine_id t i r hg
      rw [List.filter_cons]
      cases hq : q r with
      | true =>
        rw [if_pos rfl, List.map_cons, hrid]
        exact List.Sublist.cons₂ i ih
      | false =>
        rw [if_neg (by simp)]
        exact List.Sublist.cons i ih

theorem findMatchFilter_sublist (t : State) (ids : List Nat) :
    (PaymentReturnLine.findMatchFilter t ids).Sublist ids :=
  filterMapRL_ids_sublist t _ ids

theorem findMatchFilter_mem_iff (t : State) (ids : List Nat) (i : Nat)
    (rl : ReturnLine) (hi : i ∈ ids) (hrl : t.getReturnLine i = some rl) :
    i ∈ PaymentReturnLine.findMatchFilter t ids
      ↔ (rl.moveLineIds.isEmpty && rl.reference.isSome) = true := by
  unfold PaymentReturnLine.findMatchFilter
  constructor
  · intro hmem
    obtain ⟨l, hlf, hlid⟩ := List.mem_map.mp hmem
    obtain ⟨hlm, hcond⟩ := List.mem_filter.mp hlf
    have hself : t.getReturnLine l.id = some l :=
      getReturnLine_of_mem_filterMap t ids l hlm
    rw [hlid, hrl] at hself
    injection hself with he
    exact he ▸ hcond
  · intro hcond
    exact List.mem_map.mpr ⟨rl, List.mem_filter.mpr
      ⟨List.mem_filterMap.mpr ⟨i, hi, hrl⟩, hcond⟩,
      getReturnLine_id t i rl hrl⟩

theorem matchInvoiceLine_id (s : State) (l : ReturnLine) :
    (PaymentReturnLine.matchInvoiceLine s l).id = l.id := by
  simp only [PaymentReturnLine.matchInvoiceLine]
  split
  · rfl
  · split
    · rfl
    · rfl

theorem matchMoveLinesOne_id (s : State) (l : ReturnLine) :
    (PaymentReturnLine.matchMoveLinesOne s l).id = l.id := by
  simp only [PaymentReturnLine.matchMoveLinesOne]
  split
  · rfl
  · rfl

theorem matchMoveOne_id (s : State) (l : ReturnLine) :
    (PaymentReturnLine.matchMoveOne s l).id = l.id := by
  simp only [PaymentReturnLine.matchMoveOne]
  split
  · rfl
  · rfl

theorem matchInvoiceLine_ref (s : State) (l : ReturnLine) :
    (PaymentReturnLine.matchInvoiceLine s l).reference = l.reference := by
  simp only [PaymentReturnLine.matchInvoiceLine]
  split
  · rfl
  · split
    · rfl
    · rfl

theorem matchMoveLinesOne_ref (s : State) (l : ReturnLine) :
    (PaymentReturnLine.matchMoveLinesOne s l).reference
      = l.reference := by
  simp only [PaymentReturnLine.matchMoveLinesOne]
  split
  · rfl
  · rfl

theorem matchInvoiceLine_congr (a b : State) (h : eqExceptRL a b) :
    PaymentReturnLine.matchInvoiceLine a
      = PaymentReturnLine.matchInvoiceLine b := by
  obtain ⟨hp, hacc, hj, hmv, hml, hpart, hret, hn, hr⟩ := h
  funext l
  unfold PaymentReturnLine.matchInvoiceLine
  simp only [State.moveLinesOf, State.accountInternalType,
    State.getAccount, hmv, hml, hacc, hpart]

theorem matchMoveLinesOne_congr (a b : State) (h : eqExceptRL a b) :
    PaymentReturnLine.matchMoveLinesOne a
      = PaymentReturnLine.matchMoveLinesOne b := by
  obtain ⟨hp, hacc, hj, hmv, hml, hpart, hret, hn, hr⟩ := h
  funext l
  unfold PaymentReturnLine.matchMoveLinesOne
  simp only [State.accountInternalType, State.getAccount, State.getMove,
    State.getReturn, State.reconciledML, State.residual, hmv, hml, hacc,
    hpart, hret]

theorem matchMoveOne_congr (a b : State) (h : eqExceptRL a b) :
    PaymentReturnLine.matchMoveOne a
      = PaymentReturnLine.matchMoveOne b := by
  obtain ⟨hp, hacc, hj, hmv, hml, hpart, hret, hn, hr⟩ := h
  funext l
  unfold PaymentReturnLine.matchMoveOne
  simp only [State.moveLinesOf, State.accountInternalType,
    State.getAccount, State.reconciledML, State.residual, hmv, hml, hacc,
    hpart]

theorem getMoveLine_fun_congr (a b : State)
    (hml : a.moveLines = b.moveLines) : a.getMoveLine = b.getMoveLine := by
  funext x
  unfold State.getMoveLine
  rw [hml]

theorem mappedPartners_congr (a b : State) (hml : a.moveLines = b.moveLines) :
    PaymentReturnLine.mappedPartners a
      = PaymentReturnLine.mappedPartners b := by
  funext l
  unfold PaymentReturnLine.mappedPartners
  simp only [State.linesOf]
  rw [getMoveLine_fun_congr a b hml]

theorem computedAmount_congr (a b : State)
    (hml : a.moveLines = b.moveLines) :
    PaymentReturnLine.computedAmount a
      = PaymentReturnLine.computedAmount b := by
  funext l
  unfold PaymentReturnLine.computedAmount
  simp only [State.linesOf]
  rw [getMoveLine_fun_congr a b hml]

theorem gpfmUpd_congr (a b : State) (hml : a.moveLines = b.moveLines)
    (hp : a.partners = b.partners) :
    PaymentReturnLine.gpfmUpd a = PaymentReturnLine.gpfmUpd b := by
  funext l l2
  unfold PaymentReturnLine.gpfmUpd
  rw [mappedPartners_congr a b hml]
  unfold State.getPartner
  rw [hp]

theorem matchFold_main (f : State → ReturnLine → ReturnLine)
    (s : State) (hid : ∀ st l, (f st l).id = l.id)
    (hcong : ∀ st, eqExceptRL st s → f st = f s) :
    ∀ (L : List Nat), L.Nodup → ∀ st, eqExceptRL st s →
      eqExceptRL (L.foldl (fun st2 i => updLine i (f st2) st2) st) st
      ∧ (∀ j, j ∉ L →
          (L.foldl (fun st2 i => updLine i (f st2) st2)
            st).getReturnLine j = st.getReturnLine j)
      ∧ (∀ j ∈ L,
          (L.foldl (fun st2 i => updLine i (f st2) st2)
            st).getReturnLine j = (st.getReturnLine j).map (f s)) := by
  intro L
  induction L with
  | nil =>
    intro _ st _
    exact ⟨eqExceptRL_refl st, fun j _ => rfl,
      fun j hj => absurd hj (List.not_mem_nil j)⟩
  | cons i t ih =>
    intro hnd st hst
    obtain ⟨hni, hnd2⟩ := List.nodup_cons.mp hnd
    have hst1 : eqExceptRL (updLine i (f st) st) st :=
      eqExceptRL_updLine i (f st) st
    obtain ⟨E1, E2, E3⟩ := ih hnd2 (updLine i (f st) st)
      (eqExceptRL_trans hst1 hst)
    simp only [List.foldl_cons]
    refine ⟨eqExceptRL_trans E1 hst1, ?_, ?_⟩
    · intro j hj
      rw [E2 j (fun hm => hj (List.mem_cons_of_mem _ hm)),
        getReturnLine_updLine st i j (f st) (hid st),
        if_neg (fun (hji : j = i) => hj (hji ▸ List.mem_cons_self i t))]
    · intro j hj
      rcases List.mem_cons.mp hj with rfl | hjt
      · rw [E2 j hni, getReturnLine_updLine st j j (f st) (hid st),
          if_pos rfl, hcong st hst]
      · rw [E3 j hjt, getReturnLine_updLine st i j (f st) (hid st),
          if_neg (fun (hji : j = i) => hni (hji ▸ hjt))]

theorem gpfmRun_eqExceptRL (s : State) (L : List ReturnLine) :
    ∀ st st', PaymentReturnLine.gpfmRun s st L = Except.ok st' →
      eqExceptRL st' st := by
  induction L with
  | nil =>
    intro st st' h
    injection h with h
    rw [← h]
    exact eqExceptRL_refl st
  | cons l t ih =>
    intro st st' h
    unfold PaymentReturnLine.gpfmRun at h
    by_cases hc : 1 < (PaymentReturnLine.mappedPartners s l).length
    · simp [hc] at h
    · rw [if_neg hc] at h
      exact eqExceptRL_trans (ih _ _ h)
        (eqExceptRL_updLine l.id (PaymentReturnLine.gpfmUpd s l) st)

/-- C7: `_find_match` applies the three matching strategies in the fixed
order `match_invoice`, `match_move_lines`, `match_move`, each applied
exactly to the lines that carry a reference and are still unmatched
(empty `move_line_ids`) after the previous strategies — per line the
cascade `cascadeLine`; afterwards the partner is filled from the matched
move lines (on the partner-less lines) and the amount of every line
whose amount is unset is recomputed as the sum of its matched move
lines' credits; nothing outside the return-line table changes. -/
theorem C7_find_match (s : State) (ids : List Nat) (s' : State)
    (hnd : ids.Nodup)
    (hok : PaymentReturnLine._find_match s ids = Except.ok s') :
    eqExceptRL s' s
    ∧ ∀ i ∈ ids, ∀ rl, s.getReturnLine i = some rl →
        s'.getReturnLine i
          = some (PaymentReturnLine.amountLine s
              (PaymentReturnLine.gpfmLine s
                (PaymentReturnLine.cascadeLine s rl))) := by
  set L1 := PaymentReturnLine.findMatchFilter s ids with hL1d
  set s1 := PaymentReturnLine.match_invoice s L1 with hs1d
  set L2 := PaymentReturnLine.findMatchFilter s1 L1 with hL2d
  set s2 := PaymentReturnLine.match_move_lines s1 L2 with hs2d
  set L3 := PaymentReturnLine.findMatchFilter s2 L2 with hL3d
  set s3 := PaymentReturnLine.match_move s2 L3 with hs3d
  have h0 : PaymentReturnLine._find_match s ids
      = (match PaymentReturnLine._get_partner_from_move s3 ids with
        | Except.error e => Except.error e
        | Except.ok s4 =>
            Except.ok (PaymentReturnLine.computeAmountUnset s4 ids)) :=
    rfl
  rw [h0] at hok
  cases hg : PaymentReturnLine._get_partner_from_move s3 ids with
  | error e =>
    rw [hg] at hok
    cases hok
  | ok s4 =>
    rw [hg] at hok
    injection hok with hok4
    -- stage A: match_invoice over the unmatched referenced lines
    have hnd1 : L1.Nodup :=
      List.Nodup.sublist (findMatchFilter_sublist s ids) hnd
    have hA := matchFold_main PaymentReturnLine.matchInvoiceLine s
      matchInvoiceLine_id (fun st hst => matchInvoiceLine_congr st s hst)
      L1 hnd1 s (eqExceptRL_refl s)
    have e1 : s1 = L1.foldl (fun st2 i =>
        updLine i (PaymentReturnLine.matchInvoiceLine st2) st2) s := rfl
    rw [← e1] at hA
    obtain ⟨A1, A2v, A3v⟩ := hA
    -- stage B: match_move_lines over the still unmatched lines
    have hnd2 : L2.Nodup :=
      List.Nodup.sublist (findMatchFilter_sublist s1 L1) hnd1
    have hB := matchFold_main PaymentReturnLine.matchMoveLinesOne s
      matchMoveLinesOne_id
      (fun st hst => matchMoveLinesOne_congr st s hst)
      L2 hnd2 s1 A1
    have e2 : s2 = L2.foldl (fun st2 i =>
        updLine i (PaymentReturnLine.matchMoveLinesOne st2) st2) s1 := rfl
    rw [← e2] at hB
    obtain ⟨B1, B2v, B3v⟩ := hB
    -- stage C: match_move over the still unmatched lines
    have hnd3 : L3.Nodup :=
      List.Nodup.sublist (findMatchFilter_sublist s2 L2) hnd2
    have hC := matchFold_main PaymentReturnLine.matchMoveOne s
      matchMoveOne_id (fun st hst => matchMoveOne_congr st s hst)
      L3 hnd3 s2 (eqExceptRL_trans B1 A1)
    have e3 : s3 = L3.foldl (fun st2 i =>
        updLine i (PaymentReturnLine.matchMoveOne st2) st2) s2 := rfl
    rw [← e3] at hC
    obtain ⟨C1v, C2v, C3v⟩ := hC
    have hs3s : eqExceptRL s3 s :=
      eqExceptRL_trans C1v (eqExceptRL_trans B1 A1)
    -- the partner step
    have hg2 : PaymentReturnLine.gpfmRun s3 s3
        ((ids.filterMap s3.getReturnLine).filter
          (fun l => !l.partnerId.isSome)) = Except.ok s4 := hg
    have h43 : eqExceptRL s4 s3 := gpfmRun_eqExceptRL s3 _ s3 s4 hg2
    have hndP : ((((ids.filterMap s3.getReturnLine).filter
        (fun l => !l.partnerId.isSome)).map (fun l => l.id))).Nodup :=
      List.Nodup.sublist (filterMapRL_ids_sublist s3 _ ids) hnd
    have hml4s : s4.moveLines = s.moveLines :=
      (eqExceptRL_trans h43 hs3s).2.2.2.2.1
    -- the amount step
    have hAM := matchFold_main (fun st l => if l.amount == 0
        then { l with amount := PaymentReturnLine.computedAmount st l }
        else l) s4
      (fun st l => by
        show (if l.amount == 0 then { l with
            amount := PaymentReturnLine.computedAmount st l }
          else l).id = l.id
        split <;> rfl)
      (fun st hst => by
        funext l
        show (if l.amount == 0 then { l with
            amount := PaymentReturnLine.computedAmount st l } else l)
          = (if l.amount == 0 then { l with
            amount := PaymentReturnLine.computedAmount s4 l } else l)
        rw [computedAmount_congr st s4 hst.2.2.2.2.1])
      ids hnd s4 (eqExceptRL_refl s4)
    refine ⟨?_, ?_⟩
    · rw [← hok4]
      exact eqExceptRL_trans hAM.1 (eqExceptRL_trans h43 hs3s)
    · intro i hi rl hrl
      have hiff1 := findMatchFilter_mem_iff s ids i rl hi hrl
      have hs3i : s3.getReturnLine i
          = some (PaymentReturnLine.cascadeLine s rl) := by
        cases hc0 : (rl.moveLineIds.isEmpty && rl.reference.isSome) with
        | false =>
          have hni1 : i ∉ L1 := fun hm => by
            have h6 := hiff1.mp hm
            rw [hc0] at h6
            cases h6
          have hni2 : i ∉ L2 := fun hm =>
            hni1 ((findMatchFilter_sublist s1 L1).subset hm)
          have hni3 : i ∉ L3 := fun hm =>
            hni2 ((findMatchFilter_sublist s2 L2).subset hm)
          have hcas : PaymentReturnLine.cascadeLine s rl = rl := by
            unfold PaymentReturnLine.cascadeLine
            rw [hc0]
            simp
          rw [C2v i hni3, B2v i hni2, A2v i hni1, hrl, hcas]
        | true =>
          have hi1 : i ∈ L1 := hiff1.mpr hc0
          have hs1i : s1.getReturnLine i
              = some (PaymentReturnLine.matchInvoiceLine s rl) := by
            rw [A3v i hi1, hrl]
            rfl
          have hrefs : rl.reference.isSome = true := by
            have h6 := hc0
            simp only [Bool.and_eq_true] at h6
            exact h6.2
          have hiff2 := findMatchFilter_mem_iff s1 L1 i
            (PaymentReturnLine.matchInvoiceLine s rl) hi1 hs1i
          cases hc1 : (PaymentReturnLine.matchInvoiceLine
              s rl).moveLineIds.isEmpty with
          | false =>
            have hni2 : i ∉ L2 := fun hm => by
              have h6 := hiff2.mp hm
              rw [hc1] at h6
              simp at h6
            have hni3 : i ∉ L3 := fun hm =>
              hni2 ((findMatchFilter_sublist s2 L2).subset hm)
            have hcas : PaymentReturnLine.cascadeLine s rl
                = PaymentReturnLine.matchInvoiceLine s rl := by
              unfold PaymentReturnLine.cascadeLine
              rw [hc0]
              simp [hc1]
            rw [C2v i hni3, B2v i hni2, hs1i, hcas]
          | true =>
            have hi2 : i ∈ L2 := hiff2.mpr (by
              rw [hc1, matchInvoiceLine_ref, hrefs]
              rfl)
            have hs2i : s2.getReturnLine i
                = some (PaymentReturnLine.matchMoveLinesOne s
                  (PaymentReturnLine.matchInvoiceLine s rl)) := by
              rw [B3v i hi2, hs1i]
              rfl
            have hiff3 := findMatchFilter_mem_iff s2 L2 i
              (PaymentReturnLine.matchMoveLinesOne s
                (PaymentReturnLine.matchInvoiceLine s rl)) hi2 hs2i
            cases hc2 : (PaymentReturnLine.matchMoveLinesOne s
                (PaymentReturnLine.matchInvoiceLine
                  s rl)).moveLineIds.isEmpty with
            | false =>
              have hni3 : i ∉ L3 := fun hm => by
                have h6 := hiff3.mp hm
                rw [hc2] at h6
                simp at h6
              have hcas : PaymentReturnLine.cascadeLine s rl
                  = PaymentReturnLine.matchMoveLinesOne s
                    (PaymentReturnLine.matchInvoiceLine s rl) := by
                unfold PaymentReturnLine.cascadeLine
                rw [hc0]
                simp [hc1, hc2]
              rw [C2v i hni3, hs2i, hcas]
            | true =>
              have hi3 : i ∈ L3 := hiff3.mpr (by
                rw [hc2, matchMoveLinesOne_ref, matchInvoiceLine_ref,
                  hrefs]
                rfl)
              have hcas : PaymentReturnLine.cascadeLine s rl
                  = PaymentReturnLine.matchMoveOne s
                    (PaymentReturnLine.matchMoveLinesOne s
                      (PaymentReturnLine.matchInvoiceLine s rl)) := by
                unfold PaymentReturnLine.cascadeLine
                rw [hc0]
                simp [hc1, hc2]
              rw [C3v i hi3, hs2i, hcas]
              rfl
      -- partner step on the cascaded line
      have hs4i : s4.getReturnLine i
          = some (PaymentReturnLine.gpfmLine s
              (PaymentReturnLine.cascadeLine s rl)) := by
        cases hps : (PaymentReturnLine.cascadeLine s rl).partnerId with
        | some pid =>
          have hj : ∀ l ∈ (ids.filterMap s3.getReturnLine).filter
              (fun l => !l.partnerId.isSome), l.id ≠ i := by
            intro l hl hlid
            obtain ⟨hlm, hlcond⟩ := List.mem_filter.mp hl
            have hself := getReturnLine_of_mem_filterMap s3 ids l hlm
            rw [hlid, hs3i] at hself
            injection hself with he
            rw [← he, hps] at hlcond
            cases hlcond
          have hfr := gpfmRun_ok_frame s3 _ s3 s4 hg2 i hj
          rw [hfr, hs3i]
          unfold PaymentReturnLine.gpfmLine
          rw [hps]
          rfl
        | none =>
          have hcmem : PaymentReturnLine.cascadeLine s rl
              ∈ (ids.filterMap s3.getReturnLine).filter
                (fun l => !l.partnerId.isSome) := by
            refine List.mem_filter.mpr
              ⟨List.mem_filterMap.mpr ⟨i, hi, hs3i⟩, ?_⟩
            rw [hps]
            rfl
          have hm := gpfmRun_ok_mem s3 _ s3 s4 hndP hg2 _ hcmem
          have hcid : (PaymentReturnLine.cascadeLine s rl).id = i :=
            getReturnLine_id s3 i _ hs3i
          rw [hcid] at hm
          rw [hm, hs3i,
            gpfmUpd_congr s3 s hs3s.2.2.2.2.1 hs3s.1]
          unfold PaymentReturnLine.gpfmLine
          rw [hps]
          rfl
      -- amount step on the result
      have h5 := hAM.2.2 i hi
      rw [hs4i] at h5
      rw [← hok4]
      refine h5.trans ?_
      show some (if (PaymentReturnLine.gpfmLine s
            (PaymentReturnLine.cascadeLine s rl)).amount == 0
          then { PaymentReturnLine.gpfmLine s
              (PaymentReturnLine.cascadeLine s rl) with
            amount := PaymentReturnLine.computedAmount s4
              (PaymentReturnLine.gpfmLine s
                (PaymentReturnLine.cascadeLine s rl)) }
          else PaymentReturnLine.gpfmLine s
            (PaymentReturnLine.cascadeLine s rl))
        = some (PaymentReturnLine.amountLine s
            (PaymentReturnLine.gpfmLine s
              (PaymentReturnLine.cascadeLine s rl)))
      rw [computedAmount_congr s4 s hml4s]
      rfl

theorem C7_find_match_witness :
    eqExceptRL wit7res wit7
    ∧ ∀ i ∈ [10], ∀ rl, wit7.getReturnLine i = some rl →
        wit7res.getReturnLine i
          = some (PaymentReturnLine.amountLine wit7
              (PaymentReturnLine.gpfmLine wit7
                (PaymentReturnLine.cascadeLine wit7 rl))) :=
  C7_find_match wit7 [10] wit7res (by decide) rfl

end PaymentReturnModel
